import Mathlib

/-!
# Shootzilla: a shallow embedding of the simulation core of `main.cpp`

The definitions below follow `src/main.cpp` function by function.

Conventions of the embedding

* `float` values are exact rationals (`ℚ`), `int` values are `Int` or, where the source keeps
  them non-negative, `Nat`; `char` tiles are their character codes.
* The global random source of the engine is a stream that is read at an explicit position;
  every draw advances the position by one.
* Square roots and vector normalisation belong to the engine library and are passed in as a
  record of functions (`ZLib`).
* Loops whose trip count is not fixed carry a fuel argument and return `none` when it runs out.
* Engine calls without effect on the simulation state (sound, particles, rendering) are left
  out, together with the random draws made for their arguments.
-/

set_option autoImplicit false

namespace Shootzilla

/-! ## Constants and the tile grid -/

/-- Width of the map, `MAPW`. -/
def MAPW : Nat := 17

/-- Height of the map, `MAPH`. -/
def MAPH : Nat := 17

/-- Character code of `' '`. -/
def TILE_EMPTY : Nat := 32

/-- Character code of `'#'`. -/
def TILE_WALL : Nat := 35

/-- Read of `Map[i]`; an index past the array reads as `0`. -/
def tileAt (m : List Nat) (i : Nat) : Nat := m.getD i 0

/-- Read of `MapHeights[i]`; an index past the array reads as `0`. -/
def heightAt (h : List ℚ) (i : Nat) : ℚ := h.getD i 0

/-! ## Vectors and things -/

/-- Two floats, `ZL_Vector`. -/
structure Vec2 where
  x : ℚ
  y : ℚ
deriving DecidableEq

/-- Three floats, `ZL_Vector3`. -/
structure Vec3 where
  x : ℚ
  y : ℚ
  z : ℚ
deriving DecidableEq

namespace Vec3

/-- Component-wise sum. -/
def add (a b : Vec3) : Vec3 := ⟨a.x + b.x, a.y + b.y, a.z + b.z⟩

/-- Component-wise difference. -/
def sub (a b : Vec3) : Vec3 := ⟨a.x - b.x, a.y - b.y, a.z - b.z⟩

/-- Product with a scalar. -/
def smul (a : Vec3) (k : ℚ) : Vec3 := ⟨a.x * k, a.y * k, a.z * k⟩

/-- Quotient by a scalar. -/
def sdiv (a : Vec3) (k : ℚ) : Vec3 := ⟨a.x / k, a.y / k, a.z / k⟩

/-- Dot product, `operator|`. -/
def dot (a b : Vec3) : ℚ := a.x * b.x + a.y * b.y + a.z * b.z

/-- Squared distance, `GetDistanceSq`. -/
def distSq (a b : Vec3) : ℚ := (a.x - b.x) ^ 2 + (a.y - b.y) ^ 2 + (a.z - b.z) ^ 2

/-- Squared length, `GetLengthSq`. -/
def lengthSq (a : Vec3) : ℚ := a.x ^ 2 + a.y ^ 2 + a.z ^ 2

/-- Projection on the ground plane, `ToXY`. -/
def toXY (a : Vec3) : Vec2 := ⟨a.x, a.y⟩

end Vec3

namespace Vec2

/-- Component-wise difference. -/
def sub (a b : Vec2) : Vec2 := ⟨a.x - b.x, a.y - b.y⟩

/-- Squared length, `GetLengthSq`. -/
def lengthSq (a : Vec2) : ℚ := a.x ^ 2 + a.y ^ 2

/-- Squared distance, `GetDistanceSq`. -/
def distSq (a b : Vec2) : ℚ := (a.x - b.x) ^ 2 + (a.y - b.y) ^ 2

end Vec2

/-- Engine library functions that take a square root. -/
structure ZLib where
  /-- Length of a vector, `ZL_Vector3::GetLength`. -/
  GetLength : Vec3 → ℚ
  /-- Unit vector of a planar vector, `ZL_Vector::Norm`. -/
  Norm2 : Vec2 → Vec2
  /-- Unit vector of a vector, `ZL_Vector3::VecNorm`. -/
  VecNorm : Vec3 → Vec3

/-- Type tag of a thing, `Thing::Type`. -/
inductive ThingType where
  | BULLET | PLAYER | ENEMY_SPIDER | ENEMY_BAT | ENEMY_GHOST | WORLD
deriving DecidableEq

/-- Base record `Thing`; `pos` is the translation of `mtx`. -/
structure Thing where
  type : ThingType
  radius : ℚ
  pos : Vec3
  vel : Vec3
deriving DecidableEq

/-- Record `Player`. -/
structure Player extends Thing where
  dir : Vec3
  weapontimer : ℚ
  maxhealth : ℚ
  health : ℚ
  lasthit : Nat
  jumps : Int
deriving DecidableEq

/-- Record `Enemy`. -/
structure Enemy extends Thing where
  movetarget : Vec2
  movespeed : ℚ
  attackdamage : ℚ
  attackspeed : ℚ
  attacktimer : ℚ
  health : ℚ
deriving DecidableEq

/-- The collision partner a `Thing*` result points at. -/
inductive Partner where
  | world
  | enemy (i : Nat)
  | player
deriving DecidableEq

/-- The constructor `Bullet()` with its pose and velocity set. -/
def mkBullet (pos vel : Vec3) : Thing :=
  { type := ThingType.BULLET, radius := 1 / 10, pos := pos, vel := vel }

/-! ## Random source -/

/-- The stream behind the `RAND_*` macros: integer draws and factor draws in `[0,1]`. -/
structure RandSrc where
  ints : Nat → Nat
  factors : Nat → ℚ

/-- Draw of `RAND_INT_MAX(m)`: a value in `0..m` and the next stream position. -/
def RAND_INT_MAX (rs : RandSrc) (pos : Nat) (m : Nat) : Nat × Nat :=
  (rs.ints pos % (m + 1), pos + 1)

/-- Draw of `RAND_CHANCE(n)`: true once in `n`. -/
def RAND_CHANCE (rs : RandSrc) (pos : Nat) (n : Nat) : Bool × Nat :=
  (rs.ints pos % n == 0, pos + 1)

/-- Draw of `RAND_RANGE(lo, hi)`. -/
def RAND_RANGE (rs : RandSrc) (pos : Nat) (lo hi : ℚ) : ℚ × Nat :=
  (lo + (hi - lo) * rs.factors pos, pos + 1)

/-! ## Global state -/

/-- The file-level variables of the simulation. -/
structure Game where
  wave : Int
  wavespawns : Int
  kills : Int
  waveticks : Nat
  gameover : Nat
  Map : List Nat
  MapHeights : List ℚ
  player : Player
  bullets : List Thing
  enemies : List Enemy
  rndpos : Nat

/-! ## `StartWave` -/

/-- State of the carving walk: the grid, the walker and the stream position. -/
structure Carve where
  Map : List Nat
  currentx : Nat
  currenty : Nat
  pos : Nat

/-- One round of the seed loop: `Map[emptyX*MAPW+emptyY] = TILE_EMPTY`. -/
def seedStep (rs : RandSrc) (s : List Nat × Nat) : List Nat × Nat :=
  let ex := RAND_INT_MAX rs s.2 (MAPW / 2 - 1)
  let ey := RAND_INT_MAX rs ex.2 (MAPH / 2 - 1)
  (s.1.set ((1 + 2 * ex.1) * MAPW + (1 + 2 * ey.1)) TILE_EMPTY, ey.2)

/-- One round of the `for (i != 100)` walk loop. -/
def carveStep (rs : RandSrc) (empty : Nat) (s : Carve) : Carve :=
  let oldx := s.currentx
  let oldy := s.currenty
  let r := RAND_INT_MAX rs s.pos 3
  let cx := if r.1 = 0 then (if oldx < MAPW - 2 then oldx + 2 else oldx)
            else if r.1 = 2 then (if oldx > 2 then oldx - 2 else oldx) else oldx
  let cy := if r.1 = 1 then (if oldy < MAPH - 2 then oldy + 2 else oldy)
            else if r.1 = 3 then (if oldy > 2 then oldy - 2 else oldy) else oldy
  if tileAt s.Map (cy * MAPW + cx) = empty then
    { Map := s.Map, currentx := cx, currenty := cy, pos := r.2 }
  else
    { Map := (s.Map.set (cy * MAPW + cx) empty).set
        (((cy + oldy) / 2) * MAPW + ((cx + oldx) / 2)) empty,
      currentx := cx, currenty := cy, pos := r.2 }

/-- Repetition of `carveStep`. -/
def carveSteps (rs : RandSrc) (empty : Nat) : Nat → Carve → Carve
  | 0, s => s
  | n + 1, s => carveSteps rs empty n (carveStep rs empty s)

/-- Coordinates `1, 3, .., 15` of the lattice cells. -/
def oddCoords : List Nat := [1, 3, 5, 7, 9, 11, 13, 15]

/-- The check before `goto REGENERATE`: no lattice cell holds a character above `' '`. -/
def allVisited (m : List Nat) : Bool :=
  oddCoords.all fun y => oddCoords.all fun x => !(decide (tileAt m (y * MAPW + x) > TILE_EMPTY))

/-- The `REGENERATE` loop: a hundred walk steps, repeated until the check passes. -/
def regenerate (rs : RandSrc) (empty : Nat) : Nat → Carve → Option Carve
  | 0, _ => none
  | fuel + 1, s =>
    let s1 := carveSteps rs empty 100 s
    if allVisited s1.Map then some s1 else regenerate rs empty fuel s1

/-- Coordinates `currentx - 2 .. currentx + 2` of the centre block. -/
def blockCoords : List Nat := [7, 8, 9, 10, 11]

/-- The two nested loops that set the centre block to `empty`. -/
def fillBlock (empty : Nat) (m : List Nat) : List Nat :=
  blockCoords.foldl (fun m y => blockCoords.foldl (fun m x => m.set (y * MAPW + x) empty) m) m

/-- One round of the `for (char empty ...)` loop. -/
def carvePass (rs : RandSrc) (fuel : Nat) (empty : Nat) (s : List Nat × Nat) :
    Option (List Nat × Nat) :=
  match regenerate rs empty fuel
    { Map := fillBlock empty s.1, currentx := MAPW / 2 ||| 1, currenty := MAPH / 2 ||| 1,
      pos := s.2 } with
  | none => none
  | some c => some (c.Map, c.pos)

/-- The loop `for (char& c : Map) if (c < TILE_EMPTY) c = TILE_EMPTY`. -/
def normalise (m : List Nat) : List Nat := m.map fun c => if c < TILE_EMPTY then TILE_EMPTY else c

/-- Coordinates `2, 4, .., 14` of the pillar cells. -/
def evenCoords : List Nat := [2, 4, 6, 8, 10, 12, 14]

/-- Body of the pillar loop; `RAND_CHANCE` is drawn only when the five tests before it hold. -/
def pillarStep (rs : RandSrc) (y x : Nat) (s : List Nat × Nat) : List Nat × Nat :=
  if tileAt s.1 (y * MAPW + x) > TILE_EMPTY ∧ tileAt s.1 (y * MAPW + x - 1) ≤ TILE_EMPTY
      ∧ tileAt s.1 (y * MAPW + x + 1) ≤ TILE_EMPTY ∧ tileAt s.1 (y * MAPW - MAPW + x) ≤ TILE_EMPTY
      ∧ tileAt s.1 (y * MAPW + MAPW + x) ≤ TILE_EMPTY then
    let c := RAND_CHANCE rs s.2 10
    if !c.1 then (s.1.set (y * MAPW + x) TILE_EMPTY, c.2) else (s.1, c.2)
  else s

/-- The loop that clears pillars with nothing around. -/
def clearPillars (rs : RandSrc) (s : List Nat × Nat) : List Nat × Nat :=
  evenCoords.foldl (fun s y => evenCoords.foldl (fun s x => pillarStep rs y x s) s) s

/-- The `memset` of the grid to wall, with the terminator behind it, and the seed loop. -/
def seedLoop (rs : RandSrc) (pos : Nat) : List Nat × Nat :=
  (List.range 10).foldl (fun s _ => seedStep rs s)
    (List.replicate (MAPW * MAPH) TILE_WALL ++ [0], pos)

/-- The part of `StartWave` before `if (wave == 0)`. -/
def mazeMap (rs : RandSrc) (fuel : Nat) (pos : Nat) : Option (List Nat × Nat) :=
  match carvePass rs fuel 0 (seedLoop rs pos) with
  | none => none
  | some s2 =>
    match carvePass rs fuel 1 s2 with
    | none => none
    | some s3 => some (clearPillars rs (normalise s3.1, s3.2))

/-- Test of the wave-0 height loop: the index lies on the outer ring. -/
def onRing (i : Nat) : Bool :=
  decide (i < MAPW) || decide (i ≥ MAPW * MAPH - MAPW) || decide (i % MAPW = 0)
    || decide (i % MAPW = MAPW - 1)

/-- The wave-0 loop that draws the heights of the outer ring. -/
def ringHeights (rs : RandSrc) (s : List ℚ × Nat) : List ℚ × Nat :=
  (List.range (MAPW * MAPH)).foldl
    (fun s i => if onRing i then
        let r := RAND_RANGE rs s.2 (22 / 10) (28 / 10)
        (s.1.set i r.1, r.2)
      else s) s

/-- Coordinates `1 .. MAPW-2` of the interior. -/
def innerCoords : List Nat := [1, 2, 3, 4, 5, 6, 7, 8, 9, 10, 11, 12, 13, 14, 15]

/-- The wave-0 loops that empty the interior. -/
def clearInterior (m : List Nat) : List Nat :=
  innerCoords.foldl (fun m y => innerCoords.foldl (fun m x => m.set (x + y * MAPW) TILE_EMPTY) m) m

/-- The function `StartWave`. -/
def StartWave (rs : RandSrc) (fuel : Nat) (g : Game) : Option Game :=
  match mazeMap rs fuel g.rndpos with
  | none => none
  | some s =>
    if g.wave = 0 then
      let h := ringHeights rs (g.MapHeights, s.2)
      some { g with Map := clearInterior s.1, MapHeights := h.1, rndpos := h.2 }
    else
      some { g with Map := s.1, rndpos := s.2, wavespawns := 4 + (g.wave - 1) * 3 }

/-! ## `CalcAttackCount` -/

/-- The `for` loop of `CalcAttackCount`; the state is `dtx`, `timer` and `n`. -/
def attackLoop (delay : ℚ) (attacking : Bool) : Nat → ℚ → ℚ → Nat → Option (Nat × ℚ)
  | 0, dtx, timer, n => if min dtx delay > 0 then none else some (n, timer)
  | fuel + 1, dtx, timer, n =>
    if min dtx delay > 0 then
      let timer1 := timer + min dtx delay
      if !attacking then attackLoop delay attacking fuel (dtx - min dtx delay) timer1 n
      else
        let timer2 := if timer1 > 0 then 0 else timer1
        if timer2 < 0 then attackLoop delay attacking fuel (dtx - min dtx delay) timer2 n
        else attackLoop delay attacking fuel (dtx - min dtx delay) (timer2 - delay) (n + 1)
    else some (n, timer)

/-- The function `CalcAttackCount`: the count returned and the timer left behind.
The loop runs `⌈dt / delay⌉` times at most, which is the fuel it is given. -/
def CalcAttackCount (dt timer delay : ℚ) (attacking : Bool) : Option (Nat × ℚ) :=
  attackLoop delay attacking ⌈dt / delay⌉₊ dt timer 0

/-! ## `AStarMoveTarget` -/

/-- Integer `ZL_Math::Clamp`. -/
def Clamp (v lo hi : Int) : Int := if v < lo then lo else if v > hi then hi else v

/-- Read of `Map[i]` at an `int` index; `none` outside the array. -/
def tileAtI (m : List Nat) (i : Int) : Option Nat :=
  if 0 ≤ i ∧ i < m.length then some (tileAt m i.toNat) else none

/-- The iterator `SpiralRange`. -/
structure SpiralRange where
  x : Int
  y : Int
  tilex : Int
  tiley : Int
  deltax : Int
  deltay : Int
deriving DecidableEq

namespace SpiralRange

/-- The constructor `SpiralRange(idxstart)`. -/
def start (idxstart : Int) : SpiralRange :=
  { x := idxstart.tmod MAPW, y := idxstart.tdiv MAPW, tilex := 0, tiley := 0, deltax := 0,
    deltay := -1 }

/-- One round of the `do` body of `operator++`. -/
def turn (s : SpiralRange) : SpiralRange :=
  let corner : Bool := decide (s.tilex = s.tiley) || decide (s.tilex < 0 ∧ s.tilex = -s.tiley)
    || decide (s.tilex > 0 ∧ s.tilex = 1 - s.tiley)
  let dx := if corner then -s.deltay else s.deltax
  let dy := if corner then s.deltax else s.deltay
  { x := s.x - s.tilex + (s.tilex + dx), y := s.y - s.tiley + (s.tiley + dy),
    tilex := s.tilex + dx, tiley := s.tiley + dy, deltax := dx, deltay := dy }

/-- The `while` condition of `operator++`. -/
def outside (s : SpiralRange) : Bool :=
  decide (s.x < 1) || decide (s.x ≥ (MAPW : Int) - 1) || decide (s.y < 1)
    || decide (s.y ≥ (MAPH : Int) - 1)

/-- The operator `++`: turn until the position is inside the border. -/
def advance : Nat → SpiralRange → Option SpiralRange
  | 0, _ => none
  | fuel + 1, s => if (turn s).outside then advance fuel (turn s) else some (turn s)

/-- The operator `*`. -/
def deref (s : SpiralRange) : Int := s.x + s.y * MAPW

end SpiralRange

/-- The range-`for` over a `SpiralRange` that stops at the first empty tile. -/
def spiralScan (m : List Nat) : Nat → SpiralRange → Option Int
  | 0, _ => none
  | fuel + 1, s =>
    match tileAtI m s.deref with
    | none => none
    | some c =>
      if c = TILE_EMPTY then some s.deref
      else
        match SpiralRange.advance (fuel + 1) s with
        | none => none
        | some s1 => spiralScan m fuel s1

/-- The line `if (Map[idx] == TILE_WALL) { for (int i : SpiralRange(idx)) ... }`. -/
def snapToEmpty (m : List Nat) (fuel : Nat) (idx : Int) : Option Int :=
  match tileAtI m idx with
  | none => none
  | some c => if c = TILE_WALL then spiralScan m fuel (SpiralRange.start idx) else some idx

/-- The arrays of the search. `Frontier` holds the entries below `FrontierCount`. -/
structure Bfs where
  Frontier : List Nat
  Visited : List Bool
  Path : List Nat

/-- Outcome of a round of the search: go on, or return the tile `idxTarget`. -/
inductive Scan where
  | more (s : Bfs)
  | done (idxTarget : Nat)

/-- The `switch (Dir)`: the neighbour index, or `none` where the source says `continue`. -/
def neighbor (InYWall InXWall : Bool) (idx Dir : Nat) : Option Nat :=
  if Dir = 0 then (if InYWall ∨ idx % MAPW = 0 then none else some (idx - 1))
  else if Dir = 1 then (if InYWall ∨ idx % MAPW = MAPW - 1 then none else some (idx + 1))
  else if Dir = 2 then (if InXWall ∨ idx < MAPW then none else some (idx - MAPW))
  else (if InXWall ∨ idx ≥ MAPW * MAPH - MAPW then none else some (idx + MAPW))

/-- The loop that turns the predecessor chain round, from the target back to `idxFrom`. -/
def backWalk (idxFrom : Nat) : Nat → Nat → Nat → List Nat → Option (List Nat)
  | 0, _, _, _ => none
  | fuel + 1, idx1, idx2, Path =>
    if idx1 = idxFrom then some Path
    else backWalk idxFrom fuel idx2 (Path.getD idx2 0) (Path.set idx2 idx1)

/-- Body of the `for (Dir)` loop for one direction. -/
def visitDir (m : List Nat) (idxFrom idxTo : Nat) (InYWall InXWall : Bool) (idx Dir : Nat)
    (s : Bfs) : Option Scan :=
  match neighbor InYWall InXWall idx Dir with
  | none => some (Scan.more s)
  | some idxNeighbor =>
    if s.Visited.getD idxNeighbor false then some (Scan.more s)
    else if tileAt m idxNeighbor ≠ TILE_EMPTY then
      some (Scan.more { s with Visited := s.Visited.set idxNeighbor true })
    else if idxNeighbor = idxTo then
      match backWalk idxFrom (MAPW * MAPH + 1) idxNeighbor idx s.Path with
      | none => none
      | some P => some (Scan.done (P.getD idxFrom 0))
    else
      some (Scan.more { Frontier := s.Frontier ++ [idxNeighbor],
                        Visited := s.Visited.set idxNeighbor true,
                        Path := s.Path.set idxNeighbor idx })

/-- The `for (Dir)` loop over the directions listed. -/
def visitDirs (m : List Nat) (idxFrom idxTo : Nat) (InYWall InXWall : Bool) (idx : Nat) :
    List Nat → Bfs → Option Scan
  | [], s => some (Scan.more s)
  | Dir :: rest, s =>
    match visitDir m idxFrom idxTo InYWall InXWall idx Dir s with
    | none => none
    | some (Scan.done t) => some (Scan.done t)
    | some (Scan.more s1) => visitDirs m idxFrom idxTo InYWall InXWall idx rest s1

/-- The loop `while (FrontierDone != FrontierCount)`; `some none` is the exit without a path. -/
def searchLoop (m : List Nat) (idxFrom idxTo : Nat) :
    Nat → Nat → Bool → Bool → Bfs → Option (Option Nat)
  | 0, _, _, _, _ => none
  | fuel + 1, FrontierDone, InYWall, InXWall, s =>
    if FrontierDone = s.Frontier.length then some none
    else
      match visitDirs m idxFrom idxTo InYWall InXWall (s.Frontier.getD FrontierDone 0)
          [0, 1, 2, 3] s with
      | none => none
      | some (Scan.done t) => some (some t)
      | some (Scan.more s1) => searchLoop m idxFrom idxTo fuel (FrontierDone + 1) false false s1

/-- The arrays when the search starts. `Path` is not initialised in the source; the model
starts it at `0`. The only entry read before it is written is `Path[idxFrom]`, in the last
round of the back walk, and the value read there is not used. -/
def Bfs.init (idxFrom : Nat) : Bfs :=
  { Frontier := [idxFrom],
    Visited := (List.replicate (MAPW * MAPH) false).set idxFrom true,
    Path := List.replicate (MAPW * MAPH) 0 }

/-- The breadth-first search of `AStarMoveTarget`, from the first `Frontier` entry on. -/
def search (m : List Nat) (idxFrom idxTo : Nat) : Option (Option Nat) :=
  searchLoop m idxFrom idxTo (MAPW * MAPH + 1) 0
    (decide (idxFrom < MAPW) || decide (idxFrom ≥ MAPW * MAPH - MAPW))
    (decide (idxFrom % MAPW = 0) || decide (idxFrom % MAPW = MAPW - 1))
    (Bfs.init idxFrom)

/-- The value `to` after the line `to = ZLV(Clamp(itox, 2, MAPW-2), Clamp(itoy, 2, MAPH-2))`. -/
def clampedTarget (posTo : Vec2) : Vec2 :=
  ⟨(Clamp ⌊posTo.x⌋ (1 + 1) ((MAPW : Int) - 1 - 1) : Int),
   (Clamp ⌊posTo.y⌋ (1 + 1) ((MAPH : Int) - 1 - 1) : Int)⟩

/-- Centre of the tile `idx`. -/
def tileCentre (idx : Nat) : Vec2 := ⟨((idx % MAPW : Nat) : ℚ) + 1 / 2, ((idx / MAPW : Nat) : ℚ) + 1 / 2⟩

/-- The function `AStarMoveTarget`. `fuel` bounds the spiral scans; the result is `none` when
a scan runs out of fuel or an index leaves its array. -/
def AStarMoveTarget (m : List Nat) (fuel : Nat) (posFrom posTo : Vec2) : Option Vec2 :=
  let idxFrom : Int := ⌊posFrom.x⌋ + ⌊posFrom.y⌋ * MAPW
  let idxTo : Int := ⌊posTo.x⌋ + ⌊posTo.y⌋ * MAPW
  if idxTo = idxFrom then some (clampedTarget posTo)
  else
    match snapToEmpty m fuel idxTo with
    | none => none
    | some idxTo1 =>
      match snapToEmpty m fuel idxFrom with
      | none => none
      | some idxFrom1 =>
        if idxTo1 = idxFrom1 then some (clampedTarget posTo)
        else if idxFrom1.toNat < MAPW * MAPH then
          match search m idxFrom1.toNat idxTo1.toNat with
          | none => none
          | some none => some (clampedTarget posTo)
          | some (some idxTarget) => some (tileCentre idxTarget)
        else none

/-! ## `DoCollision` and `DoMove` -/

/-- Entry of the vector `cols`. -/
structure Col where
  pos : Vec3
  dir : Vec3
  what : Partner
  dist : ℚ
deriving DecidableEq

/-- Values of a loop `for (v = a; v <= b; v++)`. -/
def intRange (a b : Int) : List Int := (List.range (b + 1 - a).toNat).map fun k => a + (k : Int)

/-- Colliders pushed for the tile in column `x` of row `y`. A read past the arrays gives a
tile that is not empty, of height `0`. -/
def tileCols (g : Game) (tpos : Vec3) (stepHeight : ℚ) (y x : Int) : List Col :=
  let ti := (x + y * MAPW).toNat
  if tileAt g.Map ti = TILE_EMPTY then []
  else
    let h := heightAt g.MapHeights ti
    (if stepHeight ≠ 0 then
      [{ pos := ⟨x + 1 / 2, y + 1 / 2, h⟩, dir := ⟨0, 0, 1⟩, what := Partner.world, dist := 0 }]
     else []) ++
    (if tpos.z < h - stepHeight then
      (if tpos.x > ((x + 1 : Int) : ℚ) then
        [{ pos := ⟨x + 1, y + 1 / 2, h⟩, dir := ⟨1, 0, 0⟩, what := Partner.world, dist := 0 }]
       else []) ++
      (if tpos.x < (x : ℚ) then
        [{ pos := ⟨x + 0, y + 1 / 2, h⟩, dir := ⟨-1, 0, 0⟩, what := Partner.world, dist := 0 }]
       else []) ++
      (if tpos.y > ((y + 1 : Int) : ℚ) then
        [{ pos := ⟨x + 1 / 2, y + 1, h⟩, dir := ⟨0, 1, 0⟩, what := Partner.world, dist := 0 }]
       else []) ++
      (if tpos.y < (y : ℚ) then
        [{ pos := ⟨x + 1 / 2, y + 0, h⟩, dir := ⟨0, -1, 0⟩, what := Partner.world, dist := 0 }]
       else [])
     else [])

/-- Colliders of the tile scan, rows outside, columns inside. -/
def wallCols (g : Game) (tpos : Vec3) (stepHeight : ℚ) : List Col :=
  let xfrom := Clamp ⌊tpos.x - 1⌋ 0 MAPW
  let xto := Clamp ⌊tpos.x + 1⌋ 0 MAPW
  let yfrom := Clamp ⌊tpos.y - 1⌋ 0 MAPH
  let yto := Clamp ⌊tpos.y + 1⌋ 0 MAPH
  (intRange yfrom yto).flatMap fun y => (intRange xfrom xto).flatMap fun x =>
    tileCols g tpos stepHeight y x

/-- Colliders of a ground enemy against the other enemies; `i` is the index of the head of
the list and `self` the index of the moving thing, which is skipped. -/
def enemyCols (lib : ZLib) (self : Option Nat) (t : Thing) (tpos : Vec3) :
    Nat → List Enemy → List Col
  | _, [] => []
  | i, e :: es =>
    (if self = some i then []
     else
      let d := tpos.toXY.sub e.pos.toXY
      let dist := d.lengthSq
      if dist > (e.radius + t.radius + 1 / 4) * (e.radius + t.radius + 1 / 4) then []
      else if dist < 1 / 100 then []
      else
        let dir := lib.Norm2 d
        [{ pos := ⟨e.pos.x + dir.x * e.radius, e.pos.y + dir.y * e.radius, e.pos.z + 1⟩,
           dir := ⟨dir.x, dir.y, 0⟩, what := Partner.enemy i, dist := 0 }])
    ++ enemyCols lib self t tpos (i + 1) es

/-- Collider of a ground enemy against the player. -/
def playerCols (lib : ZLib) (p : Player) (t : Thing) (tpos : Vec3) : List Col :=
  let d := tpos.toXY.sub p.pos.toXY
  let dist := d.lengthSq
  if dist < (p.radius + t.radius + 1 / 4) * (p.radius + t.radius + 1 / 4) ∧ dist ≥ 1 / 100 then
    let dir := lib.Norm2 d
    [{ pos := ⟨p.pos.x + dir.x * p.radius, p.pos.y + dir.y * p.radius, p.pos.z + 1⟩,
       dir := ⟨dir.x, dir.y, 0⟩, what := Partner.player, dist := 0 }]
  else []

/-- The call of `sort` on `cols`, by `dist`. The order `sort` gives to entries of equal
`dist` is not fixed by the language; the model keeps them in the order they were pushed. -/
def sortCols (cols : List Col) : List Col := cols.insertionSort fun a b => a.dist ≤ b.dist

/-- State of the resolution loop: the position, `t.vel.z` and `collided`. -/
structure Resolve where
  tpos : Vec3
  velz : ℚ
  collided : Option Partner
deriving DecidableEq

/-- Body of the resolution loop `for (Col& c : cols)`. -/
def resolveStep (radius : ℚ) (s : Resolve) (c : Col) : Resolve :=
  if s.tpos.z ≥ c.pos.z then s
  else
    let dist := (s.tpos.sub c.pos).dot c.dir
    if dist > radius then s
    else if c.dir.z ≠ 0 then
      if |s.tpos.x - c.pos.x| > radius + 1 / 2 then s
      else if |s.tpos.y - c.pos.y| > radius + 1 / 2 then s
      else
        { tpos := { s.tpos with z := c.pos.z }, velz := if s.velz < 0 then 0 else s.velz,
          collided := some c.what }
    else
      let pOnPlane := s.tpos.sub (c.dir.smul dist)
      if pOnPlane.toXY.distSq c.pos.toXY > (radius + 1 / 2) * (radius + 1 / 2) then s
      else
        { tpos := s.tpos.add (c.dir.smul (radius - dist + 1 / 1000)), velz := s.velz,
          collided := some c.what }

/-- The four tests against the world bounds after the resolution loop. -/
def clampBounds (s : Resolve) : Resolve :=
  let s1 := if s.tpos.x < 0 then
    { s with tpos := { s.tpos with x := 0 }, collided := some Partner.world } else s
  let s2 := if s1.tpos.y < 0 then
    { s1 with tpos := { s1.tpos with y := 0 }, collided := some Partner.world } else s1
  let s3 := if s2.tpos.x > (MAPW : ℚ) then
    { s2 with tpos := { s2.tpos with x := (MAPW : ℚ) }, collided := some Partner.world } else s2
  if s3.tpos.y > (MAPH : ℚ) then
    { s3 with tpos := { s3.tpos with y := (MAPH : ℚ) }, collided := some Partner.world } else s3

/-- The vector `cols` before the sort, with `dist` set to the squared distance. -/
def gatherCols (lib : ZLib) (g : Game) (self : Option Nat) (t : Thing) (stepHeight : ℚ) :
    List Col :=
  let tpos := t.pos
  let cols := wallCols g tpos stepHeight
    ++ [{ pos := ⟨tpos.x, tpos.y, 0⟩, dir := ⟨0, 0, 1⟩, what := Partner.world, dist := 0 }]
    ++ (if t.type = ThingType.ENEMY_SPIDER then enemyCols lib self t tpos 0 g.enemies else [])
    ++ (if t.type = ThingType.ENEMY_SPIDER then playerCols lib g.player t tpos else [])
  cols.map fun c => { c with dist := tpos.distSq c.pos }

/-- The function `DoCollision`: the thing after the pass and the value returned. `self` is the
index of the thing in `enemies` when it is one of them. -/
def DoCollision (lib : ZLib) (g : Game) (self : Option Nat) (t : Thing) (stepHeight : ℚ) :
    Thing × Option Partner :=
  if t.pos.z < -10 ∨ t.pos.z > 20 then (t, some Partner.world)
  else
    let r := clampBounds
      ((sortCols (gatherCols lib g self t stepHeight)).foldl (resolveStep t.radius)
        { tpos := t.pos, velz := t.vel.z, collided := none })
    ({ t with pos := if r.collided.isSome then r.tpos else t.pos,
              vel := { t.vel with z := r.velz } }, r.collided)

/-- The `for` loop of `DoMove`; the state is `movelen`, the thing and `collided`. -/
def DoMoveLoop (lib : ZLib) (g : Game) (self : Option Nat) (stepHeight : ℚ) (movedir : Vec3) :
    Nat → ℚ → Thing → Option Partner → Option (Thing × Option Partner)
  | 0, movelen, t, collided => if min movelen (2 / 10) > 0 then none else some (t, collided)
  | fuel + 1, movelen, t, collided =>
    if min movelen (2 / 10) > 0 then
      let r := DoCollision lib g self
        { t with pos := t.pos.add (movedir.smul (min movelen (2 / 10))) } stepHeight
      DoMoveLoop lib g self stepHeight movedir fuel (movelen - min movelen (2 / 10)) r.1 r.2
    else some (t, collided)

/-- The function `DoMove`: the thing after the move and the value returned. The loop runs
`⌈movelen / 0.2⌉` times at most, which is the fuel it is given. -/
def DoMove (lib : ZLib) (g : Game) (self : Option Nat) (t : Thing) (dt : ℚ) (stepHeight : ℚ) :
    Option (Thing × Option Partner) :=
  let movetotal := t.vel.smul dt
  let movelen := lib.GetLength movetotal
  if movelen > 0 then
    DoMoveLoop lib g self stepHeight (movetotal.sdiv movelen) ⌈movelen * 5⌉₊ movelen t none
  else some (t, none)

/-! ## The projectile loop of `Update` -/

/-- The overlap test of the hit loop: the enemy is not skipped by `continue`. -/
def overlaps (e : Enemy) (b : Thing) : Prop :=
  ¬ (e.pos.distSq b.pos > (e.radius + b.radius) * (e.radius + b.radius))

instance (e : Enemy) (b : Thing) : Decidable (overlaps e b) := by
  unfold overlaps; infer_instance

/-- How the loop over the enemies ended for one projectile. -/
inductive Hit where
  | miss | killed | damaged
deriving DecidableEq

/-- The enemy after a hit it survives: health down by one, velocity pushed back. -/
def damaged (lib : ZLib) (b : Thing) (e : Enemy) : Enemy :=
  let pushback := (lib.VecNorm b.vel).smul (1 / 2)
  let pushback1 : Vec3 := if pushback.z < 0 then { pushback with z := 0 } else pushback
  { e with health := e.health - 1, vel := e.vel.add pushback1 }

/-- The loop `for (Enemy& e : enemies)` for one projectile: the enemy list after it and how
it ended. The loop stops at the first enemy that overlaps. -/
def hitEnemies (lib : ZLib) (b : Thing) : List Enemy → List Enemy × Hit
  | [] => ([], Hit.miss)
  | e :: es =>
    if overlaps e b then
      if e.health - 1 ≤ 0 then (es, Hit.killed)
      else (damaged lib b e :: es, Hit.damaged)
    else ((hitEnemies lib b es).1.cons e, (hitEnemies lib b es).2)

/-- The part of the loop body behind the move, for a projectile `b1` that `DoMove` let pass:
a miss or a kill leaves the projectile in `bullets`, a hit the enemy survives erases it. -/
def applyHit (lib : ZLib) (b1 : Thing) (g : Game) : Game :=
  match hitEnemies lib b1 g.enemies with
  | (_, Hit.miss) => { g with bullets := g.bullets ++ [b1] }
  | (es, Hit.killed) => { g with bullets := g.bullets ++ [b1], enemies := es, kills := g.kills + 1 }
  | (es, Hit.damaged) => { g with enemies := es }

/-- Body of the loop `for (i != bullets.size())` for the projectile `b` at index `i`;
`g.bullets` holds the projectiles before `i`, and `erase(begin + i--)` leaves `b` out. -/
def bulletStep (lib : ZLib) (dt : ℚ) (b : Thing) (g : Game) : Option Game :=
  match DoMove lib g none b dt 0 with
  | none => none
  | some (_, some _) => some g
  | some (b1, none) => some (applyHit lib b1 g)

/-- The loop `for (i != bullets.size())` over the projectiles from index `i` on. -/
def bulletLoop (lib : ZLib) (dt : ℚ) : List Thing → Game → Option Game
  | [], g => some g
  | b :: rest, g =>
    match bulletStep lib dt b g with
    | none => none
    | some g1 => bulletLoop lib dt rest g1

/-- The projectile phase of `Update`. -/
def updateBullets (lib : ZLib) (dt : ℚ) (g : Game) : Option Game :=
  bulletLoop lib dt g.bullets { g with bullets := [] }


/-! ## `Reset`, the wave transition of `Draw` and the spawn place of `SpawnEnemy` -/

/-- The constructor `Player()`: pose and vectors at zero, the member initialisers as written. -/
def Player.fresh : Player :=
  { type := ThingType.PLAYER, radius := 1 / 4, pos := ⟨0, 0, 0⟩, vel := ⟨0, 0, 0⟩,
    dir := ⟨0, 0, 0⟩, weapontimer := 0, maxhealth := 100, health := 100, lasthit := 0,
    jumps := 2 }

/-- The function `Reset`. -/
def Reset (rs : RandSrc) (fuel : Nat) (g : Game) : Option Game :=
  match StartWave rs fuel { g with gameover := 0, waveticks := 0, wave := 0, kills := 0 } with
  | none => none
  | some g1 =>
    some { g1 with
      bullets := [], enemies := [],
      player := { Player.fresh with
        pos := ⟨(MAPW : ℚ) * (1 / 2) + 1 / 2, (MAPH : ℚ) * (1 / 2) + 1 / 2, 0⟩,
        dir := ⟨0, 1, 0⟩ } }

/-- The lines `if (wavetold < 2.0f && wavet >= 2.0f) { wave++; StartWave(); }` of `Draw`. -/
def waveCrossing (rs : RandSrc) (fuel : Nat) (wavet wavetold : ℚ) (g : Game) : Option Game :=
  if wavetold < 2 ∧ wavet ≥ 2 then StartWave rs fuel { g with wave := g.wave + 1 } else some g

/-- The line `epos = ZLV3(1.5f + 2.0f*RAND_INT_MAX(MAPW/2-1), 1.5f + 2.0f*RAND_INT_MAX(MAPH/2-1),
.15f)` of `SpawnEnemy`: the place tried for a ground enemy and the next stream position. -/
def spiderSpawnPos (rs : RandSrc) (pos : Nat) : Vec3 × Nat :=
  let i := RAND_INT_MAX rs pos (MAPW / 2 - 1)
  let j := RAND_INT_MAX rs i.2 (MAPH / 2 - 1)
  (⟨3 / 2 + 2 * (i.1 : ℚ), 3 / 2 + 2 * (j.1 : ℚ), 15 / 100⟩, j.2)

/-! ## The player phase of `Update` -/

/-- What `Update` reads from `ZL_Input`: the mouse delta, the two axes of the movement keys,
whether the fire button is held and whether a jump key went down. -/
structure Input where
  md : Vec2
  wasd : Vec2
  fire : Bool
  jump : Bool

/-- Engine library functions of the player phase: the rotation of the aim by the mouse delta
(the block under `if (md.x || md.y)`), `ZL_Vector::VecRPerp` and `ZL_Vector3::Lerp`. -/
structure ZAim where
  look : Vec3 → Vec2 → Vec3
  VecRPerp : Vec2 → Vec2
  Lerp : Vec3 → Vec3 → ℚ → Vec3

/-- The part of `Update` from the test of `player.health` to the line
`if (player.vel.z == 0) player.jumps = 2`. -/
def playerPhase (lib : ZLib) (aim : ZAim) (inp : Input) (dt : ℚ) (g : Game) : Option Game :=
  if g.player.health ≤ 0 then some g
  else
    let dir := if inp.md.x ≠ 0 ∨ inp.md.y ≠ 0 then aim.look g.player.dir inp.md else g.player.dir
    match CalcAttackCount dt g.player.weapontimer (1 / 10) inp.fire with
    | none => none
    | some (n, weapontimer) =>
      let b : Thing :=
        mkBullet (g.player.pos.add ⟨0, 0, (42 / 100) * (8 / 10)⟩)
          { (dir.smul 10) with z := (dir.smul 10).z + 1 / 10 }
      let jumping : Bool := inp.jump && decide (g.player.jumps ≠ 0)
      let jumps1 := if jumping then g.player.jumps - 1 else g.player.jumps
      let velz1 := if jumping then 3 else g.player.vel.z
      let forward2d := lib.Norm2 dir.toXY
      let right2d := aim.VecRPerp forward2d
      let move : Vec3 :=
        ⟨forward2d.x * (inp.wasd.y * 3) + right2d.x * (inp.wasd.x * 3),
         forward2d.y * (inp.wasd.y * 3) + right2d.y * (inp.wasd.x * 3), 0⟩
      let newvelz := velz1 + dt * (-7)
      let vel1 := aim.Lerp { g.player.vel with z := velz1 } move
        (dt * (if velz1 ≠ 0 then 1 else 10))
      let g1 : Game := { g with bullets := g.bullets ++ List.replicate n b }
      match DoMove lib g1 none { g.player.toThing with vel := { vel1 with z := newvelz } } dt
          (2 / 10) with
      | none => none
      | some (t, _) =>
        some { g1 with
          player := { g.player with
            toThing := t, dir := dir, weapontimer := weapontimer,
            jumps := if t.vel.z = 0 then 2 else jumps1 } }

/-! ## `AStarMoveTarget`: the search with checked array accesses -/

/-- What stops a checked run: the fuel of the model is used up, an array index is out of
range, or `ZL_ASSERT` fails. -/
inductive Fault where
  | fuel
  | index
  | assertion
deriving DecidableEq

deriving instance DecidableEq for Except

/-- Read of `a[i]`, checked against the size of the array. -/
def readAt {α : Type} (a : List α) (i : Nat) : Except Fault α :=
  match a.get? i with
  | some v => Except.ok v
  | none => Except.error Fault.index

/-- Write of `a[i] = v`, checked against the size of the array. -/
def writeAt {α : Type} (a : List α) (i : Nat) (v : α) : Except Fault (List α) :=
  if i < a.length then Except.ok (a.set i v) else Except.error Fault.index

/-- The statement `Frontier[FrontierCount++] = v`; the array has `MAPW * MAPH` entries. -/
def pushFrontier (Frontier : List Nat) (v : Nat) : Except Fault (List Nat) :=
  if Frontier.length < MAPW * MAPH then Except.ok (Frontier ++ [v]) else Except.error Fault.index

/-- Outcome of a round of the checked search: go on, or return the tile `idxTarget`; `Frontier`
is the content of the array at the return. -/
inductive ScanC where
  | more (s : Bfs)
  | done (idxTarget : Nat) (Frontier : List Nat)

/-- The back walk with `ZL_ASSERT(idx2 > 0 && idx2 < MAPW*MAPH)` and checked accesses. -/
def backWalkC (idxFrom : Nat) : Nat → Nat → Nat → List Nat → Except Fault (List Nat)
  | 0, _, _, _ => Except.error Fault.fuel
  | fuel + 1, idx1, idx2, Path =>
    if idx1 = idxFrom then Except.ok Path
    else if ¬ (idx2 > 0 ∧ idx2 < MAPW * MAPH) then Except.error Fault.assertion
    else
      match readAt Path idx2 with
      | Except.error f => Except.error f
      | Except.ok idx3 =>
        match writeAt Path idx2 idx1 with
        | Except.error f => Except.error f
        | Except.ok Path1 => backWalkC idxFrom fuel idx2 idx3 Path1

/-- Body of the `for (Dir)` loop for one direction, with checked accesses. -/
def visitDirC (m : List Nat) (idxFrom idxTo : Nat) (InYWall InXWall : Bool) (idx Dir : Nat)
    (s : Bfs) : Except Fault ScanC :=
  match neighbor InYWall InXWall idx Dir with
  | none => Except.ok (ScanC.more s)
  | some idxNeighbor =>
    match readAt s.Visited idxNeighbor with
    | Except.error f => Except.error f
    | Except.ok true => Except.ok (ScanC.more s)
    | Except.ok false =>
      match writeAt s.Visited idxNeighbor true with
      | Except.error f => Except.error f
      | Except.ok Visited =>
        match readAt m idxNeighbor with
        | Except.error f => Except.error f
        | Except.ok c =>
          if c ≠ TILE_EMPTY then Except.ok (ScanC.more { s with Visited := Visited })
          else
            match pushFrontier s.Frontier idxNeighbor with
            | Except.error f => Except.error f
            | Except.ok Frontier =>
              if idxNeighbor = idxTo then
                match backWalkC idxFrom (MAPW * MAPH + 1) idxNeighbor idx s.Path with
                | Except.error f => Except.error f
                | Except.ok P =>
                  match readAt P idxFrom with
                  | Except.error f => Except.error f
                  | Except.ok idxTarget => Except.ok (ScanC.done idxTarget Frontier)
              else
                match writeAt s.Path idxNeighbor idx with
                | Except.error f => Except.error f
                | Except.ok Path =>
                  Except.ok (ScanC.more { Frontier := Frontier, Visited := Visited, Path := Path })

/-- The `for (Dir)` loop over the directions listed, with checked accesses. -/
def visitDirsC (m : List Nat) (idxFrom idxTo : Nat) (InYWall InXWall : Bool) (idx : Nat) :
    List Nat → Bfs → Except Fault ScanC
  | [], s => Except.ok (ScanC.more s)
  | Dir :: rest, s =>
    match visitDirC m idxFrom idxTo InYWall InXWall idx Dir s with
    | Except.error f => Except.error f
    | Except.ok (ScanC.done t F) => Except.ok (ScanC.done t F)
    | Except.ok (ScanC.more s1) => visitDirsC m idxFrom idxTo InYWall InXWall idx rest s1

/-- The loop `while (FrontierDone != FrontierCount)` with checked accesses. The result is the
tile returned (`none` at the exit without a path) and the content of `Frontier`. -/
def searchLoopC (m : List Nat) (idxFrom idxTo : Nat) :
    Nat → Nat → Bool → Bool → Bfs → Except Fault (Option Nat × List Nat)
  | 0, _, _, _, _ => Except.error Fault.fuel
  | fuel + 1, FrontierDone, InYWall, InXWall, s =>
    if FrontierDone = s.Frontier.length then Except.ok (none, s.Frontier)
    else
      match readAt s.Frontier FrontierDone with
      | Except.error f => Except.error f
      | Except.ok idx =>
        match visitDirsC m idxFrom idxTo InYWall InXWall idx [0, 1, 2, 3] s with
        | Except.error f => Except.error f
        | Except.ok (ScanC.done t F) => Except.ok (some t, F)
        | Except.ok (ScanC.more s1) =>
          searchLoopC m idxFrom idxTo fuel (FrontierDone + 1) false false s1

/-- The search of `AStarMoveTarget` with checked accesses. The statements
`Frontier[FrontierCount++] = idxFrom` and `Visited[idxFrom] = true` before the loop are checked
as well. -/
def searchC (m : List Nat) (idxFrom idxTo : Nat) : Except Fault (Option Nat × List Nat) :=
  match pushFrontier [] idxFrom with
  | Except.error f => Except.error f
  | Except.ok Frontier =>
    match writeAt (List.replicate (MAPW * MAPH) false) idxFrom true with
    | Except.error f => Except.error f
    | Except.ok Visited =>
      searchLoopC m idxFrom idxTo (MAPW * MAPH + 1) 0
        (decide (idxFrom < MAPW) || decide (idxFrom ≥ MAPW * MAPH - MAPW))
        (decide (idxFrom % MAPW = 0) || decide (idxFrom % MAPW = MAPW - 1))
        { Frontier := Frontier, Visited := Visited, Path := List.replicate (MAPW * MAPH) 0 }

/-! # Predicates of the specification -/

/-- Every cell of row `0`, row `MAPH-1`, column `0` and column `MAPW-1` is wall. -/
def BorderWall (m : List Nat) : Prop :=
  ∀ x y, x < MAPW → y < MAPH → (x = 0 ∨ x = MAPW - 1 ∨ y = 0 ∨ y = MAPH - 1) →
    tileAt m (x + y * MAPW) = TILE_WALL

/-- Tiles `a` and `b` of the grid lie side by side in a row or in a column. -/
def adjacent (a b : Nat) : Prop :=
  a < MAPW * MAPH ∧ b < MAPW * MAPH ∧
  ((a / MAPW = b / MAPW ∧ (a % MAPW + 1 = b % MAPW ∨ b % MAPW + 1 = a % MAPW)) ∨
   (a % MAPW = b % MAPW ∧ (a / MAPW + 1 = b / MAPW ∨ b / MAPW + 1 = a / MAPW)))

/-- One step between two adjacent tiles that are both empty. -/
def emptyStep (m : List Nat) (a b : Nat) : Prop :=
  adjacent a b ∧ tileAt m a = TILE_EMPTY ∧ tileAt m b = TILE_EMPTY

/-- A 4-connected path of `n` steps over empty tiles from `a` to `b`. -/
inductive Walk (m : List Nat) : Nat → Nat → Nat → Prop where
  | stay (a : Nat) : Walk m 0 a a
  | move {n a b c : Nat} : emptyStep m a b → Walk m n b c → Walk m (n + 1) a c

/-- Tile `b` is reachable from tile `a` through 4-connected empty tiles. -/
def Connected (m : List Nat) (a b : Nat) : Prop := ∃ n, Walk m n a b

/-- The path distance from `a` to `b` is `d`: a path of `d` steps exists and none is shorter. -/
def IsDist (m : List Nat) (a b d : Nat) : Prop :=
  Walk m d a b ∧ ∀ n, Walk m n a b → d ≤ n

/-- Every lattice cell (both coordinates odd) is reachable from every other one. -/
def LatticeConnected (m : List Nat) : Prop :=
  ∀ x1 ∈ oddCoords, ∀ y1 ∈ oddCoords, ∀ x2 ∈ oddCoords, ∀ y2 ∈ oddCoords,
    Connected m (x1 + y1 * MAPW) (x2 + y2 * MAPW)

/-- Invariant of the carving walk: the border is wall and the walker stands on a lattice
cell. -/
def CarveOK (s : Carve) : Prop :=
  BorderWall s.Map ∧ s.currentx % 2 = 1 ∧ s.currentx ≤ 15 ∧ s.currenty % 2 = 1 ∧ s.currenty ≤ 15

/-! # Concrete inputs -/

/-- A random stream: ten seeds on the cell `(1,1)`, a walk of the first carving pass that
reaches every lattice cell but `(1,1)`, and zeros from there on. -/
def walkA : List Nat :=
  List.replicate 20 0 ++ [0, 0, 0, 1, 1, 1] ++
  List.replicate 7 2 ++ [3] ++ List.replicate 7 0 ++ [3] ++
  List.replicate 7 2 ++ [3] ++ List.replicate 7 0 ++ [3] ++
  List.replicate 7 2 ++ [3] ++ List.replicate 7 0 ++ [3] ++
  List.replicate 7 2 ++ [0, 3] ++ List.replicate 6 0

/-- The random source that reads `walkA`. -/
def rsA : RandSrc := { ints := fun i => walkA.getD i 0, factors := fun _ => 0 }

/-- The player after `Player()`, at the centre of the map. -/
def playerA : Player :=
  { type := ThingType.PLAYER, radius := 1 / 4, pos := ⟨9, 9, 0⟩, vel := ⟨0, 0, 0⟩,
    dir := ⟨0, 1, 0⟩, weapontimer := 0, maxhealth := 100, health := 100, lasthit := 0,
    jumps := 2 }

/-- A state with `wave = 1`, as `StartWave` finds it at the start of the first wave. -/
def gameA : Game :=
  { wave := 1, wavespawns := 0, kills := 0, waveticks := 0, gameover := 0, Map := [],
    MapHeights := [], player := playerA, bullets := [], enemies := [], rndpos := 0 }

/-- The grid `StartWave` builds from `gameA` with the stream `rsA`. -/
def mazeA : List Nat :=
  [35, 35, 35, 35, 35, 35, 35, 35, 35, 35, 35, 35, 35, 35, 35, 35, 35,
   35, 32, 35, 32, 32, 32, 32, 32, 32, 32, 32, 32, 32, 32, 32, 32, 35,
   35, 35, 35, 32, 35, 35, 35, 35, 35, 35, 35, 35, 35, 35, 35, 35, 35,
   35, 32, 32, 32, 32, 32, 32, 32, 32, 32, 32, 32, 32, 32, 32, 32, 35,
   35, 35, 35, 35, 35, 35, 35, 35, 35, 35, 35, 35, 35, 35, 35, 32, 35,
   35, 32, 32, 32, 32, 32, 32, 32, 32, 32, 32, 32, 32, 32, 32, 32, 35,
   35, 32, 35, 35, 35, 35, 35, 35, 35, 35, 35, 35, 35, 35, 35, 35, 35,
   35, 32, 32, 32, 32, 32, 32, 32, 32, 32, 32, 32, 35, 32, 32, 32, 35,
   35, 35, 35, 35, 35, 35, 35, 32, 32, 32, 32, 32, 35, 35, 35, 32, 35,
   35, 32, 32, 32, 32, 32, 35, 32, 32, 32, 32, 32, 32, 32, 32, 32, 35,
   35, 32, 35, 35, 35, 35, 35, 32, 32, 32, 32, 32, 35, 35, 35, 32, 35,
   35, 32, 32, 32, 32, 32, 32, 32, 32, 32, 32, 32, 35, 32, 32, 32, 35,
   35, 35, 35, 35, 35, 35, 35, 35, 35, 35, 35, 35, 35, 35, 35, 32, 35,
   35, 32, 32, 32, 32, 32, 32, 32, 32, 32, 32, 32, 32, 32, 35, 32, 35,
   35, 32, 35, 35, 35, 35, 35, 35, 35, 35, 35, 35, 35, 35, 35, 32, 35,
   35, 32, 32, 32, 32, 32, 32, 32, 32, 32, 32, 32, 32, 32, 32, 32, 35,
   35, 35, 35, 35, 35, 35, 35, 35, 35, 35, 35, 35, 35, 35, 35, 35, 35,
   32]

/-- Bits of the integer square root of `n`, from bit `i` down. -/
def isqrtGo (n : Nat) : Nat → Nat → Nat
  | 0, r => r
  | i + 1, r => if (r + 2 ^ i) ^ 2 ≤ n then isqrtGo n i (r + 2 ^ i) else isqrtGo n i r

/-- Integer square root, rounded down. -/
def isqrt (n : Nat) : Nat := isqrtGo n (Nat.log2 n / 2 + 1) 0

/-- Square root of a rational whose numerator and denominator are squares. -/
def qsqrt (q : ℚ) : ℚ := (isqrt q.num.toNat : ℚ) / (isqrt q.den : ℚ)

/-- Library functions that are exact on the vectors of the examples below, whose lengths are
rational. -/
def exactLib : ZLib :=
  { GetLength := fun v => qsqrt v.lengthSq
    Norm2 := fun v => ⟨v.x / qsqrt v.lengthSq, v.y / qsqrt v.lengthSq⟩
    VecNorm := fun v => v.sdiv (qsqrt v.lengthSq) }

/-- The grid of wave 0: the outer ring is wall, the interior empty. -/
def arenaMap : List Nat :=
  (List.range (MAPW * MAPH)).map (fun i => if onRing i then TILE_WALL else TILE_EMPTY)
    ++ [TILE_EMPTY]

/-- A state on the grid of wave 0 with walls `2.5` high, no enemies and no projectiles. -/
def arena : Game :=
  { wave := 0, wavespawns := 0, kills := 0, waveticks := 0, gameover := 0, Map := arenaMap,
    MapHeights := List.replicate (MAPW * MAPH + 1) (5 / 2), player := playerA, bullets := [],
    enemies := [], rndpos := 0 }

/-- A projectile just below the height limit, near the east wall, that flies up and east. -/
def bulletUp : Thing := mkBullet ⟨169 / 10, 17 / 2, 199 / 10⟩ ⟨6, 0, 8⟩

/-- A projectile of speed 10 that closes in on the west wall at a flat angle; it starts more
than its radius away from the wall face `x = 1`. -/
def bulletGraze : Thing :=
  mkBullet ⟨11003 / 10000, 53 / 10, 3 / 10⟩ ⟨-20000 / 1000001, 9999990 / 1000001, 0⟩

/-- A ground enemy with the health given, at the centre of tile `(5,5)`. -/
def spiderAt (health : ℚ) : Enemy :=
  { type := ThingType.ENEMY_SPIDER, radius := 1 / 4, pos := ⟨11 / 2, 11 / 2, 3 / 20⟩,
    vel := ⟨0, 0, 0⟩, movetarget := ⟨0, 0⟩, movespeed := 3 / 2, attackdamage := 10,
    attackspeed := 1 / 2, attacktimer := 0, health := health }

/-- A projectile that overlaps the enemy `spiderAt` after a move of `0.1`. -/
def bulletHit : Thing := mkBullet ⟨11 / 2, 26 / 5, 1 / 5⟩ ⟨0, 10, 0⟩

/-- The state `arena` with the projectile `bulletHit` and one ground enemy. -/
def arenaHit (health : ℚ) : Game :=
  { arena with bullets := [bulletHit], enemies := [spiderAt health] }

/-- The projectile `bulletHit` after its move of `0.1`. -/
def bulletHitMoved : Thing := mkBullet ⟨11 / 2, 53 / 10, 1 / 5⟩ ⟨0, 10, 0⟩

/-! # Predicates of the search proof -/

/-- Tile `t` is an empty neighbour of `src` on a shortest path from `src` to `tgt`. -/
def NextHop (m : List Nat) (src tgt t : Nat) : Prop :=
  tileAt m t = TILE_EMPTY ∧ adjacent src t ∧
    ∃ d, IsDist m src tgt (d + 1) ∧ IsDist m t tgt d

/-- Invariant of the search loop. `pre` holds the `Frontier` entries before `FrontierDone`,
`cur` those from `FrontierDone` on, and `lvl` is the number of steps of the predecessor chain
from a `Frontier` entry back to `src`. -/
structure BfsInv (m : List Nat) (src tgt : Nat) (lvl : Nat → Nat) (pre cur : List Nat)
    (s : Bfs) : Prop where
  front : s.Frontier = pre ++ cur
  src_mem : src ∈ s.Frontier
  lvl_src : lvl src = 0
  nodup : s.Frontier.Nodup
  bound : ∀ n ∈ s.Frontier, n < MAPW * MAPH ∧ tileAt m n = TILE_EMPTY ∧ n ≠ tgt
  vlen : s.Visited.length = MAPW * MAPH
  plen : s.Path.length = MAPW * MAPH
  vis : ∀ n ∈ s.Frontier, s.Visited.getD n false = true
  vis_inv : ∀ n, s.Visited.getD n false = true → n ∈ s.Frontier ∨ tileAt m n ≠ TILE_EMPTY
  tree : ∀ n ∈ s.Frontier, n ≠ src →
    s.Path.getD n 0 ∈ s.Frontier ∧ emptyStep m (s.Path.getD n 0) n ∧
      lvl n = lvl (s.Path.getD n 0) + 1
  sorted : s.Frontier.Pairwise (fun a b => lvl a ≤ lvl b)
  near : ∀ u ∈ cur.head?, ∀ n ∈ s.Frontier, lvl n ≤ lvl u + 1
  small : ∀ n ∈ s.Frontier, lvl n < s.Frontier.length
  closed : ∀ a ∈ pre, ∀ v, emptyStep m a v → v ∈ s.Frontier ∧ lvl v ≤ lvl a + 1

/-- The neighbour of `u` in direction `Dir`, when it is empty, is in `Frontier` one level
above `u` at most. -/
def Handled (m : List Nat) (lvl : Nat → Nat) (u Dir : Nat) (s : Bfs) : Prop :=
  ∀ v, neighbor false false u Dir = some v → tileAt m v = TILE_EMPTY →
    v ∈ s.Frontier ∧ lvl v ≤ lvl u + 1

/-! # Inputs for the wave, reset and spawn theorems -/

/-- The stream `walkA` with a second carving pass that walks down instead of right. -/
def walkB : List Nat := walkA ++ List.replicate 31 0 ++ List.replicate 100 1

/-- The random source that reads `walkB`. -/
def rsB : RandSrc := { ints := fun i => walkB.getD i 0, factors := fun _ => 0 }

/-- A state in the third wave with three spawns left and five kills, as a game that ends
there leaves it. -/
def gameLate : Game := { gameA with wave := 3, wavespawns := 3, kills := 5 }

/-- A state in wave 0. -/
def gameZero : Game := { gameA with wave := 0 }

/-! # Predicates of the lattice theorems -/

/-- Every lattice cell (both coordinates odd) holds a character up to `' '`. -/
def LatticeLow (m : List Nat) : Prop :=
  ∀ x ∈ oddCoords, ∀ y ∈ oddCoords, tileAt m (y * MAPW + x) ≤ TILE_EMPTY

/-- Every lattice cell (both coordinates odd) is empty. -/
def LatticeEmpty (m : List Nat) : Prop :=
  ∀ x ∈ oddCoords, ∀ y ∈ oddCoords, tileAt m (y * MAPW + x) = TILE_EMPTY

/-! # Predicates of the collision theorems -/

/-- The tile in column `x` of row `y` is one of those the collision pass at `tpos` reads. -/
def Scanned (tpos : Vec3) (x y : Int) : Prop :=
  x ∈ intRange (Clamp ⌊tpos.x - 1⌋ 0 MAPW) (Clamp ⌊tpos.x + 1⌋ 0 MAPW) ∧
  y ∈ intRange (Clamp ⌊tpos.y - 1⌋ 0 MAPH) (Clamp ⌊tpos.y + 1⌋ 0 MAPH)

instance (tpos : Vec3) (x y : Int) : Decidable (Scanned tpos x y) := by
  unfold Scanned
  infer_instance

/-- An actor of the player's size on top of the wall row `y = 16`, inside the world bounds. -/
def walkerNorth : Thing :=
  { type := ThingType.PLAYER, radius := 1 / 4, pos := ⟨17 / 2, 33 / 2, 5 / 2⟩, vel := ⟨0, 0, 0⟩ }

/-- Every tile the collision pass at `tpos` reads is empty or at most `stepHeight` high. -/
def LowWalls (g : Game) (tpos : Vec3) (stepHeight : ℚ) : Prop :=
  ∀ y ∈ intRange (Clamp ⌊tpos.y - 1⌋ 0 MAPH) (Clamp ⌊tpos.y + 1⌋ 0 MAPH),
    ∀ x ∈ intRange (Clamp ⌊tpos.x - 1⌋ 0 MAPW) (Clamp ⌊tpos.x + 1⌋ 0 MAPW),
      tileAt g.Map (x + y * MAPW).toNat ≠ TILE_EMPTY →
        heightAt g.MapHeights (x + y * MAPW).toNat ≤ stepHeight

instance (g : Game) (tpos : Vec3) (stepHeight : ℚ) : Decidable (LowWalls g tpos stepHeight) := by
  unfold LowWalls
  infer_instance

/-- The state `arena` with a wall `0.1` high on tile `(8,8)`. -/
def stepArena : Game :=
  { arena with Map := arena.Map.set (8 + 8 * MAPW) TILE_WALL,
               MapHeights := arena.MapHeights.set (8 + 8 * MAPW) (1 / 10) }

/-- An actor of the player's size on the ground, `0.1` west of tile `(8,8)`. -/
def walker : Thing :=
  { type := ThingType.PLAYER, radius := 1 / 4, pos := ⟨79 / 10, 17 / 2, 0⟩, vel := ⟨0, 0, 0⟩ }

/-- Distance along one axis from the coordinate `p` to the interval `[c, c + 1]`. -/
def axisGap (p : ℚ) (c : Nat) : ℚ := max (max ((c : ℚ) - p) (p - ((c : ℚ) + 1))) 0

/-- The centre of `t` is at least `t.radius` away from the footprint of every wall cell; with a
positive radius it is then outside every footprint. -/
def ClearOfWalls (g : Game) (t : Thing) : Prop :=
  ∀ y < MAPH, ∀ x < MAPW, tileAt g.Map (x + y * MAPW) ≠ TILE_EMPTY →
    t.radius * t.radius ≤ axisGap t.pos.x x * axisGap t.pos.x x + axisGap t.pos.y y * axisGap t.pos.y y

instance (g : Game) (t : Thing) : Decidable (ClearOfWalls g t) := by
  unfold ClearOfWalls
  infer_instance

/-- The point `p` lies inside the footprint of a wall cell whose top is above it by more than
`stepHeight`. -/
def InsideWall (g : Game) (p : Vec3) (stepHeight : ℚ) : Prop :=
  ∃ y < MAPH, ∃ x < MAPW, tileAt g.Map (x + y * MAPW) ≠ TILE_EMPTY ∧
    (x : ℚ) < p.x ∧ p.x < (x : ℚ) + 1 ∧ (y : ℚ) < p.y ∧ p.y < (y : ℚ) + 1 ∧
    p.z < heightAt g.MapHeights (x + y * MAPW) - stepHeight

instance (g : Game) (p : Vec3) (stepHeight : ℚ) : Decidable (InsideWall g p stepHeight) := by
  unfold InsideWall
  infer_instance

/-- A projectile of speed 10 flying west, `0.15` away from the wall face `x = 1`. -/
def bulletTunnel : Thing := mkBullet ⟨23 / 20, 11 / 2, 3 / 10⟩ ⟨-10, 0, 0⟩

/-! # Inputs of the player theorems -/

/-- Library functions of the player update: the view keeps its direction, the perpendicular
and the linear interpolation are those of the library. -/
def plainAim : ZAim :=
  { look := fun d _ => d
    VecRPerp := fun v => ⟨v.y, -v.x⟩
    Lerp := fun a b f => a.add ((b.sub a).smul f) }

/-- A frame without input. -/
def idleInput : Input := { md := ⟨0, 0⟩, wasd := ⟨0, 0⟩, fire := false, jump := false }

/-- A frame in which the jump key goes down. -/
def jumpInput : Input := { md := ⟨0, 0⟩, wasd := ⟨0, 0⟩, fire := false, jump := true }

/-- The player stands on a supporting surface: on the ground, or on the top of the tile under
them. -/
def OnSurface (g : Game) (p : Vec3) : Prop :=
  p.z = 0 ∨ (tileAt g.Map (⌊p.x⌋ + ⌊p.y⌋ * MAPW).toNat ≠ TILE_EMPTY ∧
    p.z = heightAt g.MapHeights (⌊p.x⌋ + ⌊p.y⌋ * MAPW).toNat)

instance (g : Game) (p : Vec3) : Decidable (OnSurface g p) := by
  unfold OnSurface
  infer_instance

/-- Two frames of `1/7` s from the state `arena`: the jump key goes down in the first. -/
def jumpRun : Option Game :=
  (playerPhase exactLib plainAim jumpInput (1 / 7) arena).bind
    (playerPhase exactLib plainAim idleInput (1 / 7))

/-! # Predicates and inputs of the checked search -/

/-- The grid `arenaMap` with wall tiles at `(1,1)` and `(2,1)` and the corner tiles `(0,0)`,
`(1,0)`, `(0,1)`, `(0,2)` empty: the way from tile `(1,2)` to tile `(1,0)` leads through the
corner tile with index 0. -/
def cornerMap : List Nat :=
  ((((((arenaMap.set 18 TILE_WALL).set 19 TILE_WALL).set 0 TILE_EMPTY).set 1 TILE_EMPTY).set 17
    TILE_EMPTY).set 34 TILE_EMPTY)

/-- A side of a wall cell, named by its normal. -/
inductive Face where
  | xPlus
  | xMinus
  | yPlus
  | yMinus
deriving DecidableEq

/-- The normal the scan gives to the collider of the side. -/
def Face.normal : Face → Vec3
  | Face.xPlus => ⟨1, 0, 0⟩
  | Face.xMinus => ⟨-1, 0, 0⟩
  | Face.yPlus => ⟨0, 1, 0⟩
  | Face.yMinus => ⟨0, -1, 0⟩

/-- The position the scan gives to the collider of the side of the cell `(x,y)` of height
`h`: the centre of the side, at the height of the top. -/
def Face.anchor (x y : Int) (h : ℚ) : Face → Vec3
  | Face.xPlus => ⟨x + 1, y + 1 / 2, h⟩
  | Face.xMinus => ⟨x + 0, y + 1 / 2, h⟩
  | Face.yPlus => ⟨x + 1 / 2, y + 1, h⟩
  | Face.yMinus => ⟨x + 1 / 2, y + 0, h⟩

/-- Signed distance of the point `p` to the plane of the side. -/
def Face.dist (f : Face) (x y : Int) (p : Vec3) : ℚ := (p.sub (f.anchor x y 0)).dot f.normal

/-- Offset of the point `p` from the centre of the side, along the side. -/
def Face.lateral (x y : Int) (p : Vec3) : Face → ℚ
  | Face.xPlus => |p.y - (y + 1 / 2)|
  | Face.xMinus => |p.y - (y + 1 / 2)|
  | Face.yPlus => |p.x - (x + 1 / 2)|
  | Face.yMinus => |p.x - (x + 1 / 2)|

/-- The position of `t` after a push along the normal of the side by
`radius - dist + 0.001`. -/
def Face.pushed (f : Face) (x y : Int) (t : Thing) : Vec3 :=
  t.pos.add (f.normal.smul (t.radius - f.dist x y t.pos + 1 / 1000))

/-- The cell `(cx,cy)` is the only one the collision pass at `tpos` reads that is not empty. -/
def OnlyWall (g : Game) (tpos : Vec3) (cx cy : Int) : Prop :=
  ∀ y ∈ intRange (Clamp ⌊tpos.y - 1⌋ 0 MAPH) (Clamp ⌊tpos.y + 1⌋ 0 MAPH),
    ∀ x ∈ intRange (Clamp ⌊tpos.x - 1⌋ 0 MAPW) (Clamp ⌊tpos.x + 1⌋ 0 MAPW),
      tileAt g.Map (x + y * MAPW).toNat ≠ TILE_EMPTY → x = cx ∧ y = cy

instance (g : Game) (tpos : Vec3) (cx cy : Int) : Decidable (OnlyWall g tpos cx cy) := by
  unfold OnlyWall
  infer_instance

/-- The state `arena` with a wall on tile `(5,5)`, `2.5` high as all tiles. -/
def pillarArena : Game := { arena with Map := arena.Map.set (5 + 5 * MAPW) TILE_WALL }

/-- An actor of the player's size on the ground off the corner `(6,6)` of tile `(5,5)`: `0.1`
beyond the side `x = 6` and `0.2` beyond the side `y = 6`. -/
def cornerWalker : Thing :=
  { type := ThingType.PLAYER, radius := 1 / 4, pos := ⟨61 / 10, 31 / 5, 0⟩, vel := ⟨0, 0, 0⟩ }

/-- An actor of the player's size on the ground beside tile `(5,5)`, `0.1` beyond the side
`x = 6`. -/
def sideWalker : Thing :=
  { type := ThingType.PLAYER, radius := 1 / 4, pos := ⟨61 / 10, 28 / 5, 0⟩, vel := ⟨0, 0, 0⟩ }

/-! # Predicates of the spiral scan -/

/-- Chebyshev (square-ring) distance between the tiles with the indices `i` and `j`. -/
def chebDist (i j : Int) : Int := max |i % MAPW - j % MAPW| |i / MAPW - j / MAPW|

/-- The tile with index `i` lies in the columns `1..MAPW-2` and the rows `1..MAPH-2`. -/
def Interior (i : Int) : Prop :=
  1 ≤ i % MAPW ∧ i % MAPW < (MAPW : Int) - 1 ∧ 1 ≤ i / MAPW ∧ i / MAPW < (MAPH : Int) - 1

instance (i : Int) : Decidable (Interior i) := by
  unfold Interior
  infer_instance

/-- The first `n` states of the iterator from the state `s`, rounds outside the border
included. -/
def spiralTrace : Nat → SpiralRange → List SpiralRange
  | 0, _ => []
  | n + 1, s => s :: spiralTrace n s.turn

/-- Number of the square ring on which the offset of the state lies. -/
def ringOf (s : SpiralRange) : Nat := max s.tilex.natAbs s.tiley.natAbs

/-- Code of the offset of the state, for offsets between `-16` and `16`. -/
def offsetCode (s : SpiralRange) : Nat := (s.tilex + 16).toNat * 33 + (s.tiley + 16).toNat

/-- No entry of the list is smaller than the entry before it. -/
def nondecreasing : List Nat → Bool
  | a :: b :: l => decide (a ≤ b) && nondecreasing (b :: l)
  | _ => true

/-- The set of the codes in the list, as a bit mask. -/
def codeMask (l : List Nat) : Nat := l.foldl (fun acc c => acc ||| 1 <<< c) 0

/-! # Theorems -/

/-! ## The border of the grid -/

theorem tileAt_set_ne (m : List Nat) (i j v : Nat) (h : i ≠ j) :
    tileAt (m.set i v) j = tileAt m j := by
  simp [tileAt, List.getD_eq_getElem?_getD, List.getElem?_set_ne h]

theorem BorderWall_set (m : List Nat) (cx cy v : Nat) (h : BorderWall m)
    (hx1 : 1 ≤ cx) (hx2 : cx ≤ 15) (hy1 : 1 ≤ cy) (hy2 : cy ≤ 15) :
    BorderWall (m.set (cx + cy * MAPW) v) := by
  intro x y hx hy hb
  rw [tileAt_set_ne]
  · exact h x y hx hy hb
  · simp only [MAPW, MAPH] at *
    omega

theorem foldl_invariant {α β : Type} (P : α → Prop) (f : α → β → α) (l : List β) (a : α)
    (h0 : P a) (hstep : ∀ s b, b ∈ l → P s → P (f s b)) : P (l.foldl f a) := by
  induction l generalizing a with
  | nil => exact h0
  | cons b t ih =>
    simp only [List.foldl_cons]
    exact ih _ (hstep a b (List.mem_cons_self _ _) h0)
      (fun s c hc hs => hstep s c (List.mem_cons_of_mem _ hc) hs)

theorem BorderWall_init : BorderWall (List.replicate (MAPW * MAPH) TILE_WALL ++ [0]) := by
  intro x y hx hy _
  have hlt : x + y * MAPW < MAPW * MAPH := by
    simp only [MAPW, MAPH] at *
    omega
  simp only [tileAt, List.getD_eq_getElem?_getD]
  rw [List.getElem?_append_left (by simpa using hlt)]
  simp [List.getElem?_replicate, hlt]

theorem BorderWall_seedStep (rs : RandSrc) (s : List Nat × Nat) (h : BorderWall s.1) :
    BorderWall (seedStep rs s).1 := by
  unfold seedStep RAND_INT_MAX
  simp only
  have h1 : rs.ints s.2 % (MAPW / 2 - 1 + 1) < 8 := Nat.mod_lt _ (by decide)
  have h2 : rs.ints (s.2 + 1) % (MAPH / 2 - 1 + 1) < 8 := Nat.mod_lt _ (by decide)
  have := BorderWall_set s.1 (1 + 2 * (rs.ints (s.2 + 1) % (MAPH / 2 - 1 + 1)))
    (1 + 2 * (rs.ints s.2 % (MAPW / 2 - 1 + 1))) TILE_EMPTY h (by omega) (by omega) (by omega)
    (by omega)
  rw [Nat.add_comm] at this
  exact this

theorem BorderWall_fillBlock (empty : Nat) (m : List Nat) (h : BorderWall m) :
    BorderWall (fillBlock empty m) := by
  unfold fillBlock
  apply foldl_invariant BorderWall _ _ _ h
  intro s y hy hs
  apply foldl_invariant BorderWall _ _ _ hs
  intro s1 x hx hs1
  have hx1 : 1 ≤ x ∧ x ≤ 15 := by
    simp only [blockCoords, List.mem_cons, List.mem_singleton, List.not_mem_nil, or_false] at hx
    omega
  have hy1 : 1 ≤ y ∧ y ≤ 15 := by
    simp only [blockCoords, List.mem_cons, List.mem_singleton, List.not_mem_nil, or_false] at hy
    omega
  have := BorderWall_set s1 x y empty hs1 hx1.1 hx1.2 hy1.1 hy1.2
  rw [Nat.add_comm] at this
  exact this

theorem CarveOK_carveStep (rs : RandSrc) (empty : Nat) (s : Carve) (h : CarveOK s) :
    CarveOK (carveStep rs empty s) := by
  obtain ⟨hm, hx1, hx2, hy1, hy2⟩ := h
  unfold carveStep
  simp only [MAPW, MAPH]
  generalize (RAND_INT_MAX rs s.pos 3).1 = r
  generalize hcx : (if r = 0 then if s.currentx < 17 - 2 then s.currentx + 2 else s.currentx
      else if r = 2 then if s.currentx > 2 then s.currentx - 2 else s.currentx
      else s.currentx) = cx
  generalize hcy : (if r = 1 then if s.currenty < 17 - 2 then s.currenty + 2 else s.currenty
      else if r = 3 then if s.currenty > 2 then s.currenty - 2 else s.currenty
      else s.currenty) = cy
  have hcx1 : cx % 2 = 1 ∧ cx ≤ 15 ∧ 1 ≤ (cx + s.currentx) / 2 ∧ (cx + s.currentx) / 2 ≤ 15 := by
    rw [← hcx]; split_ifs <;> omega
  have hcy1 : cy % 2 = 1 ∧ cy ≤ 15 ∧ 1 ≤ (cy + s.currenty) / 2 ∧ (cy + s.currenty) / 2 ≤ 15 := by
    rw [← hcy]; split_ifs <;> omega
  split_ifs
  · exact ⟨hm, hcx1.1, hcx1.2.1, hcy1.1, hcy1.2.1⟩
  · refine ⟨?_, hcx1.1, hcx1.2.1, hcy1.1, hcy1.2.1⟩
    have h1 := BorderWall_set s.Map cx cy empty hm (by omega) (by omega) (by omega) (by omega)
    have h2 := BorderWall_set _ ((cx + s.currentx) / 2) ((cy + s.currenty) / 2) empty h1
      (by omega) (by omega) (by omega) (by omega)
    simp only [MAPW] at h1 h2
    rw [Nat.add_comm cx, Nat.add_comm ((cx + s.currentx) / 2)] at h2
    exact h2

theorem CarveOK_carveSteps (rs : RandSrc) (empty n : Nat) (s : Carve) (h : CarveOK s) :
    CarveOK (carveSteps rs empty n s) := by
  induction n generalizing s with
  | zero => exact h
  | succ n ih => exact ih _ (CarveOK_carveStep rs empty s h)

theorem CarveOK_regenerate (rs : RandSrc) (empty fuel : Nat) (s s1 : Carve) (h : CarveOK s)
    (hr : regenerate rs empty fuel s = some s1) : CarveOK s1 := by
  induction fuel generalizing s with
  | zero => rw [regenerate] at hr; cases hr
  | succ n ih =>
    rw [regenerate] at hr
    split_ifs at hr
    · have e := Option.some.inj hr
      subst e
      exact CarveOK_carveSteps rs empty 100 s h
    · exact ih _ (CarveOK_carveSteps rs empty 100 s h) hr

theorem BorderWall_carvePass (rs : RandSrc) (fuel empty : Nat) (s s1 : List Nat × Nat)
    (h : BorderWall s.1) (hr : carvePass rs fuel empty s = some s1) : BorderWall s1.1 := by
  unfold carvePass at hr
  split at hr
  · cases hr
  · rename_i c hc
    cases hr
    have h0 : CarveOK ⟨fillBlock empty s.1, MAPW / 2 ||| 1, MAPH / 2 ||| 1, s.2⟩ := by
      unfold CarveOK
      dsimp only
      exact ⟨BorderWall_fillBlock empty s.1 h, by decide, by decide, by decide, by decide⟩
    have h1 := CarveOK_regenerate rs empty fuel _ c h0 hc
    exact h1.1

theorem BorderWall_normalise (m : List Nat) (h : BorderWall m) : BorderWall (normalise m) := by
  intro x y hx hy hb
  have := h x y hx hy hb
  simp only [tileAt, List.getD_eq_getElem?_getD, normalise, List.getElem?_map] at this ⊢
  cases hg : m[x + y * MAPW]? with
  | none => simp [hg, TILE_WALL] at this
  | some c =>
    simp only [hg, Option.getD_some] at this
    subst this
    simp [TILE_WALL, TILE_EMPTY]

theorem BorderWall_pillarStep (rs : RandSrc) (y x : Nat) (s : List Nat × Nat)
    (hx : 1 ≤ x ∧ x ≤ 15) (hy : 1 ≤ y ∧ y ≤ 15) (h : BorderWall s.1) :
    BorderWall (pillarStep rs y x s).1 := by
  unfold pillarStep
  dsimp only
  split_ifs
  · have := BorderWall_set s.1 x y TILE_EMPTY h hx.1 hx.2 hy.1 hy.2
    rw [Nat.add_comm] at this
    exact this
  · exact h
  · exact h

theorem BorderWall_clearPillars (rs : RandSrc) (s : List Nat × Nat) (h : BorderWall s.1) :
    BorderWall (clearPillars rs s).1 := by
  unfold clearPillars
  apply foldl_invariant (fun s : List Nat × Nat => BorderWall s.1) _ _ _ h
  intro s1 y hy hs1
  apply foldl_invariant (fun s : List Nat × Nat => BorderWall s.1) _ _ _ hs1
  intro s2 x hx hs2
  apply BorderWall_pillarStep rs y x s2 _ _ hs2
  · simp only [evenCoords, List.mem_cons, List.mem_singleton, List.not_mem_nil, or_false] at hx
    omega
  · simp only [evenCoords, List.mem_cons, List.mem_singleton, List.not_mem_nil, or_false] at hy
    omega

theorem BorderWall_mazeMap (rs : RandSrc) (fuel pos : Nat) (s : List Nat × Nat)
    (hr : mazeMap rs fuel pos = some s) : BorderWall s.1 := by
  unfold mazeMap at hr
  have h1 : BorderWall (seedLoop rs pos).1 := by
    unfold seedLoop
    apply foldl_invariant (fun s : List Nat × Nat => BorderWall s.1) _ _ _ BorderWall_init
    intro s _ _ hs
    exact BorderWall_seedStep rs s hs
  split at hr
  · cases hr
  · rename_i s2 h2
    split at hr
    · cases hr
    · rename_i s3 h3
      have e := Option.some.inj hr
      subst e
      apply BorderWall_clearPillars
      apply BorderWall_normalise
      exact BorderWall_carvePass rs fuel 1 s2 s3 (BorderWall_carvePass rs fuel 0 _ s2 h1 h2) h3

theorem BorderWall_clearInterior (m : List Nat) (h : BorderWall m) :
    BorderWall (clearInterior m) := by
  unfold clearInterior
  apply foldl_invariant BorderWall _ _ _ h
  intro s y hy hs
  apply foldl_invariant BorderWall _ _ _ hs
  intro s1 x hx hs1
  apply BorderWall_set s1 x y TILE_EMPTY hs1
  · simp only [innerCoords, List.mem_cons, List.mem_singleton, List.not_mem_nil, or_false] at hx
    omega
  · simp only [innerCoords, List.mem_cons, List.mem_singleton, List.not_mem_nil, or_false] at hx
    omega
  · simp only [innerCoords, List.mem_cons, List.mem_singleton, List.not_mem_nil, or_false] at hy
    omega
  · simp only [innerCoords, List.mem_cons, List.mem_singleton, List.not_mem_nil, or_false] at hy
    omega

/-- C2. For every wave index (wave 0 included), every random stream and every fuel with which
`StartWave` returns, every cell of row `0`, row `MAPH-1`, column `0` and column `MAPW-1` of
the grid it leaves is wall. -/
theorem StartWave_border_wall (rs : RandSrc) (fuel : Nat) (g g1 : Game)
    (h : StartWave rs fuel g = some g1) : BorderWall g1.Map := by
  unfold StartWave at h
  cases hs : mazeMap rs fuel g.rndpos with
  | none => rw [hs] at h; cases h
  | some s =>
    rw [hs] at h
    dsimp only at h
    have hb := BorderWall_mazeMap rs fuel g.rndpos s hs
    split_ifs at h
    · have e := Option.some.inj h
      subst e
      dsimp only
      exact BorderWall_clearInterior s.1 hb
    · have e := Option.some.inj h
      subst e
      dsimp only
      exact hb

/-! ## The grid built from the stream `rsA` -/

theorem StartWave_gameA : (StartWave rsA 1 gameA).map Game.Map = some mazeA := by
  decide!

/-- Witness of C2: with the stream `rsA` and one round of fuel `StartWave` returns the grid
`mazeA`, whose border is wall. -/
theorem StartWave_border_wall_witness :
    (StartWave rsA 1 gameA).map Game.Map = some mazeA ∧ BorderWall mazeA := by
  refine ⟨StartWave_gameA, ?_⟩
  obtain ⟨g1, h1, h2⟩ := Option.map_eq_some'.mp StartWave_gameA
  rw [← h2]
  exact StartWave_border_wall rsA 1 gameA g1 h1

theorem Walk_from_isolated (n b : Nat) (h : Walk mazeA n 18 b) : b = 18 := by
  cases h with
  | stay => rfl
  | @move n1 _ b1 _ hs hw =>
    exfalso
    obtain ⟨⟨_, hb, hadj⟩, _, he⟩ := hs
    simp only [MAPW, MAPH] at hb hadj
    have hcases : b1 = 1 ∨ b1 = 17 ∨ b1 = 19 ∨ b1 = 35 := by omega
    rcases hcases with rfl | rfl | rfl | rfl <;> revert he <;> decide

/-- C1, failing input. With the stream `rsA` the first wave gets the grid `mazeA`, in which
the lattice cell `(1,1)` is empty and walled in on all four sides: the claim that every
lattice cell is reachable from every other one fails for `StartWave`. -/
theorem StartWave_not_always_connected :
    ¬ ∀ (rs : RandSrc) (fuel : Nat) (g g1 : Game), 1 ≤ g.wave →
      StartWave rs fuel g = some g1 → LatticeConnected g1.Map := by
  intro H
  obtain ⟨g1, h1, h2⟩ := Option.map_eq_some'.mp StartWave_gameA
  have hc := H rsA 1 gameA g1 (by decide) h1
  rw [h2] at hc
  obtain ⟨n, hw⟩ := hc 1 (by decide) 1 (by decide) 3 (by decide) 1 (by decide)
  have := Walk_from_isolated n _ hw
  simp [MAPW] at this

/-! ## The attack counter -/

theorem resolveStep_none (radius : ℚ) (s : Resolve) (c : Col)
    (h : (resolveStep radius s c).collided = none) : resolveStep radius s c = s := by
  unfold resolveStep at h ⊢
  dsimp only at h ⊢
  split_ifs at h ⊢ <;> rfl

theorem resolve_foldl_none (radius : ℚ) (cols : List Col) (s : Resolve)
    (h : (cols.foldl (resolveStep radius) s).collided = none) :
    cols.foldl (resolveStep radius) s = s := by
  induction cols generalizing s with
  | nil => rfl
  | cons c cs ih =>
    simp only [List.foldl_cons] at h ⊢
    have h1 := ih _ h
    rw [h1] at h
    rw [h1, resolveStep_none radius s c h]

theorem clampBounds_bounds (s : Resolve) :
    0 ≤ (clampBounds s).tpos.x ∧ (clampBounds s).tpos.x ≤ MAPW ∧
    0 ≤ (clampBounds s).tpos.y ∧ (clampBounds s).tpos.y ≤ MAPH := by
  unfold clampBounds
  simp only [MAPW, MAPH, Nat.cast_ofNat]
  split_ifs <;> (refine ⟨?_, ?_, ?_, ?_⟩) <;> dsimp only at * <;> linarith

theorem clampBounds_none (s : Resolve) (h : (clampBounds s).collided = none) :
    clampBounds s = s := by
  unfold clampBounds at h ⊢
  dsimp only at h ⊢
  split_ifs at h ⊢
  rfl

theorem DoCollision_bounds (lib : ZLib) (g : Game) (self : Option Nat) (t : Thing)
    (stepHeight : ℚ) (hz1 : -10 ≤ (DoCollision lib g self t stepHeight).1.pos.z)
    (hz2 : (DoCollision lib g self t stepHeight).1.pos.z ≤ 20) :
    0 ≤ (DoCollision lib g self t stepHeight).1.pos.x ∧
    (DoCollision lib g self t stepHeight).1.pos.x ≤ MAPW ∧
    0 ≤ (DoCollision lib g self t stepHeight).1.pos.y ∧
    (DoCollision lib g self t stepHeight).1.pos.y ≤ MAPH := by
  unfold DoCollision at hz1 hz2 ⊢
  by_cases hout : t.pos.z < -10 ∨ t.pos.z > 20
  · simp only [hout, if_true] at hz1 hz2
    rcases hout with h | h <;> linarith
  · simp only [hout, if_false] at hz1 hz2 ⊢
    generalize hf : (sortCols (gatherCols lib g self t stepHeight)).foldl (resolveStep t.radius)
      { tpos := t.pos, velz := t.vel.z, collided := none } = f at *
    have hb := clampBounds_bounds f
    cases hc : (clampBounds f).collided with
    | some p => simpa [hc] using hb
    | none =>
      have h1 := clampBounds_none f hc
      rw [h1] at hc hb
      have h2 := resolve_foldl_none t.radius _ _ (hf ▸ hc)
      rw [hf] at h2
      rw [h2] at hb
      simpa [h1, h2] using hb

theorem DoMoveLoop_last (lib : ZLib) (g : Game) (self : Option Nat) (stepHeight : ℚ)
    (movedir : Vec3) (fuel : Nat) :
    ∀ (movelen : ℚ) (t : Thing) (c : Option Partner) (r : Thing × Option Partner),
      DoMoveLoop lib g self stepHeight movedir fuel movelen t c = some r →
      r = (t, c) ∨ ∃ t1, r = DoCollision lib g self t1 stepHeight := by
  induction fuel with
  | zero =>
    intro movelen t c r h
    rw [DoMoveLoop] at h
    split_ifs at h
    exact Or.inl (Option.some.inj h).symm
  | succ n ih =>
    intro movelen t c r h
    rw [DoMoveLoop] at h
    split_ifs at h
    · rcases ih _ _ _ r h with h1 | h1
      · exact Or.inr ⟨_, h1⟩
      · exact Or.inr h1
    · exact Or.inl (Option.some.inj h).symm

theorem DoMoveLoop_first (lib : ZLib) (g : Game) (self : Option Nat) (stepHeight : ℚ)
    (movedir : Vec3) (fuel : Nat) (movelen : ℚ) (t : Thing) (c : Option Partner)
    (r : Thing × Option Partner) (hpos : 0 < movelen)
    (h : DoMoveLoop lib g self stepHeight movedir fuel movelen t c = some r) :
    ∃ t1, r = DoCollision lib g self t1 stepHeight := by
  have hmin : min movelen (2 / 10) > 0 := lt_min hpos (by norm_num)
  cases fuel with
  | zero => rw [DoMoveLoop] at h; simp [hmin] at h
  | succ n =>
    rw [DoMoveLoop] at h
    simp only [hmin, if_true] at h
    rcases DoMoveLoop_last lib g self stepHeight movedir n _ _ _ r h with h1 | h1
    · exact ⟨_, h1⟩
    · exact h1

theorem DoMoveLoop_isSome (lib : ZLib) (g : Game) (self : Option Nat) (stepHeight : ℚ)
    (movedir : Vec3) (fuel : Nat) :
    ∀ (movelen : ℚ) (t : Thing) (c : Option Partner), movelen * 5 ≤ fuel →
      ∃ r, DoMoveLoop lib g self stepHeight movedir fuel movelen t c = some r := by
  induction fuel with
  | zero =>
    intro movelen t c h
    rw [DoMoveLoop]
    have : ¬ (min movelen (2 / 10) > 0) := by
      simp only [Nat.cast_zero] at h
      have : min movelen (2 / 10) ≤ movelen := min_le_left _ _
      linarith
    simp [this]
  | succ n ih =>
    intro movelen t c h
    rw [DoMoveLoop]
    split_ifs with hm
    · apply ih
      push_cast at h
      rcases le_total movelen (2 / 10) with h1 | h1
      · rw [min_eq_left h1]; simp
      · rw [min_eq_right h1]; linarith
    · exact ⟨_, rfl⟩

theorem DoMove_isSome (lib : ZLib) (g : Game) (self : Option Nat) (t : Thing)
    (dt stepHeight : ℚ) : ∃ r, DoMove lib g self t dt stepHeight = some r := by
  unfold DoMove
  dsimp only
  split_ifs
  · exact DoMoveLoop_isSome lib g self stepHeight _ _ _ _ _ (Nat.le_ceil _)
  · exact ⟨_, rfl⟩

/-- C3, amended. For every actor, starting position, velocity, `dt` and `stepHeight` for which
`DoMove` makes at least one sub-step (the length of `vel * dt` is positive), `DoMove` returns,
and if the actor's height after it lies in `[-10, 20]` then its position satisfies
`0 ≤ x ≤ MAPW` and `0 ≤ y ≤ MAPH`. -/
theorem DoMove_in_bounds (lib : ZLib) (g : Game) (self : Option Nat) (t : Thing)
    (dt stepHeight : ℚ) (hlen : 0 < lib.GetLength (t.vel.smul dt)) :
    ∃ t1 c, DoMove lib g self t dt stepHeight = some (t1, c) ∧
      (-10 ≤ t1.pos.z → t1.pos.z ≤ 20 →
        0 ≤ t1.pos.x ∧ t1.pos.x ≤ MAPW ∧ 0 ≤ t1.pos.y ∧ t1.pos.y ≤ MAPH) := by
  obtain ⟨r, hr⟩ := DoMove_isSome lib g self t dt stepHeight
  refine ⟨r.1, r.2, hr, ?_⟩
  unfold DoMove at hr
  simp only [hlen, gt_iff_lt, if_true] at hr
  obtain ⟨t1, h1⟩ := DoMoveLoop_first lib g self stepHeight _ _ _ t none r hlen hr
  rw [h1]
  exact DoCollision_bounds lib g self t1 stepHeight

/-- Witness of C3: the projectile `bulletGraze` moved by `dt = 0.04` on the grid of wave 0. -/
theorem DoMove_in_bounds_witness :
    ∃ t1 c, DoMove exactLib arena none bulletGraze (4 / 100) 0 = some (t1, c) ∧
      (-10 ≤ t1.pos.z → t1.pos.z ≤ 20 →
        0 ≤ t1.pos.x ∧ t1.pos.x ≤ MAPW ∧ 0 ≤ t1.pos.y ∧ t1.pos.y ≤ MAPH) :=
  DoMove_in_bounds exactLib arena none bulletGraze (4 / 100) 0 (by decide!)

/-- C3, counterexample. The projectile `bulletUp` starts inside the world bounds at height
`19.9`; one sub-step with `dt = 0.02` takes it to height `20.06`, where `DoCollision` returns
at once, and leaves it at `x = 17.02 > MAPW`. -/
theorem DoMove_leaves_bounds :
    0 ≤ bulletUp.pos.x ∧ bulletUp.pos.x ≤ MAPW ∧ 0 ≤ bulletUp.pos.y ∧ bulletUp.pos.y ≤ MAPH ∧
    (0 : ℚ) ≤ 2 / 100 ∧
    (DoMove exactLib arena none bulletUp (2 / 100) 0).map (fun r => r.1.pos)
      = some ⟨1702 / 100, 17 / 2, 2006 / 100⟩ ∧ ¬ ((1702 / 100 : ℚ) ≤ MAPW) := by
  decide!

/-- C10, failing input. The projectile `bulletGraze` starts more than its radius away from the
west wall. Moved with `dt = 0.02` (one sub-step) it touches the wall face and `DoMove` reports
the world; moved with `dt = 0.04` (the same sub-step and one more) `DoMove` reports nothing,
and `updateBullets` keeps the projectile. -/
theorem DoMove_forgets_collision :
    (DoMove exactLib arena none bulletGraze (2 / 100) 0).map Prod.snd
      = some (some Partner.world) ∧
    (DoMove exactLib arena none bulletGraze (4 / 100) 0).map Prod.snd = some none ∧
    (updateBullets exactLib (4 / 100) { arena with bullets := [bulletGraze] }).map
      (fun g => g.bullets.length) = some 1 := by
  decide!


/-! ## Projectiles and enemies -/

theorem hitEnemies_first (lib : ZLib) (b : Thing) (es : List Enemy)
    (h : ∃ e ∈ es, overlaps e b) :
    ∃ pre e post, es = pre ++ e :: post ∧ (∀ x ∈ pre, ¬ overlaps x b) ∧ overlaps e b ∧
      hitEnemies lib b es =
        if e.health - 1 ≤ 0 then (pre ++ post, Hit.killed)
        else (pre ++ damaged lib b e :: post, Hit.damaged) := by
  induction es with
  | nil => obtain ⟨e, he, _⟩ := h; cases he
  | cons a as ih =>
    by_cases ha : overlaps a b
    · refine ⟨[], a, as, rfl, by simp, ha, ?_⟩
      rw [hitEnemies]
      simp only [ha, if_true, List.nil_append]
    · have h1 : ∃ e ∈ as, overlaps e b := by
        obtain ⟨e, he, ho⟩ := h
        rcases List.mem_cons.mp he with rfl | he1
        · exact absurd ho ha
        · exact ⟨e, he1, ho⟩
      obtain ⟨pre, e, post, h2, h3, h4, h5⟩ := ih h1
      refine ⟨a :: pre, e, post, by rw [h2]; rfl, ?_, h4, ?_⟩
      · intro x hx
        rcases List.mem_cons.mp hx with rfl | hx1
        · exact ha
        · exact h3 x hx1
      · rw [hitEnemies]
        simp only [ha, if_false, h5]
        split_ifs <;> rfl

/-- C8. When a projectile passed its move (`DoMove` reported nothing) and overlaps at least one
enemy, the enemy list splits as `pre ++ e :: post` with `e` the first enemy that overlaps;
the loop body returns, and either `e.health - 1 ≤ 0`, `e` is removed and `kills` grows by one,
or `e` stays with its health down by exactly one and `kills` is unchanged. All other enemies
are unchanged. -/
theorem bulletStep_hit (lib : ZLib) (dt : ℚ) (b b1 : Thing) (g : Game)
    (hmove : DoMove lib g none b dt 0 = some (b1, none))
    (hover : ∃ e ∈ g.enemies, overlaps e b1) :
    ∃ pre e post g1, g.enemies = pre ++ e :: post ∧ (∀ x ∈ pre, ¬ overlaps x b1) ∧
      overlaps e b1 ∧ bulletStep lib dt b g = some g1 ∧
      (damaged lib b1 e).health = e.health - 1 ∧
      (if e.health - 1 ≤ 0 then g1.enemies = pre ++ post ∧ g1.kills = g.kills + 1
       else g1.enemies = pre ++ damaged lib b1 e :: post ∧ g1.kills = g.kills) := by
  obtain ⟨pre, e, post, h1, h2, h3, h4⟩ := hitEnemies_first lib b1 g.enemies hover
  refine ⟨pre, e, post, applyHit lib b1 g, h1, h2, h3, ?_, rfl, ?_⟩
  · rw [bulletStep, hmove]
  · unfold applyHit
    rw [h4]
    split_ifs <;> simp

/-- Witness of C8: the projectile `bulletHit` and one ground enemy of health 1. -/
theorem bulletStep_hit_witness :
    ∃ pre e post g1, (arenaHit 1).enemies = pre ++ e :: post ∧
      (∀ x ∈ pre, ¬ overlaps x bulletHitMoved) ∧
      overlaps e bulletHitMoved ∧
      bulletStep exactLib (1 / 100) bulletHit (arenaHit 1) = some g1 ∧
      (damaged exactLib bulletHitMoved e).health = e.health - 1 ∧
      (if e.health - 1 ≤ 0 then g1.enemies = pre ++ post ∧ g1.kills = (arenaHit 1).kills + 1
       else g1.enemies = pre ++ damaged exactLib bulletHitMoved e :: post ∧
        g1.kills = (arenaHit 1).kills) :=
  bulletStep_hit exactLib (1 / 100) bulletHit _ (arenaHit 1) (by decide!)
    ⟨spiderAt 1, by simp [arenaHit], by decide!⟩

/-- C9, failing input. A projectile that overlaps a ground enemy of health 1 kills it and stays
in the projectile list (one kill, no enemy left, one projectile left); against the same enemy
with health 1.5 the projectile is erased. -/
theorem updateBullets_kill_keeps_bullet :
    (updateBullets exactLib (1 / 100) (arenaHit 1)).map (fun g => (g.bullets, g.enemies, g.kills))
      = some ([bulletHitMoved], [], 1) ∧
    (updateBullets exactLib (1 / 100) (arenaHit (3 / 2))).map
      (fun g => (g.bullets, g.enemies.map (fun e => e.health), g.kills))
      = some ([], [1 / 2], 0) := by
  decide!


/-! ## The breadth-first search -/

theorem getD_set_eq {α : Type} (l : List α) (i : Nat) (v d : α) (h : i < l.length) :
    (l.set i v).getD i d = v := by
  simp [List.getD_eq_getElem?_getD, List.getElem?_set, h]

theorem getD_set_ne {α : Type} (l : List α) (i j : Nat) (v d : α) (h : i ≠ j) :
    (l.set i v).getD j d = l.getD j d := by
  simp [List.getD_eq_getElem?_getD, List.getElem?_set_ne h]

theorem getD_append_cons (pre post : List Nat) (u : Nat) :
    (pre ++ u :: post).getD pre.length 0 = u := by
  rw [List.getD_eq_getElem?_getD, List.getElem?_append_right (le_refl _)]
  simp

theorem neighbor_adjacent (u Dir v : Nat) (hu : u < MAPW * MAPH)
    (h : neighbor false false u Dir = some v) : adjacent u v := by
  unfold neighbor at h
  unfold adjacent
  simp only [MAPW, MAPH, Bool.false_eq_true, false_or] at *
  split_ifs at h <;> simp only [Option.some.injEq, reduceCtorEq] at h <;> omega

theorem adjacent_neighbor (u v : Nat) (h : adjacent u v) :
    ∃ Dir ∈ [0, 1, 2, 3], neighbor false false u Dir = some v := by
  unfold adjacent at h
  simp only [MAPW, MAPH] at h
  obtain ⟨hu, hv, h1⟩ := h
  have hc : v + 1 = u ∨ u + 1 = v ∨ v + 17 = u ∨ u + 17 = v := by omega
  rcases hc with hc | hc | hc | hc
  · subst hc
    refine ⟨0, by simp, ?_⟩
    have h2 : ¬ ((v + 1) % 17 = 0) := by omega
    simp [neighbor, MAPW, h2]
  · subst hc
    refine ⟨1, by simp, ?_⟩
    have h2 : ¬ (u % 17 = 16) := by omega
    simp [neighbor, MAPW, h2]
  · subst hc
    refine ⟨2, by simp, ?_⟩
    simp [neighbor, MAPW]
  · subst hc
    refine ⟨3, by simp, ?_⟩
    have h2 : u < 272 := by omega
    simp [neighbor, MAPW, MAPH, h2]

theorem Walk_append (m : List Nat) (i j a b c : Nat) (h1 : Walk m i a b) (h2 : Walk m j b c) :
    Walk m (i + j) a c := by
  induction h1 with
  | stay a => simpa using h2
  | move hs _ ih =>
    have := Walk.move hs (ih h2)
    rwa [Nat.add_right_comm] at this

theorem getD_set {α : Type} (l : List α) (i j : Nat) (v d : α) :
    (l.set i v).getD j d = if i = j ∧ i < l.length then v else l.getD j d := by
  by_cases h : i = j
  · subst h
    by_cases h1 : i < l.length
    · simp [getD_set_eq l i v d h1, h1]
    · have : l.set i v = l := List.set_eq_of_length_le (by omega)
      simp [this, h1]
  · simp [getD_set_ne l i j v d h, h]

theorem frontier_length_le (l : List Nat) (hn : l.Nodup) (hb : ∀ n ∈ l, n < MAPW * MAPH) :
    l.length ≤ MAPW * MAPH := by
  have h1 : l.toFinset ⊆ Finset.range (MAPW * MAPH) := by
    intro n hn1
    exact Finset.mem_range.mpr (hb n (List.mem_toFinset.mp hn1))
  have h2 := Finset.card_le_card h1
  rwa [List.toFinset_card_of_nodup hn, Finset.card_range] at h2

section
variable {m : List Nat} {src tgt : Nat} {lvl : Nat → Nat} {pre cur : List Nat} {s : Bfs}

theorem BfsInv.lvl_zero (inv : BfsInv m src tgt lvl pre cur s) (n : Nat)
    (hn : n ∈ s.Frontier) (h0 : lvl n = 0) : n = src := by
  by_contra hne
  have := (inv.tree n hn hne).2.2
  omega

theorem BfsInv.tree_walk (inv : BfsInv m src tgt lvl pre cur s) :
    ∀ (k n : Nat), n ∈ s.Frontier → lvl n = k → Walk m k src n := by
  intro k
  induction k with
  | zero =>
    intro n hn h0
    rw [inv.lvl_zero n hn h0]
    exact Walk.stay src
  | succ k ih =>
    intro n hn hk
    have hne : n ≠ src := by
      intro h
      rw [h, inv.lvl_src] at hk
      omega
    obtain ⟨hp, hs, hl⟩ := inv.tree n hn hne
    have hw := ih _ hp (by omega)
    exact Walk_append m k 1 src _ n hw (Walk.move hs (Walk.stay n))

theorem BfsInv.processed {u : Nat} {post : List Nat}
    (inv : BfsInv m src tgt lvl pre (u :: post) s) (a : Nat) (ha : a ∈ s.Frontier)
    (hl : lvl a < lvl u) : a ∈ pre := by
  have hs := inv.sorted
  rw [inv.front] at hs ha
  rcases List.mem_append.mp ha with h | h
  · exact h
  · exfalso
    have h2 := (List.pairwise_append.mp hs).2.1
    rcases List.mem_cons.mp h with rfl | h3
    · omega
    · have := (List.pairwise_cons.mp h2).1 a h3
      omega

theorem BfsInv.walk_in_frontier {u : Nat} {post : List Nat}
    (inv : BfsInv m src tgt lvl pre (u :: post) s) (j a w : Nat) (hw : Walk m j a w) :
    a ∈ s.Frontier → lvl a + j ≤ lvl u → w ∈ s.Frontier ∧ lvl w ≤ lvl a + j := by
  induction hw with
  | stay a => intro ha _; exact ⟨ha, by omega⟩
  | @move n a b c hs _ ih =>
    intro ha hl
    have hpre := inv.processed a ha (by omega)
    obtain ⟨hb, hlb⟩ := inv.closed a hpre b hs
    obtain ⟨hc, hlc⟩ := ih hb (by omega)
    exact ⟨hc, by omega⟩

theorem BfsInv.closed_all (inv : BfsInv m src tgt lvl pre [] s) (j a w : Nat)
    (hw : Walk m j a w) : a ∈ s.Frontier → w ∈ s.Frontier := by
  induction hw with
  | stay a => exact id
  | @move n a b c hs _ ih =>
    intro ha
    have hpre : a ∈ pre := by
      have := inv.front
      rw [List.append_nil] at this
      rwa [this] at ha
    exact ih (inv.closed a hpre b hs).1

theorem BfsInv.length_le (inv : BfsInv m src tgt lvl pre cur s) :
    s.Frontier.length ≤ MAPW * MAPH :=
  frontier_length_le s.Frontier inv.nodup (fun n hn => (inv.bound n hn).1)

theorem backWalk_chain (inv : BfsInv m src tgt lvl pre cur s) (hsrc : src < MAPW * MAPH) :
    ∀ (k a prev : Nat) (P : List Nat) (j fuel : Nat), a ∈ s.Frontier → lvl a = k →
      prev ≠ src → P.length = MAPW * MAPH →
      (∀ n ∈ s.Frontier, lvl n ≤ k → P.getD n 0 = s.Path.getD n 0) →
      emptyStep m a prev → Walk m j prev tgt → k + 2 ≤ fuel →
      ∃ P1, backWalk src fuel prev a P = some P1 ∧ emptyStep m src (P1.getD src 0) ∧
        Walk m (j + k) (P1.getD src 0) tgt := by
  intro k
  induction k with
  | zero =>
    intro a prev P j fuel ha hl hprev hlen _ hs hw hf
    have ha0 := inv.lvl_zero a ha hl
    subst ha0
    obtain ⟨f, rfl⟩ : ∃ f, fuel = f + 2 := ⟨fuel - 2, by omega⟩
    refine ⟨P.set a prev, ?_, ?_, ?_⟩
    · rw [backWalk, if_neg hprev, backWalk, if_pos rfl]
    · rw [getD_set_eq P a prev 0 (by omega)]
      exact hs
    · rw [getD_set_eq P a prev 0 (by omega)]
      exact hw
  | succ k ih =>
    intro a prev P j fuel ha hl hprev hlen hP hs hw hf
    have hne : a ≠ src := by
      intro h
      rw [h, inv.lvl_src] at hl
      omega
    obtain ⟨hp, hps, hpl⟩ := inv.tree a ha hne
    obtain ⟨f, rfl⟩ : ∃ f, fuel = f + 1 := ⟨fuel - 1, by omega⟩
    have hPa : P.getD a 0 = s.Path.getD a 0 := hP a ha (by omega)
    rw [backWalk, if_neg hprev, hPa]
    have := ih (s.Path.getD a 0) a (P.set a prev) (j + 1) f hp (by omega) hne
      (by rw [List.length_set]; exact hlen)
      (fun n hn hln => by
        rw [getD_set_ne P a n prev 0 (by intro h; subst h; omega)]
        exact hP n hn (by omega))
      hps (Walk.move hs hw) (by omega)
    obtain ⟨P1, h1, h2, h3⟩ := this
    refine ⟨P1, h1, h2, ?_⟩
    have e : j + 1 + k = j + (k + 1) := by omega
    rwa [e] at h3

theorem BfsInv.found {u : Nat} {post : List Nat}
    (inv : BfsInv m src tgt lvl pre (u :: post) s) (hsrc : src < MAPW * MAPH)
    (hne : src ≠ tgt) (htgt : tileAt m tgt = TILE_EMPTY) (hadj : adjacent u tgt) :
    ∃ P, backWalk src (MAPW * MAPH + 1) tgt u s.Path = some P ∧
      NextHop m src tgt (P.getD src 0) := by
  have hu : u ∈ s.Frontier := by rw [inv.front]; simp
  have hstep : emptyStep m u tgt := ⟨hadj, (inv.bound u hu).2.1, htgt⟩
  have hk : lvl u + 2 ≤ MAPW * MAPH + 1 := by
    have h1 := inv.small u hu
    have h2 := inv.length_le
    omega
  obtain ⟨P, hP, hs, hw⟩ := backWalk_chain inv hsrc (lvl u) u tgt s.Path 0 (MAPW * MAPH + 1)
    hu rfl (Ne.symm hne) inv.plen (fun _ _ _ => rfl) hstep (Walk.stay tgt) hk
  rw [Nat.zero_add] at hw
  have hlow : ∀ n, Walk m n src tgt → lvl u + 1 ≤ n := by
    intro n hn
    by_contra hlt
    have := inv.walk_in_frontier n src tgt hn inv.src_mem (by rw [inv.lvl_src]; omega)
    exact (inv.bound tgt this.1).2.2 rfl
  refine ⟨P, hP, hs.2.2, hs.1, lvl u, ⟨Walk.move hs hw, hlow⟩, hw, ?_⟩
  intro n hn
  have := hlow (n + 1) (Walk.move hs hn)
  omega

theorem BfsInv.mark {u : Nat} {post : List Nat}
    (inv : BfsInv m src tgt lvl pre (u :: post) s) (nb : Nat)
    (he : tileAt m nb ≠ TILE_EMPTY) :
    BfsInv m src tgt lvl pre (u :: post) { s with Visited := s.Visited.set nb true } where
  front := inv.front
  src_mem := inv.src_mem
  lvl_src := inv.lvl_src
  nodup := inv.nodup
  bound := inv.bound
  vlen := by simp only [List.length_set]; exact inv.vlen
  plen := inv.plen
  vis := by
    intro n hn
    simp only [getD_set]
    split_ifs
    · rfl
    · exact inv.vis n hn
  vis_inv := by
    intro n hn
    simp only [getD_set] at hn
    split_ifs at hn with h
    · right
      rw [← h.1]
      exact he
    · exact inv.vis_inv n hn
  tree := inv.tree
  sorted := inv.sorted
  near := inv.near
  small := inv.small
  closed := inv.closed

theorem BfsInv.push {u : Nat} {post : List Nat}
    (inv : BfsInv m src tgt lvl pre (u :: post) s) (nb : Nat) (hnb : nb < MAPW * MAPH)
    (hv : s.Visited.getD nb false ≠ true) (he : tileAt m nb = TILE_EMPTY) (ht : nb ≠ tgt)
    (hadj : adjacent u nb) :
    BfsInv m src tgt (Function.update lvl nb (lvl u + 1)) pre (u :: (post ++ [nb]))
      { Frontier := s.Frontier ++ [nb], Visited := s.Visited.set nb true,
        Path := s.Path.set nb u } := by
  have hu : u ∈ s.Frontier := by rw [inv.front]; simp
  have hnot : nb ∉ s.Frontier := fun h => hv (inv.vis nb h)
  have hold : ∀ n ∈ s.Frontier, Function.update lvl nb (lvl u + 1) n = lvl n := by
    intro n hn
    exact Function.update_noteq (by intro h; subst h; exact hnot hn) _ _
  have hnew : Function.update lvl nb (lvl u + 1) nb = lvl u + 1 := Function.update_same _ _ _
  have hstep : emptyStep m u nb := ⟨hadj, (inv.bound u hu).2.1, he⟩
  refine
    { front := ?_, src_mem := ?_, lvl_src := ?_, nodup := ?_, bound := ?_, vlen := ?_,
      plen := ?_, vis := ?_, vis_inv := ?_, tree := ?_, sorted := ?_, near := ?_, small := ?_,
      closed := ?_ }
  all_goals dsimp only
  · simp only [inv.front, List.append_assoc, List.cons_append]
  · exact List.mem_append_left _ inv.src_mem
  · rw [hold src inv.src_mem]; exact inv.lvl_src
  · exact List.Nodup.append inv.nodup (List.nodup_singleton nb)
      (by intro a ha hb; rw [List.mem_singleton] at hb; subst hb; exact hnot ha)
  · intro n hn
    rcases List.mem_append.mp hn with h | h
    · exact inv.bound n h
    · rw [List.mem_singleton] at h
      subst h
      exact ⟨hnb, he, ht⟩
  · simp only [List.length_set]; exact inv.vlen
  · simp only [List.length_set]; exact inv.plen
  · intro n hn
    simp only [getD_set]
    split_ifs with h
    · rfl
    · rcases List.mem_append.mp hn with h1 | h1
      · exact inv.vis n h1
      · rw [List.mem_singleton] at h1
        exfalso
        exact h ⟨h1.symm, by rw [inv.vlen]; exact hnb⟩
  · intro n hn
    simp only [getD_set] at hn
    split_ifs at hn with h
    · left
      rw [← h.1]
      simp
    · rcases inv.vis_inv n hn with h1 | h1
      · exact Or.inl (List.mem_append_left _ h1)
      · exact Or.inr h1
  · intro n hn hne
    rcases List.mem_append.mp hn with h | h
    · have hnn : nb ≠ n := by intro e; subst e; exact hnot h
      rw [getD_set_ne s.Path nb n u 0 hnn]
      obtain ⟨h1, h2, h3⟩ := inv.tree n h hne
      exact ⟨List.mem_append_left _ h1, h2, by rw [hold n h, hold _ h1]; exact h3⟩
    · rw [List.mem_singleton] at h
      subst h
      rw [getD_set_eq s.Path n u 0 (by rw [inv.plen]; exact hnb)]
      exact ⟨List.mem_append_left _ hu, hstep, by rw [hnew, hold u hu]⟩
  · rw [List.pairwise_append]
    refine ⟨?_, List.pairwise_singleton _ _, ?_⟩
    · exact inv.sorted.imp_of_mem (fun {a b} ha hb hab => by rw [hold a ha, hold b hb]; exact hab)
    · intro a ha b hb
      rw [List.mem_singleton] at hb
      subst hb
      rw [hold a ha, hnew]
      exact inv.near u (by simp) a ha
  · intro v hv1 n hn
    simp only [List.head?_cons, Option.mem_def, Option.some.injEq] at hv1
    subst hv1
    rw [hold u hu]
    rcases List.mem_append.mp hn with h | h
    · rw [hold n h]
      exact inv.near u (by simp) n h
    · rw [List.mem_singleton] at h
      subst h
      rw [hnew]
  · intro n hn
    simp only [List.length_append, List.length_singleton]
    rcases List.mem_append.mp hn with h | h
    · rw [hold n h]
      have := inv.small n h
      omega
    · rw [List.mem_singleton] at h
      subst h
      rw [hnew]
      have := inv.small u hu
      omega
  · intro a ha v hs
    have haF : a ∈ s.Frontier := by rw [inv.front]; exact List.mem_append_left _ ha
    obtain ⟨h1, h2⟩ := inv.closed a ha v hs
    exact ⟨List.mem_append_left _ h1, by rw [hold v h1, hold a haF]; exact h2⟩

theorem visitDir_spec {u : Nat} {post : List Nat}
    (inv : BfsInv m src tgt lvl pre (u :: post) s) (hsrc : src < MAPW * MAPH)
    (hne : src ≠ tgt) (htgt : tileAt m tgt = TILE_EMPTY) (Dir : Nat) :
    (∃ t, visitDir m src tgt false false u Dir s = some (Scan.done t) ∧ NextHop m src tgt t) ∨
    (∃ s1 lvl1 post1, visitDir m src tgt false false u Dir s = some (Scan.more s1) ∧
      BfsInv m src tgt lvl1 pre (u :: post1) s1 ∧
      (∀ n ∈ s.Frontier, n ∈ s1.Frontier ∧ lvl1 n = lvl n) ∧ Handled m lvl1 u Dir s1) := by
  have hu : u ∈ s.Frontier := by rw [inv.front]; simp
  unfold visitDir
  cases hn : neighbor false false u Dir with
  | none =>
    right
    refine ⟨s, lvl, post, rfl, inv, fun n h => ⟨h, rfl⟩, ?_⟩
    intro v hv
    rw [hn] at hv
    cases hv
  | some nb =>
    have hadj := neighbor_adjacent u Dir nb (inv.bound u hu).1 hn
    have hnb : nb < MAPW * MAPH := hadj.2.1
    dsimp only
    by_cases hv : s.Visited.getD nb false = true
    · right
      rw [if_pos hv]
      refine ⟨s, lvl, post, rfl, inv, fun n h => ⟨h, rfl⟩, ?_⟩
      intro v hv1 he
      rw [hn] at hv1
      cases hv1
      rcases inv.vis_inv nb hv with h | h
      · exact ⟨h, inv.near u (by simp) nb h⟩
      · exact absurd he h
    · rw [if_neg hv]
      by_cases he : tileAt m nb ≠ TILE_EMPTY
      · right
        rw [if_pos he]
        refine ⟨_, lvl, post, rfl, inv.mark nb he, fun n h => ⟨h, rfl⟩, ?_⟩
        intro v hv1 he1
        rw [hn] at hv1
        cases hv1
        exact absurd he1 he
      · rw [if_neg he]
        have he1 : tileAt m nb = TILE_EMPTY := not_not.mp he
        by_cases ht : nb = tgt
        · left
          rw [if_pos ht]
          subst ht
          obtain ⟨P, hP, hgoal⟩ := inv.found hsrc hne htgt hadj
          rw [hP]
          exact ⟨_, rfl, hgoal⟩
        · right
          rw [if_neg ht]
          have hnot : nb ∉ s.Frontier := fun h => hv (inv.vis nb h)
          refine ⟨_, _, _, rfl, inv.push nb hnb hv he1 ht hadj, ?_, ?_⟩
          · intro n h
            exact ⟨List.mem_append_left _ h,
              Function.update_noteq (by intro e; subst e; exact hnot h) _ _⟩
          · intro v hv1 _
            rw [hn] at hv1
            cases hv1
            refine ⟨by simp, ?_⟩
            rw [Function.update_same,
              Function.update_noteq (by intro e; subst e; exact hnot hu)]

theorem Handled.extend {u Dir : Nat} {lvl1 : Nat → Nat} {s1 : Bfs}
    (h : Handled m lvl u Dir s) (hu : u ∈ s.Frontier)
    (hext : ∀ n ∈ s.Frontier, n ∈ s1.Frontier ∧ lvl1 n = lvl n) : Handled m lvl1 u Dir s1 := by
  intro v hv he
  obtain ⟨h1, h2⟩ := h v hv he
  exact ⟨(hext v h1).1, by rw [(hext v h1).2, (hext u hu).2]; exact h2⟩

theorem visitDirs_spec {u : Nat} (hsrc : src < MAPW * MAPH) (hne : src ≠ tgt)
    (htgt : tileAt m tgt = TILE_EMPTY) (dirs : List Nat) :
    ∀ (s : Bfs) (lvl : Nat → Nat) (post : List Nat), BfsInv m src tgt lvl pre (u :: post) s →
    (∃ t, visitDirs m src tgt false false u dirs s = some (Scan.done t) ∧ NextHop m src tgt t) ∨
    (∃ s1 lvl1 post1, visitDirs m src tgt false false u dirs s = some (Scan.more s1) ∧
      BfsInv m src tgt lvl1 pre (u :: post1) s1 ∧
      (∀ n ∈ s.Frontier, n ∈ s1.Frontier ∧ lvl1 n = lvl n) ∧
      ∀ Dir ∈ dirs, Handled m lvl1 u Dir s1) := by
  induction dirs with
  | nil =>
    intro s lvl post inv
    right
    exact ⟨s, lvl, post, rfl, inv, fun n h => ⟨h, rfl⟩, fun _ h => by cases h⟩
  | cons d ds ih =>
    intro s lvl post inv
    have hu : u ∈ s.Frontier := by rw [inv.front]; simp
    rw [visitDirs]
    rcases visitDir_spec inv hsrc hne htgt d with ⟨t, h1, h2⟩ | ⟨s1, lvl1, post1, h1, h2, h3, h4⟩
    · left
      rw [h1]
      exact ⟨t, rfl, h2⟩
    · rw [h1]
      dsimp only
      rcases ih s1 lvl1 post1 h2 with ⟨t, h5, h6⟩ | ⟨s2, lvl2, post2, h5, h6, h7, h8⟩
      · left
        exact ⟨t, h5, h6⟩
      · right
        refine ⟨s2, lvl2, post2, h5, h6, ?_, ?_⟩
        · intro n hn
          obtain ⟨a1, a2⟩ := h3 n hn
          obtain ⟨b1, b2⟩ := h7 n a1
          exact ⟨b1, by rw [b2, a2]⟩
        · intro Dir hd
          rcases List.mem_cons.mp hd with rfl | hd1
          · exact h4.extend (h3 u hu).1 h7
          · exact h8 Dir hd1

theorem BfsInv.advance {u : Nat} {post : List Nat}
    (inv : BfsInv m src tgt lvl pre (u :: post) s)
    (hall : ∀ Dir ∈ [0, 1, 2, 3], Handled m lvl u Dir s) :
    BfsInv m src tgt lvl (pre ++ [u]) post s where
  front := by rw [inv.front]; simp
  src_mem := inv.src_mem
  lvl_src := inv.lvl_src
  nodup := inv.nodup
  bound := inv.bound
  vlen := inv.vlen
  plen := inv.plen
  vis := inv.vis
  vis_inv := inv.vis_inv
  tree := inv.tree
  sorted := inv.sorted
  near := by
    intro v hv n hn
    have h1 := inv.near u (by simp) n hn
    have hs := inv.sorted
    rw [inv.front] at hs
    have h2 := (List.pairwise_cons.mp (List.pairwise_append.mp hs).2.1).1 v
      (List.mem_of_mem_head? hv)
    omega
  small := inv.small
  closed := by
    intro a ha v hs
    rcases List.mem_append.mp ha with h | h
    · exact inv.closed a h v hs
    · rw [List.mem_singleton] at h
      subst h
      obtain ⟨Dir, hd, hnb⟩ := adjacent_neighbor a v hs.1
      exact hall Dir hd v hnb hs.2.2

theorem searchLoop_spec (hsrc : src < MAPW * MAPH) (hne : src ≠ tgt)
    (htgt : tileAt m tgt = TILE_EMPTY) (fuel : Nat) :
    ∀ (pre cur : List Nat) (s : Bfs) (lvl : Nat → Nat), BfsInv m src tgt lvl pre cur s →
      MAPW * MAPH + 1 ≤ fuel + pre.length →
      (searchLoop m src tgt fuel pre.length false false s = some none ∧ ¬ Connected m src tgt) ∨
      (∃ t, searchLoop m src tgt fuel pre.length false false s = some (some t) ∧
        NextHop m src tgt t) := by
  induction fuel with
  | zero =>
    intro pre cur s lvl inv hf
    exfalso
    have h1 := inv.length_le
    rw [inv.front, List.length_append] at h1
    omega
  | succ f ih =>
    intro pre cur s lvl inv hf
    rw [searchLoop]
    cases cur with
    | nil =>
      left
      have hlen : pre.length = s.Frontier.length := by rw [inv.front]; simp
      rw [if_pos hlen]
      refine ⟨rfl, ?_⟩
      rintro ⟨n, hw⟩
      have := inv.closed_all n src tgt hw inv.src_mem
      exact (inv.bound tgt this).2.2 rfl
    | cons u post =>
      have hlen : pre.length ≠ s.Frontier.length := by rw [inv.front]; simp
      rw [if_neg hlen]
      have hget : s.Frontier.getD pre.length 0 = u := by
        rw [inv.front]
        exact getD_append_cons pre post u
      rw [hget]
      rcases visitDirs_spec hsrc hne htgt [0, 1, 2, 3] s lvl post inv with
        ⟨t, h1, h2⟩ | ⟨s1, lvl1, post1, h1, h2, _, h4⟩
      · right
        rw [h1]
        exact ⟨t, rfl, h2⟩
      · rw [h1]
        dsimp only
        have := ih (pre ++ [u]) post1 s1 lvl1 (h2.advance h4)
          (by rw [List.length_append, List.length_singleton]; omega)
        rw [List.length_append, List.length_singleton] at this
        exact this

end

theorem BfsInv_init (m : List Nat) (src tgt : Nat) (hsrc : src < MAPW * MAPH) (hne : src ≠ tgt)
    (hes : tileAt m src = TILE_EMPTY) :
    BfsInv m src tgt (fun _ => 0) [] [src] (Bfs.init src) where
  front := rfl
  src_mem := by simp [Bfs.init]
  lvl_src := rfl
  nodup := by simp [Bfs.init]
  bound := by
    intro n hn
    simp only [Bfs.init, List.mem_singleton] at hn
    subst hn
    exact ⟨hsrc, hes, hne⟩
  vlen := by simp [Bfs.init]
  plen := by simp [Bfs.init]
  vis := by
    intro n hn
    simp only [Bfs.init, List.mem_singleton] at hn
    subst hn
    simp only [Bfs.init]
    rw [getD_set_eq _ _ _ _ (by simpa using hsrc)]
  vis_inv := by
    intro n hn
    left
    simp only [Bfs.init, getD_set] at hn ⊢
    split_ifs at hn with h
    · simp [h.1]
    · exfalso
      simp only [List.getD_eq_getElem?_getD, List.getElem?_replicate] at hn
      split_ifs at hn <;> simp at hn
  tree := by
    intro n hn hne1
    simp only [Bfs.init, List.mem_singleton] at hn
    exact absurd hn hne1
  sorted := by simp [Bfs.init]
  near := by intro u _ n _; simp
  small := by intro n _; simp [Bfs.init]
  closed := by intro a ha; cases ha

theorem search_spec (m : List Nat) (src tgt : Nat) (hy1 : MAPW ≤ src)
    (hy2 : src < MAPW * MAPH - MAPW) (hx1 : src % MAPW ≠ 0) (hx2 : src % MAPW ≠ MAPW - 1)
    (hne : src ≠ tgt) (hes : tileAt m src = TILE_EMPTY) (het : tileAt m tgt = TILE_EMPTY) :
    (search m src tgt = some none ∧ ¬ Connected m src tgt) ∨
    (∃ t, search m src tgt = some (some t) ∧ NextHop m src tgt t) := by
  have hsrc : src < MAPW * MAPH := by
    simp only [MAPW, MAPH] at *
    omega
  unfold search
  have f1 : (decide (src < MAPW) || decide (src ≥ MAPW * MAPH - MAPW)) = false := by
    simp only [Bool.or_eq_false_iff, decide_eq_false_iff_not]
    exact ⟨by omega, by omega⟩
  have f2 : (decide (src % MAPW = 0) || decide (src % MAPW = MAPW - 1)) = false := by
    simp only [Bool.or_eq_false_iff, decide_eq_false_iff_not]
    exact ⟨hx1, hx2⟩
  rw [f1, f2]
  exact searchLoop_spec hsrc hne het _ [] [src] _ _ (BfsInv_init m src tgt hsrc hne hes)
    (by simp)


/-! ## `AStarMoveTarget` -/

theorem tileCentre_ne_clampedTarget (t : Nat) (posTo : Vec2) :
    tileCentre t ≠ clampedTarget posTo := by
  intro h
  have hx := congrArg Vec2.x h
  simp only [tileCentre, clampedTarget] at hx
  generalize t % MAPW = a at hx
  generalize Clamp ⌊posTo.x⌋ (1 + 1) ((MAPW : Int) - 1 - 1) = b at hx
  have h2 : ((2 * (a : Int) + 1 : Int) : ℚ) = ((2 * b : Int) : ℚ) := by
    push_cast
    linarith
  have h3 := Int.cast_injective h2
  omega

theorem snapToEmpty_empty (m : List Nat) (fuel idx : Nat) (hlen : m.length = MAPW * MAPH + 1)
    (hidx : idx < MAPW * MAPH) (he : tileAt m idx = TILE_EMPTY) :
    snapToEmpty m fuel (idx : Int) = some (idx : Int) := by
  unfold snapToEmpty tileAtI
  have h1 : (0 : Int) ≤ (idx : Int) ∧ (idx : Int) < (m.length : Int) := by
    rw [hlen]
    omega
  rw [if_pos h1]
  simp only [Int.toNat_ofNat, he]
  rw [if_neg (by decide)]

theorem AStarMoveTarget_interior (m : List Nat) (fuel : Nat) (posFrom posTo : Vec2)
    (sx sy tx ty : Nat) (hlen : m.length = MAPW * MAPH + 1)
    (hsx : ⌊posFrom.x⌋ = sx) (hsy : ⌊posFrom.y⌋ = sy)
    (htx : ⌊posTo.x⌋ = tx) (hty : ⌊posTo.y⌋ = ty)
    (hs : 1 ≤ sx ∧ sx ≤ MAPW - 2 ∧ 1 ≤ sy ∧ sy ≤ MAPH - 2)
    (ht : 1 ≤ tx ∧ tx ≤ MAPW - 2 ∧ 1 ≤ ty ∧ ty ≤ MAPH - 2)
    (hne : sx ≠ tx ∨ sy ≠ ty)
    (hes : tileAt m (sx + sy * MAPW) = TILE_EMPTY)
    (het : tileAt m (tx + ty * MAPW) = TILE_EMPTY) :
    (AStarMoveTarget m fuel posFrom posTo = some (clampedTarget posTo) ∧
      ¬ Connected m (sx + sy * MAPW) (tx + ty * MAPW)) ∨
    (∃ t, AStarMoveTarget m fuel posFrom posTo = some (tileCentre t) ∧
      NextHop m (sx + sy * MAPW) (tx + ty * MAPW) t) := by
  have ef : (⌊posFrom.x⌋ + ⌊posFrom.y⌋ * (MAPW : Int)) = ((sx + sy * MAPW : Nat) : Int) := by
    rw [hsx, hsy]; push_cast; rfl
  have et : (⌊posTo.x⌋ + ⌊posTo.y⌋ * (MAPW : Int)) = ((tx + ty * MAPW : Nat) : Int) := by
    rw [htx, hty]; push_cast; rfl
  have hsb : sx + sy * MAPW < MAPW * MAPH := by simp only [MAPW, MAPH] at *; omega
  have htb : tx + ty * MAPW < MAPW * MAPH := by simp only [MAPW, MAPH] at *; omega
  have hidx : sx + sy * MAPW ≠ tx + ty * MAPW := by simp only [MAPW, MAPH] at *; omega
  have hidxI : ¬ (((tx + ty * MAPW : Nat) : Int) = ((sx + sy * MAPW : Nat) : Int)) := by
    intro h
    exact hidx (Int.ofNat_inj.mp h).symm
  unfold AStarMoveTarget
  simp only [ef, et, if_neg hidxI, snapToEmpty_empty m fuel _ hlen hsb hes,
    snapToEmpty_empty m fuel _ hlen htb het, Int.toNat_ofNat, if_pos hsb]
  rcases search_spec m (sx + sy * MAPW) (tx + ty * MAPW)
      (by simp only [MAPW, MAPH] at *; omega) (by simp only [MAPW, MAPH] at *; omega)
      (by simp only [MAPW, MAPH] at *; omega) (by simp only [MAPW, MAPH] at *; omega)
      hidx hes het with ⟨h1, h2⟩ | ⟨t, h1, h2⟩
  · left
    rw [h1]
    exact ⟨rfl, h2⟩
  · right
    rw [h1]
    exact ⟨t, rfl, h2⟩

/-- C5. When the tiles of `posFrom` and `posTo` are distinct empty interior tiles joined by a
4-connected path of empty tiles, `AStarMoveTarget` returns the centre of a tile `t` that is
empty, adjacent to the source tile and on a shortest path: for some `d` the path distance from
the source tile to the target tile is `d + 1` and that from `t` is `d`. -/
theorem AStarMoveTarget_next_hop (m : List Nat) (fuel : Nat) (posFrom posTo : Vec2)
    (sx sy tx ty : Nat) (hlen : m.length = MAPW * MAPH + 1)
    (hsx : ⌊posFrom.x⌋ = sx) (hsy : ⌊posFrom.y⌋ = sy)
    (htx : ⌊posTo.x⌋ = tx) (hty : ⌊posTo.y⌋ = ty)
    (hs : 1 ≤ sx ∧ sx ≤ MAPW - 2 ∧ 1 ≤ sy ∧ sy ≤ MAPH - 2)
    (ht : 1 ≤ tx ∧ tx ≤ MAPW - 2 ∧ 1 ≤ ty ∧ ty ≤ MAPH - 2)
    (hne : sx ≠ tx ∨ sy ≠ ty)
    (hes : tileAt m (sx + sy * MAPW) = TILE_EMPTY)
    (het : tileAt m (tx + ty * MAPW) = TILE_EMPTY)
    (hconn : Connected m (sx + sy * MAPW) (tx + ty * MAPW)) :
    ∃ t, AStarMoveTarget m fuel posFrom posTo = some (tileCentre t) ∧
      tileAt m t = TILE_EMPTY ∧ adjacent (sx + sy * MAPW) t ∧
      ∃ d, IsDist m (sx + sy * MAPW) (tx + ty * MAPW) (d + 1) ∧
        IsDist m t (tx + ty * MAPW) d := by
  rcases AStarMoveTarget_interior m fuel posFrom posTo sx sy tx ty hlen hsx hsy htx hty hs ht hne
      hes het with ⟨_, h2⟩ | ⟨t, h1, h2⟩
  · exact absurd hconn h2
  · exact ⟨t, h1, h2⟩

/-- Witness of C5: from tile `(1,1)` to tile `(2,1)` on the grid of wave 0. -/
theorem AStarMoveTarget_next_hop_witness :
    ∃ t, AStarMoveTarget arenaMap 0 ⟨3 / 2, 3 / 2⟩ ⟨5 / 2, 3 / 2⟩ = some (tileCentre t) ∧
      tileAt arenaMap t = TILE_EMPTY ∧ adjacent (1 + 1 * MAPW) t ∧
      ∃ d, IsDist arenaMap (1 + 1 * MAPW) (2 + 1 * MAPW) (d + 1) ∧
        IsDist arenaMap t (2 + 1 * MAPW) d :=
  AStarMoveTarget_next_hop arenaMap 0 ⟨3 / 2, 3 / 2⟩ ⟨5 / 2, 3 / 2⟩ 1 1 2 1 (by decide!)
    (by decide!) (by decide!) (by decide!) (by decide!) (by decide) (by decide) (by decide)
    (by decide!) (by decide!)
    ⟨1, Walk.move ⟨by unfold adjacent; decide, by decide!, by decide!⟩ (Walk.stay _)⟩

/-- C6. For distinct empty interior tiles of `posFrom` and `posTo`, `AStarMoveTarget` returns
the clamped target (which is never a tile centre) if and only if no 4-connected path of empty
tiles joins the two tiles; when such a path exists it returns a tile centre. -/
theorem AStarMoveTarget_fallback_iff (m : List Nat) (fuel : Nat) (posFrom posTo : Vec2)
    (sx sy tx ty : Nat) (hlen : m.length = MAPW * MAPH + 1)
    (hsx : ⌊posFrom.x⌋ = sx) (hsy : ⌊posFrom.y⌋ = sy)
    (htx : ⌊posTo.x⌋ = tx) (hty : ⌊posTo.y⌋ = ty)
    (hs : 1 ≤ sx ∧ sx ≤ MAPW - 2 ∧ 1 ≤ sy ∧ sy ≤ MAPH - 2)
    (ht : 1 ≤ tx ∧ tx ≤ MAPW - 2 ∧ 1 ≤ ty ∧ ty ≤ MAPH - 2)
    (hne : sx ≠ tx ∨ sy ≠ ty)
    (hes : tileAt m (sx + sy * MAPW) = TILE_EMPTY)
    (het : tileAt m (tx + ty * MAPW) = TILE_EMPTY) :
    (AStarMoveTarget m fuel posFrom posTo = some (clampedTarget posTo) ↔
      ¬ Connected m (sx + sy * MAPW) (tx + ty * MAPW)) ∧
    (Connected m (sx + sy * MAPW) (tx + ty * MAPW) →
      ∃ t, AStarMoveTarget m fuel posFrom posTo = some (tileCentre t)) := by
  rcases AStarMoveTarget_interior m fuel posFrom posTo sx sy tx ty hlen hsx hsy htx hty hs ht hne
      hes het with ⟨h1, h2⟩ | ⟨t, h1, h2⟩
  · exact ⟨⟨fun _ => h2, fun _ => h1⟩, fun h => absurd h h2⟩
  · have hc : Connected m (sx + sy * MAPW) (tx + ty * MAPW) := ⟨_, h2.2.2.choose_spec.1.1⟩
    refine ⟨⟨fun h => ?_, fun h => absurd hc h⟩, fun _ => ⟨t, h1⟩⟩
    rw [h1] at h
    exact absurd (Option.some.inj h) (tileCentre_ne_clampedTarget t posTo)

/-- Witness of C6: from tile `(3,1)` to the walled-in tile `(1,1)` of the grid `mazeA`. -/
theorem AStarMoveTarget_fallback_iff_witness :
    (AStarMoveTarget mazeA 0 ⟨7 / 2, 3 / 2⟩ ⟨3 / 2, 3 / 2⟩
        = some (clampedTarget ⟨3 / 2, 3 / 2⟩) ↔
      ¬ Connected mazeA (3 + 1 * MAPW) (1 + 1 * MAPW)) ∧
    (Connected mazeA (3 + 1 * MAPW) (1 + 1 * MAPW) →
      ∃ t, AStarMoveTarget mazeA 0 ⟨7 / 2, 3 / 2⟩ ⟨3 / 2, 3 / 2⟩ = some (tileCentre t)) :=
  AStarMoveTarget_fallback_iff mazeA 0 ⟨7 / 2, 3 / 2⟩ ⟨3 / 2, 3 / 2⟩ 3 1 1 1 (by decide!)
    (by decide!) (by decide!) (by decide!) (by decide!) (by decide) (by decide) (by decide)
    (by decide!) (by decide!)

/-- C4, amended. For every pair of positions whose floored coordinates give the same tile,
`AStarMoveTarget` returns the floored coordinates of `posTo`, each clamped to `[2, 15]`. -/
theorem AStarMoveTarget_same_tile (m : List Nat) (fuel : Nat) (posFrom posTo : Vec2)
    (hx : ⌊posFrom.x⌋ = ⌊posTo.x⌋) (hy : ⌊posFrom.y⌋ = ⌊posTo.y⌋) :
    AStarMoveTarget m fuel posFrom posTo
      = some ⟨(Clamp ⌊posTo.x⌋ 2 15 : Int), (Clamp ⌊posTo.y⌋ 2 15 : Int)⟩ := by
  unfold AStarMoveTarget
  simp only [hx, hy, if_true]
  rfl

/-- Witness of C4: two positions on tile `(8,8)`. -/
theorem AStarMoveTarget_same_tile_witness :
    AStarMoveTarget arenaMap 0 ⟨17 / 2, 17 / 2⟩ ⟨35 / 4, 33 / 4⟩
      = some ⟨(Clamp ⌊(35 / 4 : ℚ)⌋ 2 15 : Int), (Clamp ⌊(33 / 4 : ℚ)⌋ 2 15 : Int)⟩ :=
  AStarMoveTarget_same_tile arenaMap 0 ⟨17 / 2, 17 / 2⟩ ⟨35 / 4, 33 / 4⟩ (by decide!) (by decide!)

/-- C4, counterexample. For `posFrom = (8.5, 8.5)` and `posTo = (8.75, 8.25)`, both on tile
`(8,8)`, `AStarMoveTarget` returns `(8, 8)`, not `posTo`. -/
theorem AStarMoveTarget_same_tile_moves_target :
    ⌊(17 / 2 : ℚ)⌋ = ⌊(35 / 4 : ℚ)⌋ ∧ ⌊(17 / 2 : ℚ)⌋ = ⌊(33 / 4 : ℚ)⌋ ∧
    AStarMoveTarget arenaMap 0 ⟨17 / 2, 17 / 2⟩ ⟨35 / 4, 33 / 4⟩ = some ⟨8, 8⟩ ∧
    (⟨8, 8⟩ : Vec2) ≠ ⟨35 / 4, 33 / 4⟩ := by
  decide!


/-! ## Waves, reset and spawning -/

theorem StartWave_wave (rs : RandSrc) (fuel : Nat) (g g1 : Game)
    (h : StartWave rs fuel g = some g1) :
    g1.wave = g.wave ∧ g1.kills = g.kills ∧ g1.bullets = g.bullets ∧ g1.enemies = g.enemies ∧
    g1.wavespawns = if g.wave = 0 then g.wavespawns else 4 + (g.wave - 1) * 3 := by
  unfold StartWave at h
  cases hs : mazeMap rs fuel g.rndpos with
  | none => rw [hs] at h; cases h
  | some s =>
    rw [hs] at h
    dsimp only at h
    split_ifs at h with hw
    · have e := Option.some.inj h
      subst e
      simp [hw]
    · have e := Option.some.inj h
      subst e
      simp [hw]

/-- C13. When `Draw` crosses `t = 2` (`wavetold < 2 ≤ wavet`) in a wave `g.wave ≥ 0` and
`StartWave` returns, the wave counter is `w = g.wave + 1` and `wavespawns` is exactly
`4 + (w - 1) * 3`; from wave 0 this gives `wavespawns = 4`. -/
theorem waveCrossing_wavespawns (rs : RandSrc) (fuel : Nat) (wavet wavetold : ℚ) (g g1 : Game)
    (hold : wavetold < 2) (hnew : 2 ≤ wavet) (hw : 0 ≤ g.wave)
    (h : waveCrossing rs fuel wavet wavetold g = some g1) :
    g1.wave = g.wave + 1 ∧ g1.wavespawns = 4 + (g1.wave - 1) * 3 ∧
      (g.wave = 0 → g1.wavespawns = 4) := by
  unfold waveCrossing at h
  rw [if_pos ⟨hold, hnew⟩] at h
  obtain ⟨h1, _, _, _, h5⟩ := StartWave_wave rs fuel _ g1 h
  dsimp only at h1 h5
  have hne : ¬ (g.wave + 1 = 0) := by omega
  rw [if_neg hne] at h5
  refine ⟨h1, by rw [h5, h1], fun h0 => ?_⟩
  rw [h5, h0]
  rfl

/-- Witness of C13: the crossing from wave 0 with the stream `rsA`. -/
theorem waveCrossing_wavespawns_witness :
    ∃ g1, waveCrossing rsA 1 2 (199 / 100) gameZero = some g1 ∧
      g1.wave = gameZero.wave + 1 ∧ g1.wavespawns = 4 + (g1.wave - 1) * 3 ∧
        (gameZero.wave = 0 → g1.wavespawns = 4) := by
  have hs : (waveCrossing rsA 1 2 (199 / 100) gameZero).isSome = true := by decide!
  obtain ⟨g1, h⟩ := Option.isSome_iff_exists.mp hs
  exact ⟨g1, h, waveCrossing_wavespawns rsA 1 2 (199 / 100) gameZero g1 (by norm_num)
    (by norm_num) (by decide) h⟩

/-- C12, amended. After `Reset` from any prior state, when its `StartWave` returns: `wave = 0`,
`kills = 0`, the enemy list and the projectile list are empty, and `wavespawns` has the value
it had before the call. -/
theorem Reset_state (rs : RandSrc) (fuel : Nat) (g g1 : Game) (h : Reset rs fuel g = some g1) :
    g1.wave = 0 ∧ g1.kills = 0 ∧ g1.enemies = [] ∧ g1.bullets = [] ∧
      g1.wavespawns = g.wavespawns := by
  unfold Reset at h
  cases hs : StartWave rs fuel { g with gameover := 0, waveticks := 0, wave := 0, kills := 0 } with
  | none => rw [hs] at h; cases h
  | some g2 =>
    rw [hs] at h
    have e := Option.some.inj h
    subst e
    obtain ⟨h1, h2, _, _, h5⟩ := StartWave_wave rs fuel _ g2 hs
    dsimp only at h1 h2 h5 ⊢
    rw [if_pos rfl] at h5
    exact ⟨h1, h2, rfl, rfl, h5⟩

/-- Witness of C12: `Reset` from the state `gameLate` with the stream `rsA`. -/
theorem Reset_state_witness :
    ∃ g1, Reset rsA 1 gameLate = some g1 ∧ g1.wave = 0 ∧ g1.kills = 0 ∧ g1.enemies = [] ∧
      g1.bullets = [] ∧ g1.wavespawns = gameLate.wavespawns := by
  have hs : (Reset rsA 1 gameLate).isSome = true := by decide!
  obtain ⟨g1, h⟩ := Option.isSome_iff_exists.mp hs
  exact ⟨g1, h, Reset_state rsA 1 gameLate g1 h⟩

/-- C12, counterexample. `Reset` from the state `gameLate`, which has three spawns left,
returns a state with `wave = 0`, `kills = 0` and `wavespawns = 3`. -/
theorem Reset_keeps_wavespawns :
    (Reset rsA 1 gameLate).map (fun g => (g.wave, g.kills, g.wavespawns)) = some (0, 0, 3) := by
  decide!

/-- C11, counterexample. Two runs of `StartWave` from the same state with `wave = 1`, one with
the stream `rsA` and one with the stream `rsB`, return grids that differ on the cell
`(9, 12)`: wall in the first, empty in the second. -/
theorem StartWave_depends_on_stream :
    gameA.wave = 1 ∧
    (StartWave rsA 1 gameA).map (fun g => tileAt g.Map (9 + 12 * MAPW)) = some TILE_WALL ∧
    (StartWave rsB 1 gameA).map (fun g => tileAt g.Map (9 + 12 * MAPW)) = some TILE_EMPTY := by
  decide!

/-- C11, amended. For wave indices `≥ 1` the grid `StartWave` builds is a function of the random
source alone: two runs that read the same stream from the same position return the same grid
(or both do not return), whatever the two wave indices and the rest of the two states. -/
theorem StartWave_map_of_stream (rs : RandSrc) (fuel : Nat) (g g' : Game)
    (hw : 1 ≤ g.wave) (hw' : 1 ≤ g'.wave) (hpos : g.rndpos = g'.rndpos) :
    (StartWave rs fuel g).map Game.Map = (StartWave rs fuel g').map Game.Map := by
  unfold StartWave
  rw [hpos]
  have h1 : ¬ g.wave = 0 := by omega
  have h2 : ¬ g'.wave = 0 := by omega
  cases mazeMap rs fuel g'.rndpos with
  | none => rfl
  | some s => simp [h1, h2]

/-- Witness of C11: the states `gameA` (wave 1) and `gameLate` (wave 3) with the stream `rsA`. -/
theorem StartWave_map_of_stream_witness :
    (StartWave rsA 1 gameA).map Game.Map = (StartWave rsA 1 gameLate).map Game.Map :=
  StartWave_map_of_stream rsA 1 gameA gameLate (by decide) (by decide) rfl


/-! ## Lattice cells after `StartWave` -/

theorem length_seedLoop (rs : RandSrc) (pos : Nat) :
    (seedLoop rs pos).1.length = MAPW * MAPH + 1 := by
  unfold seedLoop
  apply foldl_invariant (fun s : List Nat × Nat => s.1.length = MAPW * MAPH + 1)
  · simp
  · intro s _ _ hs
    simp only [seedStep, List.length_set]
    exact hs

theorem length_carveSteps (rs : RandSrc) (empty n : Nat) (s : Carve) :
    (carveSteps rs empty n s).Map.length = s.Map.length := by
  induction n generalizing s with
  | zero => rfl
  | succ n ih =>
    rw [carveSteps, ih]
    unfold carveStep
    dsimp only
    split_ifs <;> simp

theorem regenerate_spec (rs : RandSrc) (empty fuel : Nat) (s s1 : Carve)
    (hr : regenerate rs empty fuel s = some s1) :
    s1.Map.length = s.Map.length ∧ allVisited s1.Map = true := by
  induction fuel generalizing s with
  | zero => rw [regenerate] at hr; cases hr
  | succ n ih =>
    rw [regenerate] at hr
    split_ifs at hr with hv
    · have e := Option.some.inj hr
      subst e
      exact ⟨length_carveSteps rs empty 100 s, hv⟩
    · obtain ⟨h1, h2⟩ := ih _ hr
      exact ⟨by rw [h1, length_carveSteps], h2⟩

theorem length_fillBlock (empty : Nat) (m : List Nat) : (fillBlock empty m).length = m.length := by
  unfold fillBlock
  apply foldl_invariant (fun l : List Nat => l.length = m.length) _ _ _ rfl
  intro s y _ hs
  apply foldl_invariant (fun l : List Nat => l.length = m.length) _ _ _ hs
  intro s1 x _ hs1
  simp only [List.length_set]
  exact hs1

theorem carvePass_spec (rs : RandSrc) (fuel empty : Nat) (s s1 : List Nat × Nat)
    (hr : carvePass rs fuel empty s = some s1) :
    s1.1.length = s.1.length ∧ allVisited s1.1 = true := by
  unfold carvePass at hr
  split at hr
  · cases hr
  · rename_i c hc
    cases hr
    obtain ⟨h1, h2⟩ := regenerate_spec rs empty fuel _ c hc
    dsimp only at h1 ⊢
    exact ⟨by rw [h1, length_fillBlock], h2⟩

theorem allVisited_low (m : List Nat) (h : allVisited m = true) : LatticeLow m := by
  intro x hx y hy
  unfold allVisited at h
  rw [List.all_eq_true] at h
  have h1 := h y hy
  rw [List.all_eq_true] at h1
  have h2 := h1 x hx
  simpa using h2

theorem tileAt_set_empty (m : List Nat) (i j : Nat) (h : tileAt m j = TILE_EMPTY) :
    tileAt (m.set i TILE_EMPTY) j = TILE_EMPTY := by
  unfold tileAt at h ⊢
  rw [getD_set]
  split_ifs
  · rfl
  · exact h

theorem LatticeEmpty_normalise (m : List Nat) (hlen : m.length = MAPW * MAPH + 1)
    (h : LatticeLow m) : LatticeEmpty (normalise m) := by
  intro x hx y hy
  have h1 := h x hx y hy
  have hlt : y * MAPW + x < m.length := by
    rw [hlen]
    simp only [oddCoords, List.mem_cons, List.mem_singleton, List.not_mem_nil, or_false] at hx hy
    simp only [MAPW, MAPH]
    omega
  simp only [tileAt, List.getD_eq_getElem?_getD, normalise, List.getElem?_map] at h1 ⊢
  rw [List.getElem?_eq_getElem hlt] at h1 ⊢
  simp only [Option.getD_some, Option.map_some'] at h1 ⊢
  split_ifs with hc
  · rfl
  · omega

theorem LatticeEmpty_clearPillars (rs : RandSrc) (s : List Nat × Nat) (h : LatticeEmpty s.1) :
    LatticeEmpty (clearPillars rs s).1 := by
  unfold clearPillars
  apply foldl_invariant (fun s : List Nat × Nat => LatticeEmpty s.1) _ _ _ h
  intro s1 y _ hs1
  apply foldl_invariant (fun s : List Nat × Nat => LatticeEmpty s.1) _ _ _ hs1
  intro s2 x _ hs2
  unfold pillarStep
  dsimp only
  split_ifs
  · intro a ha b hb
    exact tileAt_set_empty _ _ _ (hs2 a ha b hb)
  · exact hs2
  · exact hs2

theorem LatticeEmpty_mazeMap (rs : RandSrc) (fuel pos : Nat) (s : List Nat × Nat)
    (hr : mazeMap rs fuel pos = some s) : LatticeEmpty s.1 := by
  unfold mazeMap at hr
  split at hr
  · cases hr
  · rename_i s2 h2
    split at hr
    · cases hr
    · rename_i s3 h3
      have e := Option.some.inj hr
      subst e
      apply LatticeEmpty_clearPillars
      dsimp only
      obtain ⟨l2, _⟩ := carvePass_spec rs fuel 0 _ s2 h2
      obtain ⟨l3, v3⟩ := carvePass_spec rs fuel 1 s2 s3 h3
      exact LatticeEmpty_normalise s3.1 (by rw [l3, l2, length_seedLoop]) (allVisited_low _ v3)

theorem LatticeEmpty_clearInterior (m : List Nat) (h : LatticeEmpty m) :
    LatticeEmpty (clearInterior m) := by
  unfold clearInterior
  apply foldl_invariant LatticeEmpty _ _ _ h
  intro s y _ hs
  apply foldl_invariant LatticeEmpty _ _ _ hs
  intro s1 x _ hs1 a ha b hb
  exact tileAt_set_empty _ _ _ (hs1 a ha b hb)

theorem StartWave_LatticeEmpty (rs : RandSrc) (fuel : Nat) (g g1 : Game)
    (h : StartWave rs fuel g = some g1) : LatticeEmpty g1.Map := by
  unfold StartWave at h
  cases hs : mazeMap rs fuel g.rndpos with
  | none => rw [hs] at h; cases h
  | some s =>
    rw [hs] at h
    dsimp only at h
    have hb := LatticeEmpty_mazeMap rs fuel g.rndpos s hs
    split_ifs at h
    · have e := Option.some.inj h
      subst e
      dsimp only
      exact LatticeEmpty_clearInterior s.1 hb
    · have e := Option.some.inj h
      subst e
      dsimp only
      exact hb

/-- C20. After `StartWave` returns, for any wave index, every cell `(1 + 2i, 1 + 2j)` with
`i, j ≤ 7` is empty, and every place `SpawnEnemy` tries for a ground enemy is the centre of
an empty tile of that grid. -/
theorem StartWave_spawn_cells_empty (rs : RandSrc) (fuel : Nat) (g g1 : Game)
    (h : StartWave rs fuel g = some g1) :
    (∀ i j : Nat, i ≤ 7 → j ≤ 7 → tileAt g1.Map ((1 + 2 * i) + (1 + 2 * j) * MAPW) = TILE_EMPTY) ∧
    ∀ (rs1 : RandSrc) (pos : Nat),
      (spiderSpawnPos rs1 pos).1.x = (⌊(spiderSpawnPos rs1 pos).1.x⌋ : ℚ) + 1 / 2 ∧
      (spiderSpawnPos rs1 pos).1.y = (⌊(spiderSpawnPos rs1 pos).1.y⌋ : ℚ) + 1 / 2 ∧
      tileAt g1.Map (⌊(spiderSpawnPos rs1 pos).1.x⌋.toNat
        + ⌊(spiderSpawnPos rs1 pos).1.y⌋.toNat * MAPW) = TILE_EMPTY := by
  have hl := StartWave_LatticeEmpty rs fuel g g1 h
  have hcell : ∀ i j : Nat, i ≤ 7 → j ≤ 7 →
      tileAt g1.Map ((1 + 2 * i) + (1 + 2 * j) * MAPW) = TILE_EMPTY := by
    intro i j hi hj
    have hx : 1 + 2 * i ∈ oddCoords := by
      simp only [oddCoords, List.mem_cons, List.mem_singleton, List.not_mem_nil, or_false]
      omega
    have hy : 1 + 2 * j ∈ oddCoords := by
      simp only [oddCoords, List.mem_cons, List.mem_singleton, List.not_mem_nil, or_false]
      omega
    rw [Nat.add_comm]
    exact hl _ hx _ hy
  refine ⟨hcell, ?_⟩
  intro rs1 pos
  unfold spiderSpawnPos RAND_INT_MAX
  dsimp only
  generalize hi : rs1.ints pos % (MAPW / 2 - 1 + 1) = i
  generalize hj : rs1.ints (pos + 1) % (MAPH / 2 - 1 + 1) = j
  have hi7 : i ≤ 7 := by
    rw [← hi]
    exact Nat.lt_succ_iff.mp (Nat.mod_lt _ (by decide))
  have hj7 : j ≤ 7 := by
    rw [← hj]
    exact Nat.lt_succ_iff.mp (Nat.mod_lt _ (by decide))
  have fx : ⌊(3 / 2 + 2 * (i : ℚ))⌋ = ((1 + 2 * i : Nat) : Int) := by
    rw [Int.floor_eq_iff]
    push_cast
    constructor <;> linarith
  have fy : ⌊(3 / 2 + 2 * (j : ℚ))⌋ = ((1 + 2 * j : Nat) : Int) := by
    rw [Int.floor_eq_iff]
    push_cast
    constructor <;> linarith
  rw [fx, fy]
  refine ⟨by push_cast; ring, by push_cast; ring, ?_⟩
  simp only [Int.toNat_ofNat]
  exact hcell i j hi7 hj7

/-- Witness of C20: the grid built from `gameA` with the stream `rsA`. -/
theorem StartWave_spawn_cells_empty_witness :
    ∃ g1, StartWave rsA 1 gameA = some g1 ∧
    (∀ i j : Nat, i ≤ 7 → j ≤ 7 → tileAt g1.Map ((1 + 2 * i) + (1 + 2 * j) * MAPW) = TILE_EMPTY) ∧
    ∀ (rs1 : RandSrc) (pos : Nat),
      (spiderSpawnPos rs1 pos).1.x = (⌊(spiderSpawnPos rs1 pos).1.x⌋ : ℚ) + 1 / 2 ∧
      (spiderSpawnPos rs1 pos).1.y = (⌊(spiderSpawnPos rs1 pos).1.y⌋ : ℚ) + 1 / 2 ∧
      tileAt g1.Map (⌊(spiderSpawnPos rs1 pos).1.x⌋.toNat
        + ⌊(spiderSpawnPos rs1 pos).1.y⌋.toNat * MAPW) = TILE_EMPTY := by
  obtain ⟨g1, h1, _⟩ := Option.map_eq_some'.mp StartWave_gameA
  exact ⟨g1, h1, StartWave_spawn_cells_empty rsA 1 gameA g1 h1⟩

/-! ## The attack counter, long steps -/

theorem tileCols_low (g : Game) (tpos : Vec3) (stepHeight : ℚ) (y x : Int) (hz : 0 ≤ tpos.z)
    (hlow : tileAt g.Map (x + y * MAPW).toNat ≠ TILE_EMPTY →
      heightAt g.MapHeights (x + y * MAPW).toNat ≤ stepHeight) :
    ∀ c ∈ tileCols g tpos stepHeight y x, c.dir = ⟨0, 0, 1⟩ := by
  intro c hc
  unfold tileCols at hc
  dsimp only at hc
  by_cases he : tileAt g.Map (x + y * MAPW).toNat = TILE_EMPTY
  · rw [if_pos he] at hc
    cases hc
  · have hside : ¬ tpos.z < heightAt g.MapHeights (x + y * MAPW).toNat - stepHeight := by
      have := hlow he
      intro h
      linarith
    rw [if_neg he, if_neg hside, List.append_nil] at hc
    split_ifs at hc
    · rw [List.mem_singleton.mp hc]
    · cases hc

theorem wallCols_low (g : Game) (tpos : Vec3) (stepHeight : ℚ) (hz : 0 ≤ tpos.z)
    (hlow : LowWalls g tpos stepHeight) :
    ∀ c ∈ wallCols g tpos stepHeight, c.dir = ⟨0, 0, 1⟩ := by
  intro c hc
  unfold wallCols at hc
  dsimp only at hc
  obtain ⟨y, hy, hc1⟩ := List.mem_flatMap.mp hc
  obtain ⟨x, hx, hc2⟩ := List.mem_flatMap.mp hc1
  exact tileCols_low g tpos stepHeight y x hz (hlow y hy x hx) c hc2

theorem gatherCols_low (lib : ZLib) (g : Game) (self : Option Nat) (t : Thing) (stepHeight : ℚ)
    (htype : t.type ≠ ThingType.ENEMY_SPIDER) (hz : 0 ≤ t.pos.z)
    (hlow : LowWalls g t.pos stepHeight) :
    ∀ c ∈ gatherCols lib g self t stepHeight, c.dir = ⟨0, 0, 1⟩ := by
  intro c hc
  unfold gatherCols at hc
  simp only [if_neg htype, List.append_nil, List.mem_map, List.mem_append,
    List.mem_singleton] at hc
  obtain ⟨c0, h0, rfl⟩ := hc
  rcases h0 with h0 | h0
  · exact wallCols_low g t.pos stepHeight hz hlow c0 h0
  · rw [h0]

theorem resolveStep_vertical (radius : ℚ) (s : Resolve) (c : Col) (hc : c.dir = ⟨0, 0, 1⟩) :
    (resolveStep radius s c).tpos.x = s.tpos.x ∧ (resolveStep radius s c).tpos.y = s.tpos.y ∧
      s.tpos.z ≤ (resolveStep radius s c).tpos.z := by
  unfold resolveStep
  dsimp only
  have hz : c.dir.z ≠ 0 := by rw [hc]; norm_num
  by_cases h1 : s.tpos.z ≥ c.pos.z
  · rw [if_pos h1]
    exact ⟨rfl, rfl, le_rfl⟩
  · rw [if_neg h1, if_pos hz]
    split_ifs
    all_goals first
      | exact ⟨rfl, rfl, le_rfl⟩
      | exact ⟨rfl, rfl, le_of_lt (not_le.mp h1)⟩

theorem resolve_foldl_vertical (radius : ℚ) (cols : List Col)
    (hc : ∀ c ∈ cols, c.dir = ⟨0, 0, 1⟩) (s : Resolve) :
    (cols.foldl (resolveStep radius) s).tpos.x = s.tpos.x ∧
    (cols.foldl (resolveStep radius) s).tpos.y = s.tpos.y ∧
      s.tpos.z ≤ (cols.foldl (resolveStep radius) s).tpos.z := by
  induction cols generalizing s with
  | nil => exact ⟨rfl, rfl, le_rfl⟩
  | cons c cs ih =>
    simp only [List.foldl_cons]
    obtain ⟨h1, h2, h3⟩ := ih (fun c1 h => hc c1 (List.mem_cons_of_mem _ h)) (resolveStep radius s c)
    obtain ⟨h4, h5, h6⟩ := resolveStep_vertical radius s c (hc c (List.mem_cons_self _ _))
    exact ⟨by rw [h1, h4], by rw [h2, h5], le_trans h6 h3⟩

theorem clampBounds_inside (s : Resolve) (hx0 : 0 ≤ s.tpos.x) (hx1 : s.tpos.x ≤ MAPW)
    (hy0 : 0 ≤ s.tpos.y) (hy1 : s.tpos.y ≤ MAPH) : clampBounds s = s := by
  unfold clampBounds
  dsimp only
  rw [if_neg (not_lt.mpr hx0), if_neg (not_lt.mpr hy0), if_neg (not_lt.mpr hx1),
    if_neg (not_lt.mpr hy1)]

theorem mem_sortCols (cols : List Col) (c : Col) : c ∈ sortCols cols ↔ c ∈ cols :=
  (List.perm_insertionSort _ cols).mem_iff

/-- C14. In a collision pass (for any `stepHeight`, in particular a positive one) for an actor
that is not a ground enemy, inside the world bounds with `0 ≤ z ≤ 20`: if every wall cell the
pass reads has height `≤ stepHeight`, then every collider has the normal `(0,0,1)`, so no
side-face collider is generated, and the pass leaves `x` and `y` as they were and does not
lower `z`. -/
theorem DoCollision_step_over (lib : ZLib) (g : Game) (self : Option Nat) (t : Thing)
    (stepHeight : ℚ) (htype : t.type ≠ ThingType.ENEMY_SPIDER)
    (hx0 : 0 ≤ t.pos.x) (hx1 : t.pos.x ≤ MAPW) (hy0 : 0 ≤ t.pos.y) (hy1 : t.pos.y ≤ MAPH)
    (hz0 : 0 ≤ t.pos.z) (hz1 : t.pos.z ≤ 20)
    (hlow : LowWalls g t.pos stepHeight) :
    (∀ c ∈ gatherCols lib g self t stepHeight, c.dir = ⟨0, 0, 1⟩) ∧
    (DoCollision lib g self t stepHeight).1.pos.x = t.pos.x ∧
    (DoCollision lib g self t stepHeight).1.pos.y = t.pos.y ∧
    t.pos.z ≤ (DoCollision lib g self t stepHeight).1.pos.z := by
  have hcols := gatherCols_low lib g self t stepHeight htype hz0 hlow
  refine ⟨hcols, ?_⟩
  have hin : ¬ (t.pos.z < -10 ∨ t.pos.z > 20) := by
    rintro (h | h) <;> linarith
  unfold DoCollision
  rw [if_neg hin]
  obtain ⟨h1, h2, h3⟩ := resolve_foldl_vertical t.radius (sortCols (gatherCols lib g self t stepHeight))
    (fun c hc => hcols c ((mem_sortCols _ c).mp hc))
    { tpos := t.pos, velz := t.vel.z, collided := none }
  dsimp only at h1 h2 h3
  rw [clampBounds_inside _ (by rw [h1]; exact hx0) (by rw [h1]; exact hx1)
    (by rw [h2]; exact hy0) (by rw [h2]; exact hy1)]
  dsimp only
  split_ifs
  · exact ⟨h1, h2, h3⟩
  · exact ⟨rfl, rfl, le_rfl⟩

/-- Witness of C14: the actor `walker` next to a wall `0.1` high, with `stepHeight = 0.2`. -/
theorem DoCollision_step_over_witness :
    LowWalls stepArena walker.pos (2 / 10) ∧
    tileAt stepArena.Map (8 + 8 * MAPW) = TILE_WALL ∧
    (∀ c ∈ gatherCols exactLib stepArena none walker (2 / 10), c.dir = ⟨0, 0, 1⟩) ∧
    (DoCollision exactLib stepArena none walker (2 / 10)).1.pos.x = walker.pos.x ∧
    (DoCollision exactLib stepArena none walker (2 / 10)).1.pos.y = walker.pos.y ∧
    walker.pos.z ≤ (DoCollision exactLib stepArena none walker (2 / 10)).1.pos.z :=
  ⟨by decide!, by decide!,
    DoCollision_step_over exactLib stepArena none walker (2 / 10) (by decide) (by decide!)
      (by decide!) (by decide!) (by decide!) (by decide!) (by decide!) (by decide!)⟩

/-! ## Sub-stepping and walls -/

/-- C16, failing input. The projectile `bulletTunnel` (radius `0.1`) starts `0.15` away from
the wall face `x = 1`, clear of every wall cell; with `dt = 0.02` the one sub-step of `0.2`
puts its centre at `x = 0.95`, inside the footprint of the wall tile `(0,5)` and below its
top, and the collision pass reports nothing. -/
theorem DoMove_bullet_enters_wall :
    ClearOfWalls arena bulletTunnel ∧ ¬ InsideWall arena bulletTunnel.pos 0 ∧
    (DoMove exactLib arena none bulletTunnel (2 / 100) 0).map (fun r => (r.1.pos, r.2))
      = some (⟨19 / 20, 11 / 2, 3 / 10⟩, none) ∧
    InsideWall arena ⟨19 / 20, 11 / 2, 3 / 10⟩ 0 := by
  decide!

/-! ## Jump charges -/

theorem attackLoop_isSome (delay : ℚ) (hd : 0 < delay) (attacking : Bool) (fuel : Nat) :
    ∀ (dtx timer : ℚ) (n : Nat), dtx ≤ fuel * delay →
      ∃ r, attackLoop delay attacking fuel dtx timer n = some r := by
  induction fuel with
  | zero =>
    intro dtx timer n h
    rw [attackLoop]
    have : ¬ (min dtx delay > 0) := by
      simp only [Nat.cast_zero, zero_mul] at h
      have : min dtx delay ≤ dtx := min_le_left _ _
      linarith
    rw [if_neg this]
    exact ⟨_, rfl⟩
  | succ fuel ih =>
    intro dtx timer n h
    rw [attackLoop]
    by_cases hm : min dtx delay > 0
    · have hrest : dtx - min dtx delay ≤ fuel * delay := by
        rcases le_total dtx delay with hle | hle
        · rw [min_eq_left hle]
          have : (0 : ℚ) ≤ fuel * delay := mul_nonneg (Nat.cast_nonneg _) hd.le
          linarith
        · rw [min_eq_right hle]
          push_cast at h
          linarith
      rw [if_pos hm]
      dsimp only
      split_ifs
      · exact ih _ _ _ hrest
      · exact ih _ _ _ hrest
      · exact ih _ _ _ hrest
      · exact ih _ _ _ hrest
      · exact ih _ _ _ hrest
    · rw [if_neg hm]
      exact ⟨_, rfl⟩

theorem CalcAttackCount_isSome (dt timer delay : ℚ) (hd : 0 < delay) (attacking : Bool) :
    ∃ r, CalcAttackCount dt timer delay attacking = some r := by
  unfold CalcAttackCount
  apply attackLoop_isSome delay hd
  have := Nat.le_ceil (dt / delay)
  calc dt = dt / delay * delay := by field_simp
    _ ≤ ⌈dt / delay⌉₊ * delay := mul_le_mul_of_nonneg_right this hd.le

theorem DoMove_ne_none (lib : ZLib) (g : Game) (self : Option Nat) (t : Thing)
    (dt stepHeight : ℚ) : DoMove lib g self t dt stepHeight ≠ none := by
  obtain ⟨r, hr⟩ := DoMove_isSome lib g self t dt stepHeight
  rw [hr]
  exact Option.some_ne_none r

/-- C17, amended. In a frame with the player alive, the player's part of `Update` returns, and
the jump-charge count after it is 2 if the vertical velocity after resolution is 0; otherwise
it is the count before the frame, less one if a jump was made in the frame. So the count
increases only in a frame that ends with vertical velocity 0. -/
theorem playerPhase_jumps (lib : ZLib) (aim : ZAim) (inp : Input) (dt : ℚ) (g : Game)
    (hh : 0 < g.player.health) :
    ∃ g1, playerPhase lib aim inp dt g = some g1 ∧
      g1.player.jumps = (if g1.player.vel.z = 0 then 2
        else if inp.jump = true ∧ g.player.jumps ≠ 0 then g.player.jumps - 1
        else g.player.jumps) ∧
      (g1.player.vel.z ≠ 0 → g1.player.jumps ≤ g.player.jumps) := by
  unfold playerPhase
  rw [if_neg (not_le.mpr hh)]
  dsimp only
  obtain ⟨⟨n, w⟩, hc⟩ := CalcAttackCount_isSome dt g.player.weapontimer (1 / 10) (by norm_num)
    inp.fire
  rw [hc]
  dsimp only
  split
  · rename_i heq
    exact absurd heq (DoMove_ne_none _ _ _ _ _ _)
  · rename_i t c heq
    refine ⟨_, rfl, ?_, ?_⟩
    · dsimp only
      by_cases hz : t.vel.z = 0
      · rw [if_pos hz, if_pos hz]
      · rw [if_neg hz, if_neg hz]
        by_cases hj : inp.jump = true ∧ g.player.jumps ≠ 0
        · rw [if_pos hj, if_pos (by simp [hj.1, hj.2])]
        · rw [if_neg hj, if_neg (by simpa using hj)]
    · dsimp only
      intro hz
      rw [if_neg hz]
      split_ifs
      · omega
      · exact le_rfl

/-- Witness of C17: the frame from the state `arena` in which the jump key goes down. -/
theorem playerPhase_jumps_witness :
    0 < arena.player.health ∧
    ∃ g1, playerPhase exactLib plainAim jumpInput (1 / 7) arena = some g1 ∧
      g1.player.jumps = (if g1.player.vel.z = 0 then 2
        else if jumpInput.jump = true ∧ arena.player.jumps ≠ 0 then arena.player.jumps - 1
        else arena.player.jumps) ∧
      (g1.player.vel.z ≠ 0 → g1.player.jumps ≤ arena.player.jumps) :=
  ⟨by decide!, playerPhase_jumps exactLib plainAim jumpInput (1 / 7) arena (by decide!)⟩

/-- C17, counterexample. Frames of `1/7` s from the state `arena`, the jump key going down in
the first: after two frames the player is at height `3/7` with vertical velocity 1 and one
charge left; the third frame brings the vertical velocity to 0 at the apex, the player stays
at height `3/7` over an empty tile, off every supporting surface, and the count is 2. -/
theorem playerPhase_restores_in_air :
    jumpRun.map (fun g => (g.player.pos, g.player.vel.z, g.player.jumps))
      = some (⟨9, 9, 3 / 7⟩, 1, 1) ∧
    (jumpRun.bind (playerPhase exactLib plainAim idleInput (1 / 7))).map
        (fun g => (g.player.pos, g.player.vel.z, g.player.jumps))
      = some (⟨9, 9, 3 / 7⟩, 0, 2) ∧
    ¬ OnSurface arena ⟨9, 9, 3 / 7⟩ := by
  decide!

/-! ## Tiles read by the collision pass -/

/-- C22, failing input. The actor `walkerNorth` at `(8.5, 16.5, 2.5)` is inside the world
bounds; the collision pass reads row 17, so tile `(9,17)` with index `298`, which is past
`MAPW * MAPH` and past the end of both arrays. The model reads a tile that is not empty there
and pushes a collider for it. -/
theorem DoCollision_reads_past_grid :
    (0 : ℚ) ≤ walkerNorth.pos.x ∧ walkerNorth.pos.x ≤ MAPW ∧
    0 ≤ walkerNorth.pos.y ∧ walkerNorth.pos.y ≤ MAPH ∧
    -10 ≤ walkerNorth.pos.z ∧ walkerNorth.pos.z ≤ 20 ∧
    Scanned walkerNorth.pos 9 17 ∧
    ¬ ((9 : Int) + 17 * MAPW < MAPW * MAPH) ∧
    arena.Map.length ≤ ((9 : Int) + 17 * MAPW).toNat ∧
    arena.MapHeights.length ≤ ((9 : Int) + 17 * MAPW).toNat ∧
    tileCols arena walkerNorth.pos (2 / 10) 17 9 ≠ [] := by
  decide!

/-! ## The search with checked accesses -/

section
variable {src : Nat} {lvl : Nat → Nat} {s : Bfs}

end

theorem length_clearPillars (rs : RandSrc) (s : List Nat × Nat) :
    (clearPillars rs s).1.length = s.1.length := by
  unfold clearPillars
  apply foldl_invariant (fun t : List Nat × Nat => t.1.length = s.1.length) _ _ _ rfl
  intro s1 y _ hs1
  apply foldl_invariant (fun t : List Nat × Nat => t.1.length = s.1.length) _ _ _ hs1
  intro s2 x _ hs2
  unfold pillarStep
  dsimp only
  split_ifs
  · simp only [List.length_set]
    exact hs2
  · exact hs2
  · exact hs2

theorem length_mazeMap (rs : RandSrc) (fuel pos : Nat) (s : List Nat × Nat)
    (hr : mazeMap rs fuel pos = some s) : s.1.length = MAPW * MAPH + 1 := by
  unfold mazeMap at hr
  split at hr
  · cases hr
  · rename_i s2 h2
    split at hr
    · cases hr
    · rename_i s3 h3
      have e := Option.some.inj hr
      subst e
      rw [length_clearPillars]
      dsimp only
      unfold normalise
      rw [List.length_map, (carvePass_spec rs fuel 1 s2 s3 h3).1,
        (carvePass_spec rs fuel 0 _ s2 h2).1]
      exact length_seedLoop rs pos

theorem length_clearInterior (m : List Nat) : (clearInterior m).length = m.length := by
  unfold clearInterior
  apply foldl_invariant (fun l : List Nat => l.length = m.length) _ _ _ rfl
  intro s y _ hs
  apply foldl_invariant (fun l : List Nat => l.length = m.length) _ _ _ hs
  intro s1 x _ hs1
  simp only [List.length_set]
  exact hs1

/-- Every grid `StartWave` builds has `MAPW * MAPH + 1` entries and a wall on the tile with
index 0. `Map` is written by `StartWave` only. -/
theorem StartWave_grid_corner (rs : RandSrc) (fuel : Nat) (g g1 : Game)
    (h : StartWave rs fuel g = some g1) :
    g1.Map.length = MAPW * MAPH + 1 ∧ tileAt g1.Map 0 ≠ TILE_EMPTY := by
  unfold StartWave at h
  cases hs : mazeMap rs fuel g.rndpos with
  | none => rw [hs] at h; cases h
  | some s =>
    rw [hs] at h
    dsimp only at h
    have hb := BorderWall_mazeMap rs fuel g.rndpos s hs
    have hl := length_mazeMap rs fuel g.rndpos s hs
    have hcorner : ∀ m : List Nat, BorderWall m → tileAt m 0 ≠ TILE_EMPTY := by
      intro m hm
      have := hm 0 0 (by decide) (by decide) (Or.inl rfl)
      simp only [Nat.zero_mul, Nat.add_zero] at this
      rw [this]
      decide
    split_ifs at h
    · have e := Option.some.inj h
      subst e
      dsimp only
      exact ⟨by rw [length_clearInterior]; exact hl,
        hcorner _ (BorderWall_clearInterior s.1 hb)⟩
    · have e := Option.some.inj h
      subst e
      dsimp only
      exact ⟨hl, hcorner _ hb⟩

/-- The condition on tile 0 cannot be dropped. On the grid `cornerMap`, whose border tiles 0,
1, 17 and 34 are empty as in no grid `StartWave` builds, the shortest way from tile `(1,2)`
(index 35) to tile `(1,0)` (index 1) leads through the corner tile with index 0; the target is
found from that tile, the back walk starts with `idx2 = 0` and
`ZL_ASSERT(idx2 > 0 && ...)` fails. -/
theorem searchC_assertion_fails :
    cornerMap.length = MAPW * MAPH + 1 ∧ (35 : Nat) < MAPW * MAPH ∧ (1 : Nat) < MAPW * MAPH ∧
    searchC cornerMap 35 1 = Except.error Fault.assertion := by
  decide!

/-! ## Side faces of a wall cell -/

theorem flatMap_unit {α β : Type} (f : α → β) (l : List α) :
    l.flatMap (fun a => [f a]) = l.map f := by
  induction l with
  | nil => rfl
  | cons a l ih => rw [List.flatMap_cons, ih]; rfl

theorem intRange_eq (a b : Int) :
    intRange a b = (List.range (b + 1 - a).toNat).map (fun k : Nat => a + (k : Int)) := by
  unfold intRange
  simp only [List.bind_eq_flatMap, List.pure_def, flatMap_unit, List.map_map]
  rfl

theorem intRange_nodup (a b : Int) : (intRange a b).Nodup := by
  rw [intRange_eq]
  apply List.Nodup.map _ (List.nodup_range _)
  intro i j h
  simpa using h

theorem flatMap_nil_of {α β : Type} (f : α → List β) :
    ∀ l : List α, (∀ b ∈ l, f b = []) → l.flatMap f = [] := by
  intro l
  induction l with
  | nil => intro _; rfl
  | cons b l ih =>
    intro h
    rw [List.flatMap_cons, h b (List.mem_cons_self _ _),
      ih (fun c hc => h c (List.mem_cons_of_mem _ hc))]
    rfl

theorem flatMap_single {α β : Type} (f : α → List β) (a : α) :
    ∀ l : List α, l.Nodup → a ∈ l → (∀ b ∈ l, b ≠ a → f b = []) → l.flatMap f = f a := by
  intro l
  induction l with
  | nil => intro _ ha; cases ha
  | cons b l ih =>
    intro hn ha h
    rw [List.flatMap_cons]
    rw [List.nodup_cons] at hn
    rcases List.mem_cons.mp ha with hab | hal
    · subst hab
      rw [flatMap_nil_of f l (fun c hc => h c (List.mem_cons_of_mem _ hc)
        (by intro e; subst e; exact hn.1 hc)), List.append_nil]
    · have hb : b ≠ a := by intro e; subst e; exact hn.1 hal
      rw [h b (List.mem_cons_self _ _) hb, List.nil_append,
        ih hn.2 hal (fun c hc => h c (List.mem_cons_of_mem _ hc))]

theorem tileCols_empty (g : Game) (tpos : Vec3) (stepHeight : ℚ) (y x : Int)
    (h : tileAt g.Map (x + y * MAPW).toNat = TILE_EMPTY) : tileCols g tpos stepHeight y x = [] := by
  unfold tileCols
  dsimp only
  rw [if_pos h]

theorem wallCols_single (g : Game) (tpos : Vec3) (stepHeight : ℚ) (cx cy : Int)
    (hscan : Scanned tpos cx cy) (honly : OnlyWall g tpos cx cy) :
    wallCols g tpos stepHeight = tileCols g tpos stepHeight cy cx := by
  unfold wallCols
  dsimp only
  rw [flatMap_single _ cy _ (intRange_nodup _ _) hscan.2]
  · rw [flatMap_single _ cx _ (intRange_nodup _ _) hscan.1]
    intro x hx hne
    apply tileCols_empty
    by_contra he
    exact hne (honly cy hscan.2 x hx he).1
  · intro y hy hne
    apply flatMap_nil_of
    intro x hx
    apply tileCols_empty
    by_contra he
    exact hne (honly y hy x hx he).2

theorem tileCols_face (g : Game) (tpos : Vec3) (stepHeight : ℚ) (cx cy : Int) (f : Face)
    (hwall : tileAt g.Map (cx + cy * MAPW).toNat ≠ TILE_EMPTY)
    (hside : tpos.z < heightAt g.MapHeights (cx + cy * MAPW).toNat - stepHeight)
    (hd0 : 0 < f.dist cx cy tpos) (hlat : Face.lateral cx cy tpos f ≤ 1 / 2) :
    tileCols g tpos stepHeight cy cx =
      (if stepHeight ≠ 0 then
        [{ pos := ⟨cx + 1 / 2, cy + 1 / 2, heightAt g.MapHeights (cx + cy * MAPW).toNat⟩,
           dir := ⟨0, 0, 1⟩, what := Partner.world, dist := 0 }]
       else []) ++
      [{ pos := f.anchor cx cy (heightAt g.MapHeights (cx + cy * MAPW).toNat), dir := f.normal,
         what := Partner.world, dist := 0 }] := by
  unfold tileCols
  dsimp only
  rw [if_neg hwall, if_pos hside]
  cases f
  all_goals
    simp only [Face.dist, Face.anchor, Face.normal, Face.lateral, Vec3.sub, Vec3.dot] at hd0 hlat
    rw [abs_le] at hlat
  · have h1 : tpos.x > ((cx + 1 : Int) : ℚ) := by push_cast; linarith
    have h2 : ¬ tpos.x < (cx : ℚ) := not_lt.mpr (by linarith)
    have h3 : ¬ tpos.y > ((cy + 1 : Int) : ℚ) := not_lt.mpr (by push_cast; linarith)
    have h4 : ¬ tpos.y < (cy : ℚ) := not_lt.mpr (by linarith)
    rw [if_pos h1, if_neg h2, if_neg h3, if_neg h4]
    simp only [List.append_nil, Face.anchor, Face.normal]
  · have h1 : ¬ tpos.x > ((cx + 1 : Int) : ℚ) := not_lt.mpr (by push_cast; linarith)
    have h2 : tpos.x < (cx : ℚ) := by linarith
    have h3 : ¬ tpos.y > ((cy + 1 : Int) : ℚ) := not_lt.mpr (by push_cast; linarith)
    have h4 : ¬ tpos.y < (cy : ℚ) := not_lt.mpr (by linarith)
    rw [if_neg h1, if_pos h2, if_neg h3, if_neg h4]
    simp only [List.append_nil, List.nil_append, Face.anchor, Face.normal]
  · have h1 : ¬ tpos.x > ((cx + 1 : Int) : ℚ) := not_lt.mpr (by push_cast; linarith)
    have h2 : ¬ tpos.x < (cx : ℚ) := not_lt.mpr (by linarith)
    have h3 : tpos.y > ((cy + 1 : Int) : ℚ) := by push_cast; linarith
    have h4 : ¬ tpos.y < (cy : ℚ) := not_lt.mpr (by linarith)
    rw [if_neg h1, if_neg h2, if_pos h3, if_neg h4]
    simp only [List.append_nil, List.nil_append, Face.anchor, Face.normal]
  · have h1 : ¬ tpos.x > ((cx + 1 : Int) : ℚ) := not_lt.mpr (by push_cast; linarith)
    have h2 : ¬ tpos.x < (cx : ℚ) := not_lt.mpr (by linarith)
    have h3 : ¬ tpos.y > ((cy + 1 : Int) : ℚ) := not_lt.mpr (by push_cast; linarith)
    have h4 : tpos.y < (cy : ℚ) := by linarith
    rw [if_neg h1, if_neg h2, if_neg h3, if_pos h4]
    simp only [List.append_nil, List.nil_append, Face.anchor, Face.normal]

theorem sortCols_two (b c : Col) (h1 : ¬ b.dist ≤ c.dist) : sortCols [b, c] = [c, b] := by
  simp [sortCols, List.insertionSort, List.orderedInsert, h1]

theorem sortCols_three (a b c : Col) (h1 : ¬ b.dist ≤ c.dist) (h2 : ¬ a.dist ≤ c.dist)
    (h3 : ¬ a.dist ≤ b.dist) : sortCols [a, b, c] = [c, b, a] := by
  simp [sortCols, List.insertionSort, List.orderedInsert, h1, h2, h3]

theorem sq_le_quarter (a : ℚ) (h : |a| ≤ 1 / 2) : |a| ^ 2 ≤ 1 / 4 := by
  have h0 := abs_nonneg a
  nlinarith

theorem resolveStep_below (radius : ℚ) (s : Resolve) (c : Col) (h : s.tpos.z ≥ c.pos.z) :
    resolveStep radius s c = s := by
  unfold resolveStep
  rw [if_pos h]

theorem resolveStep_side (radius : ℚ) (s : Resolve) (c : Col) (hz : ¬ s.tpos.z ≥ c.pos.z)
    (hd : ¬ (s.tpos.sub c.pos).dot c.dir > radius) (hdir : c.dir.z = 0)
    (hl : ¬ ((s.tpos.sub (c.dir.smul ((s.tpos.sub c.pos).dot c.dir))).toXY.distSq c.pos.toXY
      > (radius + 1 / 2) * (radius + 1 / 2))) :
    resolveStep radius s c =
      { tpos := s.tpos.add (c.dir.smul (radius - (s.tpos.sub c.pos).dot c.dir + 1 / 1000)),
        velz := s.velz, collided := some c.what } := by
  unfold resolveStep
  rw [if_neg hz]
  dsimp only
  rw [if_neg hd, if_neg (not_not.mpr hdir), if_neg hl]

theorem resolveStep_beside (radius : ℚ) (s : Resolve) (c : Col) (hdir : c.dir.z ≠ 0)
    (h : |s.tpos.x - c.pos.x| > radius + 1 / 2 ∨ |s.tpos.y - c.pos.y| > radius + 1 / 2) :
    resolveStep radius s c = s := by
  unfold resolveStep
  dsimp only
  rw [if_pos hdir]
  rcases h with h | h
  · rw [if_pos h]
    simp
  · rw [if_pos h]
    simp

theorem Face.dist_anchor (f : Face) (cx cy : Int) (p : Vec3) (h : ℚ) :
    (p.sub (f.anchor cx cy h)).dot f.normal = f.dist cx cy p := by
  cases f <;> simp [Face.dist, Face.anchor, Face.normal, Vec3.sub, Vec3.dot]

theorem Face.normal_z (f : Face) : f.normal.z = 0 := by
  cases f <;> rfl

theorem Face.anchor_z (f : Face) (cx cy : Int) (h : ℚ) : (f.anchor cx cy h).z = h := by
  cases f <;> rfl

theorem Face.distSq_pos (f : Face) (cx cy : Int) (p : Vec3) (h : ℚ) (hz : p.z = 0)
    (hh : 0 < h) : 0 < p.distSq (f.anchor cx cy h) := by
  have h3 : 0 < (p.z - (f.anchor cx cy h).z) ^ 2 := by
    rw [hz, f.anchor_z]
    nlinarith
  unfold Vec3.distSq
  positivity

theorem Face.distSq_lt_top (f : Face) (cx cy : Int) (p : Vec3) (h : ℚ)
    (hd0 : 0 < f.dist cx cy p) :
    p.distSq (f.anchor cx cy h) < p.distSq ⟨cx + 1 / 2, cy + 1 / 2, h⟩ := by
  cases f
  all_goals
    simp only [Face.dist, Face.anchor, Face.normal, Vec3.sub, Vec3.dot, Vec3.distSq] at hd0 ⊢
    nlinarith

theorem Face.on_plane (f : Face) (cx cy : Int) (p : Vec3) (h r : ℚ) (hr : 0 < r)
    (hlat : Face.lateral cx cy p f ≤ 1 / 2) :
    ¬ ((p.sub (f.normal.smul (f.dist cx cy p))).toXY.distSq (f.anchor cx cy h).toXY
      > (r + 1 / 2) * (r + 1 / 2)) := by
  apply not_lt.mpr
  have h14 : (1 : ℚ) / 4 ≤ (r + 1 / 2) * (r + 1 / 2) := by nlinarith
  cases f
  all_goals
    simp only [Face.lateral] at hlat
    have hq := sq_le_quarter _ hlat
    rw [sq_abs] at hq
    refine le_trans (le_of_eq ?_) (le_trans hq h14)
    simp only [Face.dist, Face.anchor, Face.normal, Vec3.sub, Vec3.dot, Vec3.smul,
      Vec3.toXY, Vec2.distSq]
    ring

theorem Face.pushed_beside (f : Face) (cx cy : Int) (t : Thing) :
    |(f.pushed cx cy t).x - ((cx : ℚ) + 1 / 2)| > t.radius + 1 / 2 ∨
      |(f.pushed cx cy t).y - ((cy : ℚ) + 1 / 2)| > t.radius + 1 / 2 := by
  cases f
  · left
    rw [gt_iff_lt, lt_abs]
    left
    simp only [Face.pushed, Face.dist, Face.anchor, Face.normal, Vec3.sub, Vec3.dot,
      Vec3.smul, Vec3.add]
    linarith
  · left
    rw [gt_iff_lt, lt_abs]
    right
    simp only [Face.pushed, Face.dist, Face.anchor, Face.normal, Vec3.sub, Vec3.dot,
      Vec3.smul, Vec3.add]
    linarith
  · right
    rw [gt_iff_lt, lt_abs]
    left
    simp only [Face.pushed, Face.dist, Face.anchor, Face.normal, Vec3.sub, Vec3.dot,
      Vec3.smul, Vec3.add]
    linarith
  · right
    rw [gt_iff_lt, lt_abs]
    right
    simp only [Face.pushed, Face.dist, Face.anchor, Face.normal, Vec3.sub, Vec3.dot,
      Vec3.smul, Vec3.add]
    linarith

theorem Face.dist_pushed (f : Face) (cx cy : Int) (t : Thing) :
    f.dist cx cy (f.pushed cx cy t) = t.radius + 1 / 1000 := by
  cases f
  all_goals
    simp only [Face.pushed, Face.dist, Face.anchor, Face.normal, Vec3.sub, Vec3.dot,
      Vec3.smul, Vec3.add]
    ring

/-- C15, amended. In a collision pass for an actor of radius `r` on the ground (`z = 0`) for
which no proximity collider is made, beside a wall cell of height `h > stepHeight + r` that is
the only wall cell the pass reads: if the signed distance `d` of the centre to the plane of a
side satisfies `0 < d ≤ r`, the offset of the centre from the centre of the side is at most
`0.5` (the actor is beside the side, not off a corner), and the position pushed out by
`r - d + 0.001` along the normal of the side is inside the world bounds, then the pass leaves
the actor at that position, at distance `r + 0.001` from the side, and reports the world. -/
theorem DoCollision_side_push (lib : ZLib) (g : Game) (self : Option Nat) (t : Thing)
    (stepHeight : ℚ) (f : Face) (cx cy : Int)
    (hprox : t.type = ThingType.ENEMY_SPIDER →
      enemyCols lib self t t.pos 0 g.enemies = [] ∧ playerCols lib g.player t t.pos = [])
    (hz : t.pos.z = 0) (hstep : 0 ≤ stepHeight) (hscan : Scanned t.pos cx cy)
    (hwall : tileAt g.Map (cx + cy * MAPW).toNat ≠ TILE_EMPTY) (honly : OnlyWall g t.pos cx cy)
    (hh : heightAt g.MapHeights (cx + cy * MAPW).toNat > stepHeight + t.radius)
    (hd0 : 0 < f.dist cx cy t.pos) (hd1 : f.dist cx cy t.pos ≤ t.radius)
    (hlat : Face.lateral cx cy t.pos f ≤ 1 / 2)
    (hb : 0 ≤ (f.pushed cx cy t).x ∧ (f.pushed cx cy t).x ≤ MAPW ∧
      0 ≤ (f.pushed cx cy t).y ∧ (f.pushed cx cy t).y ≤ MAPH) :
    (DoCollision lib g self t stepHeight).1.pos = f.pushed cx cy t ∧
    (DoCollision lib g self t stepHeight).2 = some Partner.world ∧
    f.dist cx cy (DoCollision lib g self t stepHeight).1.pos = t.radius + 1 / 1000 := by
  have hr : 0 < t.radius := lt_of_lt_of_le hd0 hd1
  have hhpos : 0 < heightAt g.MapHeights (cx + cy * MAPW).toNat := by linarith
  have hside : t.pos.z < heightAt g.MapHeights (cx + cy * MAPW).toNat - stepHeight := by
    rw [hz]; linarith
  have e1 : (if t.type = ThingType.ENEMY_SPIDER then enemyCols lib self t t.pos 0 g.enemies
      else []) = [] := by
    split_ifs with h
    · exact (hprox h).1
    · rfl
  have e2 : (if t.type = ThingType.ENEMY_SPIDER then playerCols lib g.player t t.pos
      else []) = [] := by
    split_ifs with h
    · exact (hprox h).2
    · rfl
  have hfold : clampBounds ((sortCols (gatherCols lib g self t stepHeight)).foldl
      (resolveStep t.radius) { tpos := t.pos, velz := t.vel.z, collided := none })
      = { tpos := f.pushed cx cy t, velz := t.vel.z, collided := some Partner.world } := by
    unfold gatherCols
    dsimp only
    rw [wallCols_single g t.pos stepHeight cx cy hscan honly,
      tileCols_face g t.pos stepHeight cx cy f hwall hside hd0 hlat, e1, e2]
    have hdist := f.dist_anchor cx cy t.pos
    have hground : t.pos.distSq ⟨t.pos.x, t.pos.y, 0⟩ = 0 := by
      simp [Vec3.distSq, hz]
    have hface := f.distSq_pos cx cy t.pos _ hz hhpos
    have htop := f.distSq_lt_top cx cy t.pos (heightAt g.MapHeights (cx + cy * MAPW).toNat) hd0
    have hz1 : ¬ t.pos.z ≥ (f.anchor cx cy (heightAt g.MapHeights (cx + cy * MAPW).toNat)).z := by
      rw [hz, f.anchor_z]
      exact not_le.mpr hhpos
    have hdir := f.normal_z
    have hl := f.on_plane cx cy t.pos (heightAt g.MapHeights (cx + cy * MAPW).toNat) t.radius
      hr hlat
    have hskip := f.pushed_beside cx cy t
    have hin : clampBounds ⟨f.pushed cx cy t, t.vel.z, some Partner.world⟩
        = ⟨f.pushed cx cy t, t.vel.z, some Partner.world⟩ :=
      clampBounds_inside _ hb.1 hb.2.1 hb.2.2.1 hb.2.2.2
    have step1 : ∀ c : Col, c.pos.z = 0 →
        resolveStep t.radius ⟨t.pos, t.vel.z, none⟩ c = ⟨t.pos, t.vel.z, none⟩ := by
      intro c hc
      apply resolveStep_below
      dsimp only
      rw [hz, hc]
    have step2 : ∀ d : ℚ, resolveStep t.radius ⟨t.pos, t.vel.z, none⟩
        ⟨f.anchor cx cy (heightAt g.MapHeights (cx + cy * MAPW).toNat), f.normal,
          Partner.world, d⟩ = ⟨f.pushed cx cy t, t.vel.z, some Partner.world⟩ := by
      intro d
      rw [resolveStep_side]
      · dsimp only
        rw [hdist]
        rfl
      · exact hz1
      · dsimp only
        rw [hdist]
        exact not_lt.mpr hd1
      · exact hdir
      · dsimp only
        rw [hdist]
        exact hl
    have step3 : ∀ d : ℚ, resolveStep t.radius ⟨f.pushed cx cy t, t.vel.z, some Partner.world⟩
        ⟨⟨cx + 1 / 2, cy + 1 / 2, heightAt g.MapHeights (cx + cy * MAPW).toNat⟩, ⟨0, 0, 1⟩,
          Partner.world, d⟩ = ⟨f.pushed cx cy t, t.vel.z, some Partner.world⟩ := by
      intro d
      apply resolveStep_beside
      · dsimp only
        norm_num
      · exact hskip
    by_cases hs : stepHeight ≠ 0
    · rw [if_pos hs]
      simp only [List.append_nil, List.cons_append, List.nil_append, List.map_cons,
        List.map_nil, List.singleton_append]
      rw [sortCols_three]
      · simp only [List.foldl_cons, List.foldl_nil]
        rw [step1 _ rfl, step2, step3]
        exact hin
      · dsimp only
        rw [hground]
        exact not_le.mpr hface
      · dsimp only
        rw [hground]
        exact not_le.mpr (lt_trans hface htop)
      · dsimp only
        exact not_le.mpr htop
    · rw [if_neg hs]
      simp only [List.append_nil, List.cons_append, List.nil_append, List.map_cons,
        List.map_nil, List.singleton_append]
      rw [sortCols_two]
      · simp only [List.foldl_cons, List.foldl_nil]
        rw [step1 _ rfl, step2]
        exact hin
      · dsimp only
        rw [hground]
        exact not_le.mpr hface
  have hin : ¬ (t.pos.z < -10 ∨ t.pos.z > 20) := by
    rw [hz]
    norm_num
  unfold DoCollision
  rw [if_neg hin]
  dsimp only
  rw [hfold]
  dsimp only
  refine ⟨by simp, rfl, ?_⟩
  simp only [Option.isSome_some, if_true]
  exact f.dist_pushed cx cy t

/-- Witness of C15: the actor `sideWalker` beside the side `x = 6` of the wall on tile
`(5,5)`. -/
theorem DoCollision_side_push_witness :
    OnlyWall pillarArena sideWalker.pos 5 5 ∧
    (DoCollision exactLib pillarArena none sideWalker (2 / 10)).1.pos
      = Face.xPlus.pushed 5 5 sideWalker ∧
    (DoCollision exactLib pillarArena none sideWalker (2 / 10)).2 = some Partner.world ∧
    Face.xPlus.dist 5 5 (DoCollision exactLib pillarArena none sideWalker (2 / 10)).1.pos
      = sideWalker.radius + 1 / 1000 :=
  ⟨by decide!,
    DoCollision_side_push exactLib pillarArena none sideWalker (2 / 10) Face.xPlus 5 5
      (fun h => absurd h (by decide)) (by decide!) (by decide!) (by decide!) (by decide!)
      (by decide!) (by decide!) (by decide!) (by decide!) (by decide!) (by decide!)⟩

/-- C15, counterexample. The actor `cornerWalker` stands on the ground off the corner `(6,6)`
of the only wall cell `(5,5)`, which is `2.5` high. For the side `x = 6` its signed distance is
`0.1`, within `(0, r]`, and its offset from the centre of the side is `0.7 ≤ r + 0.5`. The
side `y = 6` is nearer and is resolved first; it pushes `y` to `6.251`, the side `x = 6` is
then skipped, and `x` stays at `6.1` instead of `6.251`. -/
theorem DoCollision_corner_no_push :
    cornerWalker.pos.z = 0 ∧ Scanned cornerWalker.pos 5 5 ∧
    tileAt pillarArena.Map ((5 : Int) + 5 * MAPW).toNat ≠ TILE_EMPTY ∧
    OnlyWall pillarArena cornerWalker.pos 5 5 ∧
    heightAt pillarArena.MapHeights ((5 : Int) + 5 * MAPW).toNat > 2 / 10 + cornerWalker.radius ∧
    0 < Face.xPlus.dist 5 5 cornerWalker.pos ∧
    Face.xPlus.dist 5 5 cornerWalker.pos ≤ cornerWalker.radius ∧
    Face.lateral 5 5 cornerWalker.pos Face.xPlus ≤ cornerWalker.radius + 1 / 2 ∧
    Face.xPlus.pushed 5 5 cornerWalker = ⟨6251 / 1000, 31 / 5, 0⟩ ∧
    (DoCollision exactLib pillarArena none cornerWalker (2 / 10)).1.pos
      = ⟨61 / 10, 6251 / 1000, 0⟩ := by
  decide!

/-! ## The spiral scan -/

theorem spiralTrace_mem (n : Nat) :
    ∀ (s t : SpiralRange), t ∈ spiralTrace n s ↔ ∃ k, k < n ∧ t = SpiralRange.turn^[k] s := by
  induction n with
  | zero =>
    intro s t
    simp [spiralTrace]
  | succ n ih =>
    intro s t
    rw [spiralTrace, List.mem_cons, ih]
    constructor
    · rintro (h | ⟨k, hk, h⟩)
      · exact ⟨0, Nat.succ_pos n, h⟩
      · exact ⟨k + 1, Nat.succ_lt_succ hk, by rw [Function.iterate_succ_apply]; exact h⟩
    · rintro ⟨k, hk, h⟩
      cases k with
      | zero => exact Or.inl h
      | succ k =>
        rw [Function.iterate_succ_apply] at h
        exact Or.inr ⟨k, Nat.lt_of_succ_lt_succ hk, h⟩

theorem nondecreasing_trace (n : Nat) :
    ∀ (s : SpiralRange), nondecreasing ((spiralTrace n s).map ringOf) = true →
      ∀ i j, i ≤ j → j < n → ringOf (SpiralRange.turn^[i] s) ≤ ringOf (SpiralRange.turn^[j] s) := by
  induction n with
  | zero => intro s _ i j _ hj; omega
  | succ n ih =>
    intro s h i j hij hj
    have hrest : nondecreasing ((spiralTrace n s.turn).map ringOf) = true := by
      cases n with
      | zero => rfl
      | succ n =>
        rw [spiralTrace, spiralTrace, List.map_cons, List.map_cons, nondecreasing,
          Bool.and_eq_true] at h
        rw [spiralTrace, List.map_cons]
        exact h.2
    cases j with
    | zero =>
      have : i = 0 := by omega
      subst this
      exact le_rfl
    | succ j =>
      cases i with
      | zero =>
        cases n with
        | zero => omega
        | succ n =>
          have h1 : ringOf s ≤ ringOf s.turn := by
            rw [spiralTrace, spiralTrace, List.map_cons, List.map_cons, nondecreasing,
              Bool.and_eq_true, decide_eq_true_eq] at h
            exact h.1
          have h2 := ih s.turn hrest 0 j (Nat.zero_le j) (by omega)
          rw [Function.iterate_succ_apply]
          exact le_trans h1 h2
      | succ i =>
        rw [Function.iterate_succ_apply, Function.iterate_succ_apply]
        exact ih s.turn hrest i j (by omega) (by omega)

theorem testBit_foldl (c : Nat) :
    ∀ (l : List Nat) (acc : Nat),
      (l.foldl (fun a x => a ||| 1 <<< x) acc).testBit c = true → acc.testBit c = true ∨ c ∈ l := by
  intro l
  induction l with
  | nil => intro acc h; exact Or.inl h
  | cons x l ih =>
    intro acc h
    rw [List.foldl_cons] at h
    rcases ih _ h with h1 | h1
    · rw [Nat.testBit_lor, Bool.or_eq_true, Nat.one_shiftLeft, Nat.testBit_two_pow] at h1
      rcases h1 with h2 | h2
      · exact Or.inl h2
      · right
        rw [decide_eq_true_eq] at h2
        rw [h2]
        exact List.mem_cons_self _ _
    · exact Or.inr (List.mem_cons_of_mem _ h1)

theorem mem_of_codeMask (l : List Nat) (n c : Nat) (h : codeMask l = 2 ^ n - 1) (hc : c < n) :
    c ∈ l := by
  have h1 : (codeMask l).testBit c = true := by
    rw [h, Nat.testBit_two_pow_sub_one]
    exact decide_eq_true hc
  rcases testBit_foldl c l 0 h1 with h2 | h2
  · rw [Nat.zero_testBit] at h2
    cases h2
  · exact h2

/-- Every offset between `-16` and `16` in both coordinates is reached within `33 * 33`
rounds, and the ring numbers of these rounds do not decrease. -/
theorem spiral_rings :
    (∀ a b : Int, -16 ≤ a → a ≤ 16 → -16 ≤ b → b ≤ 16 →
      ∃ k, k < 33 * 33 ∧ (SpiralRange.turn^[k] (SpiralRange.start 0)).tilex = a ∧
        (SpiralRange.turn^[k] (SpiralRange.start 0)).tiley = b) ∧
    ∀ i j, i ≤ j → j < 33 * 33 →
      ringOf (SpiralRange.turn^[i] (SpiralRange.start 0))
        ≤ ringOf (SpiralRange.turn^[j] (SpiralRange.start 0)) := by
  have hmask : codeMask ((spiralTrace 1089 (SpiralRange.start 0)).map offsetCode)
      = 2 ^ 1089 - 1 := by decide!
  have hbound : ∀ s ∈ spiralTrace 1089 (SpiralRange.start 0),
      -16 ≤ s.tilex ∧ s.tilex ≤ 16 ∧ -16 ≤ s.tiley ∧ s.tiley ≤ 16 := by decide!
  have hmono : nondecreasing ((spiralTrace 1089 (SpiralRange.start 0)).map ringOf) = true := by
    decide!
  constructor
  · intro a b ha0 ha1 hb0 hb1
    have hc : (a + 16).toNat * 33 + (b + 16).toNat < 1089 := by omega
    have hm := mem_of_codeMask _ 1089 _ hmask hc
    obtain ⟨s, hs, hcode⟩ := List.mem_map.mp hm
    obtain ⟨h1, h2, h3, h4⟩ := hbound s hs
    obtain ⟨k, hk, rfl⟩ := (spiralTrace_mem 1089 _ s).mp hs
    refine ⟨k, hk, ?_, ?_⟩
    · unfold offsetCode at hcode
      omega
    · unfold offsetCode at hcode
      omega
  · exact nondecreasing_trace 1089 _ hmono

theorem turn_shift (s o : SpiralRange) (a b : Int)
    (h : s.tilex = o.tilex ∧ s.tiley = o.tiley ∧ s.deltax = o.deltax ∧ s.deltay = o.deltay ∧
      s.x = a + o.tilex ∧ s.y = b + o.tiley) :
    s.turn.tilex = o.turn.tilex ∧ s.turn.tiley = o.turn.tiley ∧
      s.turn.deltax = o.turn.deltax ∧ s.turn.deltay = o.turn.deltay ∧
      s.turn.x = a + o.turn.tilex ∧ s.turn.y = b + o.turn.tiley := by
  obtain ⟨h1, h2, h3, h4, h5, h6⟩ := h
  unfold SpiralRange.turn
  dsimp only
  rw [h1, h2, h3, h4, h5, h6]
  refine ⟨rfl, rfl, rfl, rfl, ?_, ?_⟩ <;> ring

theorem iterate_shift (idx : Int) (n : Nat) :
    (SpiralRange.turn^[n] (SpiralRange.start idx)).x
        = idx.tmod MAPW + (SpiralRange.turn^[n] (SpiralRange.start 0)).tilex ∧
    (SpiralRange.turn^[n] (SpiralRange.start idx)).y
        = idx.tdiv MAPW + (SpiralRange.turn^[n] (SpiralRange.start 0)).tiley := by
  have h : ∀ n, (SpiralRange.turn^[n] (SpiralRange.start idx)).tilex
        = (SpiralRange.turn^[n] (SpiralRange.start 0)).tilex ∧
      (SpiralRange.turn^[n] (SpiralRange.start idx)).tiley
        = (SpiralRange.turn^[n] (SpiralRange.start 0)).tiley ∧
      (SpiralRange.turn^[n] (SpiralRange.start idx)).deltax
        = (SpiralRange.turn^[n] (SpiralRange.start 0)).deltax ∧
      (SpiralRange.turn^[n] (SpiralRange.start idx)).deltay
        = (SpiralRange.turn^[n] (SpiralRange.start 0)).deltay ∧
      (SpiralRange.turn^[n] (SpiralRange.start idx)).x
        = idx.tmod MAPW + (SpiralRange.turn^[n] (SpiralRange.start 0)).tilex ∧
      (SpiralRange.turn^[n] (SpiralRange.start idx)).y
        = idx.tdiv MAPW + (SpiralRange.turn^[n] (SpiralRange.start 0)).tiley := by
    intro n
    induction n with
    | zero => simp [SpiralRange.start]
    | succ n ih =>
      rw [Function.iterate_succ_apply', Function.iterate_succ_apply']
      exact turn_shift _ _ _ _ ih
  exact ⟨(h n).2.2.2.2.1, (h n).2.2.2.2.2⟩

theorem advance_spec (fuel : Nat) :
    ∀ (s : SpiralRange) (t : Nat), 1 ≤ t → t ≤ fuel →
      (∀ u, 1 ≤ u → u < t → (SpiralRange.turn^[u] s).outside = true) →
      (SpiralRange.turn^[t] s).outside = false →
      SpiralRange.advance fuel s = some (SpiralRange.turn^[t] s) := by
  induction fuel with
  | zero => intro s t h1 h2; omega
  | succ fuel ih =>
    intro s t h1 h2 hout hin
    rw [SpiralRange.advance]
    by_cases ht : t = 1
    · subst ht
      rw [Function.iterate_one] at hin
      rw [hin]
      simp
    · have h1o : s.turn.outside = true := by
        have := hout 1 le_rfl (by omega)
        rwa [Function.iterate_one] at this
      rw [if_pos h1o]
      obtain ⟨t1, rfl⟩ : ∃ t1, t = t1 + 1 := ⟨t - 1, by omega⟩
      rw [Function.iterate_succ_apply] at hin ⊢
      apply ih s.turn t1 (by omega) (by omega) _ hin
      intro u hu1 hu2
      have := hout (u + 1) (by omega) (by omega)
      rwa [Function.iterate_succ_apply] at this

theorem spiralScan_spec (m : List Nat) (s0 : SpiralRange)
    (hdef : ∀ k, (k = 0 ∨ (SpiralRange.turn^[k] s0).outside = false) →
      ∃ c, tileAtI m (SpiralRange.turn^[k] s0).deref = some c) (gap : Nat) :
    ∀ (n p fuel : Nat), p = n + gap → (n = 0 ∨ (SpiralRange.turn^[n] s0).outside = false) →
      (∀ k, n ≤ k → k < p → (k = 0 ∨ (SpiralRange.turn^[k] s0).outside = false) →
        tileAtI m (SpiralRange.turn^[k] s0).deref ≠ some TILE_EMPTY) →
      (p = 0 ∨ (SpiralRange.turn^[p] s0).outside = false) →
      tileAtI m (SpiralRange.turn^[p] s0).deref = some TILE_EMPTY → gap + 1 ≤ fuel →
      spiralScan m fuel (SpiralRange.turn^[n] s0) = some (SpiralRange.turn^[p] s0).deref := by
  induction gap using Nat.strong_induction_on with
  | _ gap ih =>
    intro n p fuel hp hn hmiss hpv hpe hf
    obtain ⟨f, rfl⟩ : ∃ f, fuel = f + 1 := ⟨fuel - 1, by omega⟩
    rw [spiralScan]
    by_cases hg : gap = 0
    · subst hg
      have : p = n := by omega
      subst this
      rw [hpe]
      simp
    · obtain ⟨c, hc⟩ := hdef n hn
      have hne : c ≠ TILE_EMPTY := by
        intro h
        rw [h] at hc
        exact hmiss n le_rfl (by omega) hn hc
      rw [hc]
      dsimp only
      rw [if_neg hne]
      have hpout : (SpiralRange.turn^[p] s0).outside = false := by
        rcases hpv with h | h
        · omega
        · exact h
      have hex : ∃ t, (SpiralRange.turn^[n + (t + 1)] s0).outside = false :=
        ⟨gap - 1, by
          have : n + (gap - 1 + 1) = p := by omega
          rw [this]
          exact hpout⟩
      have hfind := Nat.find_spec hex
      have hle : Nat.find hex ≤ gap - 1 := Nat.find_min' hex (by
        have : n + (gap - 1 + 1) = p := by omega
        rw [this]
        exact hpout)
      have hadv : SpiralRange.advance (f + 1) (SpiralRange.turn^[n] s0)
          = some (SpiralRange.turn^[n + (Nat.find hex + 1)] s0) := by
        have e : SpiralRange.turn^[n + (Nat.find hex + 1)] s0
            = SpiralRange.turn^[Nat.find hex + 1] (SpiralRange.turn^[n] s0) := by
          rw [Nat.add_comm, Function.iterate_add_apply]
        rw [e]
        apply advance_spec (f + 1) _ (Nat.find hex + 1) (by omega) (by omega)
        · intro u hu1 hu2
          have hlt : u - 1 < Nat.find hex := by omega
          have := Nat.find_min hex hlt
          have e2 : n + (u - 1 + 1) = u + n := by omega
          rw [e2, Function.iterate_add_apply] at this
          simpa using this
        · rw [← e]
          exact hfind
      rw [hadv]
      dsimp only
      apply ih (gap - (Nat.find hex + 1)) (by omega) (n + (Nat.find hex + 1)) p f (by omega)
        (Or.inr hfind) _ hpv hpe (by omega)
      intro k hk1 hk2 hkv
      exact hmiss k (by omega) hk2 hkv

theorem outside_false_iff (s : SpiralRange) :
    s.outside = false ↔ (1 ≤ s.x ∧ s.x < 16 ∧ 1 ≤ s.y ∧ s.y < 16) := by
  simp [SpiralRange.outside, MAPW, MAPH]
  omega

theorem iterate_pos (idx : Int) (h0 : 0 ≤ idx) (k : Nat) :
    (SpiralRange.turn^[k] (SpiralRange.start idx)).x
        = idx % 17 + (SpiralRange.turn^[k] (SpiralRange.start 0)).tilex ∧
    (SpiralRange.turn^[k] (SpiralRange.start idx)).y
        = idx / 17 + (SpiralRange.turn^[k] (SpiralRange.start 0)).tiley := by
  have h := iterate_shift idx k
  rw [Int.tmod_eq_emod h0 (by decide), Int.tdiv_eq_ediv h0 (by decide)] at h
  exact h

theorem Interior_iff (j : Int) :
    Interior j ↔ (1 ≤ j % 17 ∧ j % 17 < 16 ∧ 1 ≤ j / 17 ∧ j / 17 < 16) := by
  unfold Interior
  simp only [MAPW, MAPH, Nat.cast_ofNat]
  omega

theorem chebDist_eq (i j : Int) :
    chebDist i j = max (i % 17 - j % 17).natAbs (i / 17 - j / 17).natAbs := by
  unfold chebDist
  simp only [MAPW, Nat.cast_ofNat, Int.abs_eq_natAbs]
  omega

theorem cheb_aux (a b c d tx ty : Int)
    (h : max tx.natAbs ty.natAbs ≤ max (c - a).natAbs (d - b).natAbs) :
    ((max (a - (a + tx)).natAbs (b - (b + ty)).natAbs : Nat) : Int)
      ≤ ((max (a - c).natAbs (b - d).natAbs : Nat) : Int) := by
  have e1 : a - (a + tx) = -tx := by ring
  have e2 : b - (b + ty) = -ty := by ring
  have e3 : a - c = -(c - a) := by ring
  have e4 : b - d = -(d - b) := by ring
  rw [e1, e2, e3, e4, Int.natAbs_neg, Int.natAbs_neg, Int.natAbs_neg, Int.natAbs_neg]
  exact_mod_cast h

theorem tileAtI_isSome (m : List Nat) (i : Int) (h0 : 0 ≤ i) (h1 : i < m.length) :
    ∃ c, tileAtI m i = some c := by
  unfold tileAtI
  rw [if_pos ⟨h0, h1⟩]
  exact ⟨_, rfl⟩

/-- C18. For a wall tile `idx` inside the grid and a grid with an empty tile in the interior
(columns `1..MAPW-2`, rows `1..MAPH-2`), the spiral scan started at `idx` returns, given fuel
for `33 * 33` rounds, and the tile it yields is an empty interior tile whose Chebyshev distance
to `idx` is minimal among all empty interior tiles. -/
theorem snapToEmpty_nearest (m : List Nat) (idx : Int) (fuel : Nat)
    (hlen : MAPW * MAPH ≤ m.length) (h0 : 0 ≤ idx) (h1 : idx < MAPW * MAPH)
    (hw : tileAtI m idx = some TILE_WALL)
    (hex : ∃ j, Interior j ∧ tileAtI m j = some TILE_EMPTY) (hfuel : 33 * 33 ≤ fuel) :
    ∃ r, snapToEmpty m fuel idx = some r ∧ Interior r ∧ tileAtI m r = some TILE_EMPTY ∧
      ∀ j, Interior j → tileAtI m j = some TILE_EMPTY → chebDist idx r ≤ chebDist idx j := by
  simp only [MAPW, MAPH, Nat.cast_ofNat] at h1 hlen
  have hpos := iterate_pos idx h0
  obtain ⟨hcover, hmono⟩ := spiral_rings
  have hderef : ∀ k, (SpiralRange.turn^[k] (SpiralRange.start idx)).deref
      = (SpiralRange.turn^[k] (SpiralRange.start idx)).x
        + (SpiralRange.turn^[k] (SpiralRange.start idx)).y * 17 := by
    intro k
    unfold SpiralRange.deref
    simp only [MAPW, Nat.cast_ofNat]
  -- every interior tile is visited within `33 * 33` rounds
  have hreach : ∀ j, Interior j → ∃ q, q < 33 * 33 ∧
      (SpiralRange.turn^[q] (SpiralRange.start idx)).outside = false ∧
      (SpiralRange.turn^[q] (SpiralRange.start idx)).deref = j ∧
      ((SpiralRange.turn^[q] (SpiralRange.start 0)).tilex = j % 17 - idx % 17 ∧
       (SpiralRange.turn^[q] (SpiralRange.start 0)).tiley = j / 17 - idx / 17) := by
    intro j hj
    rw [Interior_iff] at hj
    obtain ⟨q, hq, hx, hy⟩ := hcover (j % 17 - idx % 17) (j / 17 - idx / 17)
      (by omega) (by omega) (by omega) (by omega)
    refine ⟨q, hq, ?_, ?_, hx, hy⟩
    · rw [outside_false_iff, (hpos q).1, (hpos q).2, hx, hy]
      omega
    · rw [hderef, (hpos q).1, (hpos q).2, hx, hy]
      omega
  have hdef : ∀ k, (k = 0 ∨ (SpiralRange.turn^[k] (SpiralRange.start idx)).outside = false) →
      ∃ c, tileAtI m (SpiralRange.turn^[k] (SpiralRange.start idx)).deref = some c := by
    intro k hk
    rcases hk with hk | hk
    · subst hk
      refine ⟨TILE_WALL, ?_⟩
      have e : (SpiralRange.turn^[0] (SpiralRange.start idx)).deref = idx := by
        rw [hderef, (hpos 0).1, (hpos 0).2]
        simp only [Function.iterate_zero, id_eq, SpiralRange.start]
        omega
      rw [e]
      exact hw
    · rw [outside_false_iff] at hk
      apply tileAtI_isSome
      · rw [hderef]; omega
      · rw [hderef]; omega
  have hhit : ∃ k, (k = 0 ∨ (SpiralRange.turn^[k] (SpiralRange.start idx)).outside = false) ∧
      tileAtI m (SpiralRange.turn^[k] (SpiralRange.start idx)).deref = some TILE_EMPTY := by
    obtain ⟨j, hj, hje⟩ := hex
    obtain ⟨q, _, hq1, hq2, _⟩ := hreach j hj
    exact ⟨q, Or.inr hq1, by rw [hq2]; exact hje⟩
  have hp := Nat.find_spec hhit
  have hp0 : Nat.find hhit ≠ 0 := by
    intro h
    rw [h] at hp
    have e : (SpiralRange.turn^[0] (SpiralRange.start idx)).deref = idx := by
      rw [hderef, (hpos 0).1, (hpos 0).2]
      simp only [Function.iterate_zero, id_eq, SpiralRange.start]
      omega
    rw [e, hw] at hp
    exact absurd hp.2 (by decide)
  have hpout : (SpiralRange.turn^[Nat.find hhit] (SpiralRange.start idx)).outside = false := by
    rcases hp.1 with h | h
    · exact absurd h hp0
    · exact h
  have hplt : Nat.find hhit < 33 * 33 := by
    obtain ⟨j, hj, hje⟩ := hex
    obtain ⟨q, hq, hq1, hq2, _⟩ := hreach j hj
    exact lt_of_le_of_lt (Nat.find_min' hhit ⟨Or.inr hq1, by rw [hq2]; exact hje⟩) hq
  refine ⟨(SpiralRange.turn^[Nat.find hhit] (SpiralRange.start idx)).deref, ?_, ?_, hp.2, ?_⟩
  · unfold snapToEmpty
    rw [hw]
    simp only [if_true]
    have := spiralScan_spec m (SpiralRange.start idx) hdef (Nat.find hhit) 0 (Nat.find hhit)
      fuel (by omega) (Or.inl rfl)
      (fun k _ hk hkv hke => Nat.find_min hhit hk ⟨hkv, hke⟩) hp.1 hp.2 (by omega)
    rw [Function.iterate_zero, id_eq] at this
    exact this
  · have h := (outside_false_iff _).mp hpout
    rw [Interior_iff, hderef]
    omega
  · intro j hj hje
    obtain ⟨q, hq, hq1, hq2, hqx, hqy⟩ := hreach j hj
    have hle : Nat.find hhit ≤ q := Nat.find_min' hhit ⟨Or.inr hq1, by rw [hq2]; exact hje⟩
    have hring := hmono (Nat.find hhit) q hle hq
    have h := (outside_false_iff _).mp hpout
    have hx := (hpos (Nat.find hhit)).1
    have hy := (hpos (Nat.find hhit)).2
    have hr1 : ((SpiralRange.turn^[Nat.find hhit] (SpiralRange.start idx)).x
        + (SpiralRange.turn^[Nat.find hhit] (SpiralRange.start idx)).y * 17) % 17
        = (SpiralRange.turn^[Nat.find hhit] (SpiralRange.start idx)).x := by omega
    have hr2 : ((SpiralRange.turn^[Nat.find hhit] (SpiralRange.start idx)).x
        + (SpiralRange.turn^[Nat.find hhit] (SpiralRange.start idx)).y * 17) / 17
        = (SpiralRange.turn^[Nat.find hhit] (SpiralRange.start idx)).y := by omega
    rw [chebDist_eq, chebDist_eq, hderef, hr1, hr2, hx, hy]
    unfold ringOf at hring
    rw [hqx, hqy] at hring
    exact cheb_aux _ _ _ _ _ _ hring

/-- Witness of C18: the scan from the corner tile `(0,0)` of the grid of wave 0. -/
theorem snapToEmpty_nearest_witness :
    tileAtI arenaMap 0 = some TILE_WALL ∧ Interior 18 ∧ tileAtI arenaMap 18 = some TILE_EMPTY ∧
    ∃ r, snapToEmpty arenaMap (33 * 33) 0 = some r ∧ Interior r ∧
      tileAtI arenaMap r = some TILE_EMPTY ∧
      ∀ j, Interior j → tileAtI arenaMap j = some TILE_EMPTY → chebDist 0 r ≤ chebDist 0 j :=
  ⟨by decide!, by decide!, by decide!,
    snapToEmpty_nearest arenaMap 0 (33 * 33) (by decide!) (by decide!) (by decide!) (by decide!)
      ⟨18, by decide!, by decide!⟩ le_rfl⟩

end Shootzilla
